import Mathlib

/-!
Shallow embedding of the superscalar-cpu assembler (`assembler/assembler.py`)
and decode-table generator (`decoder/decoder.py`), together with proofs of
the specification's claims about them.

Machine integers are modelled as `Nat`/`Int` with explicit masking where the
Python code masks.  Fallible code (Python `error(...)`/`sys.exit`, failing
`assert`s, and exceptions) is modelled with `Except`/`Option` results.
-/

set_option maxHeartbeats 2000000

/-! ## Decoder (`decoder/decoder.py`) -/

namespace Decoder

/-- `unpack(value, offset, length)`: extract a bit field.  The Python
function asserts `offset ≥ 0`, `length ≥ 0`, `offset+length ≤ 16`; every
call site in `decode` passes constants satisfying them, so the function is
modelled total. -/
def unpack (value offset length : Nat) : Nat :=
  (value >>> offset) &&& ((1 <<< length) - 1)

/-- `pack(value, offset, length)`: place a bit field.  The Python function
asserts `value < 2**length` on a *dynamic* argument, so the assert is
modelled as an `Option` failure. -/
def pack (value offset length : Nat) : Option Nat :=
  if offset + length ≤ 16 ∧ value < 2 ^ length then
    some ((value &&& ((1 <<< length) - 1)) <<< offset)
  else
    none

inductive RdMode where
  | Unused
  | R
  | W
  | RW
deriving DecidableEq

def RdMode.toNat : RdMode → Nat
  | .Unused => 0b11
  | .R => 0b10
  | .W => 0b01
  | .RW => 0b00

inductive RsMode where
  | R8
  | R16
  | Imm8
  | Imm4
deriving DecidableEq

def RsMode.toNat : RsMode → Nat
  | .R8 => 0b00
  | .R16 => 0b01
  | .Imm8 => 0b10
  | .Imm4 => 0b11

inductive FlagsMode where
  | Unused
  | R
  | W
  | RW
deriving DecidableEq

def FlagsMode.toNat : FlagsMode → Nat
  | .Unused => 0b11
  | .R => 0b10
  | .W => 0b01
  | .RW => 0b00

inductive PcMode where
  | Step
  | RelJump
  | AbsJump
  | Reserved
deriving DecidableEq

def PcMode.toNat : PcMode → Nat
  | .Step => 0b00
  | .RelJump => 0b01
  | .AbsJump => 0b10
  | .Reserved => 0b11

inductive FU where
  | Move
  | ALU
deriving DecidableEq

def FU.toNat : FU → Nat
  | .Move => 0b00
  | .ALU => 0b01

namespace ALUOp

def ADD : Nat := 0b00000
def ADDC : Nat := 0b00001
def SUB : Nat := 0b00010
def SUBC : Nat := 0b00011
def NOT : Nat := 0b00100
def NEG : Nat := 0b00101
def SHLL : Nat := 0b00110
def SHLC : Nat := 0b00111
def SHRL : Nat := 0b01000
def SHRC : Nat := 0b01001
def SHRA : Nat := 0b01010
def FSWAP : Nat := 0b01100
def AND : Nat := 0b01101
def OR : Nat := 0b01110
def XOR : Nat := 0b01111
def CMV : Nat := 0b10000

end ALUOp

structure Decoded where
  rd : RdMode := .Unused
  rs : RsMode := .Imm4
  flags : FlagsMode := .Unused
  pc : PcMode := .Step
  fuid : FU := .Move
  fuop : Nat := 0
deriving DecidableEq

def alu_unary (op : Nat) (flags : FlagsMode := .W) (rd : RdMode := .RW) : Decoded :=
  { rd := rd, flags := flags, fuid := .ALU, fuop := op }

def alu_binary (op : Nat) (flags : FlagsMode := .W) (rd : RdMode := .RW)
    (rs : RsMode := .R8) : Decoded :=
  { rd := rd, rs := rs, flags := flags, fuid := .ALU, fuop := op }

/-- Local variable `func0` of `decode`: bits 0..3. -/
def func0 (inst : Nat) : Nat := unpack inst 0 4

/-- Local variable `func1` of `decode`: bits 12..15. -/
def func1 (inst : Nat) : Nat := unpack inst 12 4

/-- Local variable `func2` of `decode`: bits 4..7. -/
def func2 (inst : Nat) : Nat := unpack inst 4 4

/-- Local variable `func3` of `decode`: bits 8..11. -/
def func3 (inst : Nat) : Nat := unpack inst 8 4

/-- The `if func0 == 0:` block of `decode` ("basic instructions"): `none`
means the block falls through. -/
def decode_basic (inst : Nat) : Option Decoded :=
  if func0 inst = 0 then
    if inst = 0 then some {} -- nop
    else if func1 inst = 1 then some { rd := .W, rs := .R8, fuid := .Move } -- mv
    else if func1 inst = 2 ∧ func2 inst = 0 then some { rs := .R8, pc := .RelJump } -- jro
    else if func1 inst = 3 ∧ func2 inst = 0 then some { rs := .R16, pc := .AbsJump } -- jr
    else none
  else none

/-- The `if func1 == 0:` chain of unary ALU ops inside the
`if func0 == 1:` block of `decode`. -/
def decode_alu_unary (inst : Nat) : Option Decoded :=
  if func3 inst = 0 then some (alu_unary ALUOp.NOT)
  else if func3 inst = 1 then some (alu_unary ALUOp.NEG)
  else if func3 inst = 2 then some (alu_unary ALUOp.SHLL)
  else if func3 inst = 3 then some (alu_unary ALUOp.SHLC .RW)
  else if func3 inst = 4 then some (alu_unary ALUOp.SHRL)
  else if func3 inst = 5 then some (alu_unary ALUOp.SHRC .RW)
  else if func3 inst = 6 then some (alu_unary ALUOp.SHRA)
  else if func3 inst = 7 then some (alu_unary ALUOp.FSWAP .RW)
  else if func3 inst = 8 then some (alu_unary ALUOp.FSWAP .R .W)
  else if func3 inst = 9 then some (alu_unary ALUOp.FSWAP .W .R)
  else none

/-- The chain of binary ALU ops inside the `if func0 == 1:` block of
`decode`, keyed on `func1`. -/
def decode_alu_binary (inst : Nat) : Option Decoded :=
  if func1 inst = 1 then some (alu_binary ALUOp.ADD)
  else if func1 inst = 2 then some (alu_binary ALUOp.ADDC .RW)
  else if func1 inst = 3 then some (alu_binary ALUOp.SUB)
  else if func1 inst = 4 then some (alu_binary ALUOp.SUBC .RW)
  else if func1 inst = 5 then some (alu_binary ALUOp.AND)
  else if func1 inst = 6 then some (alu_binary ALUOp.OR)
  else if func1 inst = 7 then some (alu_binary ALUOp.XOR)
  else if func1 inst = 8 then some (alu_binary ALUOp.SUB .W .R) -- cmp
  else if func1 inst = 9 then some (alu_binary ALUOp.AND .W .R) -- test
  else if func1 inst = 10 then some (alu_binary ALUOp.ADDC .RW .RW .Imm4) -- addci
  else if func1 inst = 11 then some (alu_binary ALUOp.XOR .W .RW .Imm4) -- xori
  else if func1 inst = 12 then some (alu_binary ALUOp.SUB .W .R .Imm4) -- cmpi
  else none

/-- The `if func0 == 1:` block of `decode` (ALU instructions): the unary
chain (guarded by `func1 == 0`) runs first; if it does not return, the
binary chain is tried. -/
def decode_alu (inst : Nat) : Option Decoded :=
  if func0 inst = 1 then
    (if func1 inst = 0 then decode_alu_unary inst else none).or
      (decode_alu_binary inst)
  else none

/-- The trailing chain of `decode` handling instructions with 8 bit
immediates (`func0` in 8..15). -/
def decode_imm8 (inst : Nat) : Option Decoded :=
  if func0 inst = 8 then some { rd := .W, rs := .Imm8, fuid := .Move } -- ldi
  else if func0 inst = 9 ∧ func2 inst = 0 then some { rs := .Imm8, pc := .RelJump } -- j
  else if func0 inst = 12 then some (alu_binary ALUOp.ADD .W .RW .Imm8) -- addi
  else if func0 inst = 13 then some (alu_binary ALUOp.AND .W .RW .Imm8) -- andi
  else if func0 inst = 14 then some (alu_binary ALUOp.OR .W .RW .Imm8) -- ori
  else if func0 inst = 15 then some (alu_binary ALUOp.AND .W .R .Imm8) -- testi
  else none

/-- The decode function of `decoder/decoder.py`, with the source's block
structure (`if func0 == 0:` block, `if func0 == 1:` block, `cmv`, `cldi`,
8-bit-immediate chain, reserved fall-through) expressed as a chain of
fallible helpers. -/
def decode (inst : Nat) : Decoded :=
  ((decode_basic inst).or
    ((decode_alu inst).or
      -- cmv (0..3=2) and cldi (0..3=3); the condition is in bits 12..15
      (if func0 inst = 2 then some (alu_binary (ALUOp.CMV ||| func1 inst) .R)
       else if func0 inst = 3 then
         some (alu_binary (ALUOp.CMV ||| func1 inst) .R .RW .Imm4)
       else decode_imm8 inst))).getD
    -- Unknown instruction: set the PC mode to the reserved value 3.
    { pc := .Reserved }

/-- One byte of the first ROM: the fill loop does
`rom0_bytes[inst] |= pack(...)` for the four mode fields, starting from a
zeroed byte. -/
def rom0_byte (inst : Nat) : Option Nat := do
  let decoded := decode inst
  let a ← pack decoded.rd.toNat 0 2
  let b ← pack decoded.rs.toNat 2 2
  let c ← pack decoded.flags.toNat 4 2
  let d ← pack decoded.pc.toNat 6 2
  pure ((((0 ||| a) ||| b) ||| c) ||| d)

/-- One byte of the second ROM: functional-unit operation and selector. -/
def rom1_byte (inst : Nat) : Option Nat := do
  let decoded := decode inst
  let a ← pack decoded.fuop 0 6
  let b ← pack decoded.fuid.toNat 6 2
  pure ((0 ||| a) ||| b)

/-- The 2^16-entry ROM images produced by the fill loop. -/
def rom0_bytes : List (Option Nat) := (List.range (2 ^ 16)).map rom0_byte

def rom1_bytes : List (Option Nat) := (List.range (2 ^ 16)).map rom1_byte

/-- A 16-bit word is *recognized* when it matches one of the instruction
patterns `decode` checks for; everything else falls through to the
reserved branch.  The conditions are transcribed one-for-one from the
`if` chain of `decode`. -/
def recognized (inst : Nat) : Prop :=
  let func0 := func0 inst
  let func1 := func1 inst
  let func2 := func2 inst
  let func3 := func3 inst
  (func0 = 0 ∧ inst = 0) ∨
  (func0 = 0 ∧ func1 = 1) ∨
  (func0 = 0 ∧ func1 = 2 ∧ func2 = 0) ∨
  (func0 = 0 ∧ func1 = 3 ∧ func2 = 0) ∨
  (func0 = 1 ∧ func1 = 0 ∧ func3 ≤ 9) ∨
  (func0 = 1 ∧ 1 ≤ func1 ∧ func1 ≤ 12) ∨
  func0 = 2 ∨ func0 = 3 ∨ func0 = 8 ∨
  (func0 = 9 ∧ func2 = 0) ∨
  func0 = 12 ∨ func0 = 13 ∨ func0 = 14 ∨ func0 = 15

instance (inst : Nat) : Decidable (recognized inst) := by
  unfold recognized
  exact inferInstance

/-! ### Arithmetic characterizations of the bit-field helpers -/

theorem unpack_eq (v o l : Nat) : unpack v o l = v / 2 ^ o % 2 ^ l := by
  unfold unpack
  rw [Nat.shiftRight_eq_div_pow]
  have h : (1 : Nat) <<< l = 2 ^ l := by rw [Nat.shiftLeft_eq, one_mul]
  rw [h, Nat.and_pow_two_sub_one_eq_mod]

theorem func0_eq (w : Nat) : func0 w = w % 16 := by
  unfold func0; rw [unpack_eq]; norm_num

theorem func1_eq (w : Nat) : func1 w = w / 4096 % 16 := by
  unfold func1; rw [unpack_eq]; norm_num

theorem func2_eq (w : Nat) : func2 w = w / 16 % 16 := by
  unfold func2; rw [unpack_eq]; norm_num

theorem func3_eq (w : Nat) : func3 w = w / 256 % 16 := by
  unfold func3; rw [unpack_eq]; norm_num

theorem unpack_lt (v o l : Nat) : unpack v o l < 2 ^ l := by
  rw [unpack_eq]; exact Nat.mod_lt _ (Nat.pos_pow_of_pos l (by norm_num))

theorem func1_lt (w : Nat) : func1 w < 16 := unpack_lt w 12 4

theorem func3_lt (w : Nat) : func3 w < 16 := unpack_lt w 8 4

theorem pack_eq {v l : Nat} (o : Nat) (h1 : o + l ≤ 16) (h2 : v < 2 ^ l) :
    pack v o l = some (v <<< o) := by
  unfold pack
  rw [if_pos ⟨h1, h2⟩]
  have h : (1 : Nat) <<< l = 2 ^ l := by rw [Nat.shiftLeft_eq, one_mul]
  rw [h, Nat.and_pow_two_sub_one_of_lt_two_pow h2]

theorem lor_shiftLeft_eq_add {a : Nat} (b k : Nat) (h : a < 2 ^ k) :
    a ||| b <<< k = 2 ^ k * b + a := by
  rw [Nat.shiftLeft_eq, Nat.mul_add_lt_is_or h b, Nat.mul_comm (2 ^ k) b]
  exact Nat.lor_comm _ _

theorem RdMode.rd_toNat_lt (m : RdMode) : m.toNat < 4 := by cases m <;> decide

theorem RsMode.rs_toNat_lt (m : RsMode) : m.toNat < 4 := by cases m <;> decide

theorem FlagsMode.flags_toNat_lt (m : FlagsMode) : m.toNat < 4 := by cases m <;> decide

theorem PcMode.pc_toNat_lt (m : PcMode) : m.toNat < 4 := by cases m <;> decide

theorem FU.fu_toNat_lt (f : FU) : f.toNat < 4 := by cases f <;> decide

theorem decode_basic_fuop {w : Nat} {d : Decoded} (h : decode_basic w = some d) :
    d.fuop < 64 := by
  unfold decode_basic at h
  by_cases h0 : func0 w = 0
  case neg => rw [if_neg h0] at h; cases h
  rw [if_pos h0] at h
  by_cases hz : w = 0
  case pos => rw [if_pos hz] at h; cases h; decide
  rw [if_neg hz] at h
  by_cases h1 : func1 w = 1
  case pos => rw [if_pos h1] at h; cases h; decide
  rw [if_neg h1] at h
  by_cases h2 : func1 w = 2 ∧ func2 w = 0
  case pos => rw [if_pos h2] at h; cases h; decide
  rw [if_neg h2] at h
  by_cases h3 : func1 w = 3 ∧ func2 w = 0
  case pos => rw [if_pos h3] at h; cases h; decide
  rw [if_neg h3] at h
  cases h

theorem decode_alu_unary_fuop {w : Nat} {d : Decoded}
    (h : decode_alu_unary w = some d) : d.fuop < 64 := by
  have hlt := func3_lt w
  have hc : func3 w = 0 ∨ func3 w = 1 ∨ func3 w = 2 ∨ func3 w = 3 ∨
      func3 w = 4 ∨ func3 w = 5 ∨ func3 w = 6 ∨ func3 w = 7 ∨ func3 w = 8 ∨
      func3 w = 9 ∨ func3 w = 10 ∨ func3 w = 11 ∨ func3 w = 12 ∨
      func3 w = 13 ∨ func3 w = 14 ∨ func3 w = 15 := by omega
  rcases hc with hk|hk|hk|hk|hk|hk|hk|hk|hk|hk|hk|hk|hk|hk|hk|hk <;>
    simp [decode_alu_unary, hk] at h <;> subst h <;> decide

theorem decode_alu_binary_fuop {w : Nat} {d : Decoded}
    (h : decode_alu_binary w = some d) : d.fuop < 64 := by
  have hlt := func1_lt w
  have hc : func1 w = 0 ∨ func1 w = 1 ∨ func1 w = 2 ∨ func1 w = 3 ∨
      func1 w = 4 ∨ func1 w = 5 ∨ func1 w = 6 ∨ func1 w = 7 ∨ func1 w = 8 ∨
      func1 w = 9 ∨ func1 w = 10 ∨ func1 w = 11 ∨ func1 w = 12 ∨
      func1 w = 13 ∨ func1 w = 14 ∨ func1 w = 15 := by omega
  rcases hc with hk|hk|hk|hk|hk|hk|hk|hk|hk|hk|hk|hk|hk|hk|hk|hk <;>
    simp [decode_alu_binary, hk] at h <;> subst h <;> decide

theorem decode_alu_fuop {w : Nat} {d : Decoded} (h : decode_alu w = some d) :
    d.fuop < 64 := by
  unfold decode_alu at h
  by_cases h0 : func0 w = 1
  case neg => rw [if_neg h0] at h; cases h
  rw [if_pos h0] at h
  rw [Option.or_eq_some] at h
  rcases h with h | ⟨-, h⟩
  · by_cases h1 : func1 w = 0
    · rw [if_pos h1] at h; exact decode_alu_unary_fuop h
    · rw [if_neg h1] at h; cases h
  · exact decode_alu_binary_fuop h

theorem decode_imm8_fuop {w : Nat} {d : Decoded} (h : decode_imm8 w = some d) :
    d.fuop < 64 := by
  unfold decode_imm8 at h
  by_cases h8 : func0 w = 8
  case pos => rw [if_pos h8] at h; cases h; decide
  rw [if_neg h8] at h
  by_cases h9 : func0 w = 9 ∧ func2 w = 0
  case pos => rw [if_pos h9] at h; cases h; decide
  rw [if_neg h9] at h
  by_cases h12 : func0 w = 12
  case pos => rw [if_pos h12] at h; cases h; decide
  rw [if_neg h12] at h
  by_cases h13 : func0 w = 13
  case pos => rw [if_pos h13] at h; cases h; decide
  rw [if_neg h13] at h
  by_cases h14 : func0 w = 14
  case pos => rw [if_pos h14] at h; cases h; decide
  rw [if_neg h14] at h
  by_cases h15 : func0 w = 15
  case pos => rw [if_pos h15] at h; cases h; decide
  rw [if_neg h15] at h
  cases h

/-- Every decode result has a functional-unit operation below 2^6 = 64, so
the `pack(decoded.fuop, 0, 6)` assert never fires. -/
theorem decode_fuop_lt (w : Nat) : (decode w).fuop < 64 := by
  have h1 := func1_lt w
  unfold decode
  cases hb : decode_basic w with
  | some d => rw [Option.or_some]; exact decode_basic_fuop hb
  | none =>
  rw [Option.none_or]
  cases ha : decode_alu w with
  | some d => rw [Option.or_some]; exact decode_alu_fuop ha
  | none =>
  rw [Option.none_or]
  by_cases h2 : func0 w = 2
  · rw [if_pos h2]
    exact Nat.or_lt_two_pow (n := 6) (by decide)
      (lt_of_lt_of_le h1 (by norm_num))
  rw [if_neg h2]
  by_cases h3 : func0 w = 3
  · rw [if_pos h3]
    exact Nat.or_lt_two_pow (n := 6) (by decide)
      (lt_of_lt_of_le h1 (by norm_num))
  rw [if_neg h3]
  cases hi : decode_imm8 w with
  | some d => exact decode_imm8_fuop hi
  | none => decide

/-- `rom0_bytes[n]` is filled without failure, with the four decoded mode
fields packed at bit offsets 0, 2, 4 and 6. -/
theorem rom0_byte_eq (n : Nat) :
    rom0_byte n = some ((decode n).rd.toNat + 4 * (decode n).rs.toNat +
      16 * (decode n).flags.toNat + 64 * (decode n).pc.toNat) := by
  unfold rom0_byte
  dsimp only
  rw [pack_eq 0 (by norm_num) (by simpa using RdMode.rd_toNat_lt _),
      pack_eq 2 (by norm_num) (by simpa using RsMode.rs_toNat_lt _),
      pack_eq 4 (by norm_num) (by simpa using FlagsMode.flags_toNat_lt _),
      pack_eq 6 (by norm_num) (by simpa using PcMode.pc_toNat_lt _)]
  simp only [Option.bind_eq_bind, Option.some_bind, Nat.zero_or]
  have h1 : (decode n).rd.toNat <<< 0 = (decode n).rd.toNat := by
    rw [Nat.shiftLeft_eq]; norm_num
  rw [h1]
  rw [lor_shiftLeft_eq_add _ 2 (RdMode.rd_toNat_lt _)]
  rw [lor_shiftLeft_eq_add _ 4 (by
    have := RdMode.rd_toNat_lt (decode n).rd
    have := RsMode.rs_toNat_lt (decode n).rs
    omega)]
  rw [lor_shiftLeft_eq_add _ 6 (by
    have := RdMode.rd_toNat_lt (decode n).rd
    have := RsMode.rs_toNat_lt (decode n).rs
    have := FlagsMode.flags_toNat_lt (decode n).flags
    omega)]
  congr 1
  omega

/-- `rom1_bytes[n]` is filled without failure: the 6-bit functional-unit
operation at offset 0 and the selector at offset 6. -/
theorem rom1_byte_eq (n : Nat) :
    rom1_byte n = some ((decode n).fuop + 64 * (decode n).fuid.toNat) := by
  unfold rom1_byte
  dsimp only
  rw [pack_eq 0 (by norm_num) (by simpa using decode_fuop_lt n),
      pack_eq 6 (by norm_num) (by
        have := FU.fu_toNat_lt (decode n).fuid
        omega)]
  simp only [Option.bind_eq_bind, Option.some_bind, Nat.zero_or]
  have h1 : (decode n).fuop <<< 0 = (decode n).fuop := by
    rw [Nat.shiftLeft_eq]; norm_num
  rw [h1, lor_shiftLeft_eq_add _ 6 (by simpa using decode_fuop_lt n)]
  congr 1
  omega

theorem decode_basic_eq_none {w : Nat} (h : ¬ recognized w) :
    decode_basic w = none := by
  unfold recognized at h
  unfold decode_basic
  dsimp only at h
  split_ifs <;> first
    | rfl
    | (exfalso; omega)

theorem decode_alu_unary_eq_none {w : Nat} (h : ¬ func3 w ≤ 9) :
    decode_alu_unary w = none := by
  have h0 : func3 w ≠ 0 := by omega
  have h1 : func3 w ≠ 1 := by omega
  have h2 : func3 w ≠ 2 := by omega
  have h3 : func3 w ≠ 3 := by omega
  have h4 : func3 w ≠ 4 := by omega
  have h5 : func3 w ≠ 5 := by omega
  have h6 : func3 w ≠ 6 := by omega
  have h7 : func3 w ≠ 7 := by omega
  have h8 : func3 w ≠ 8 := by omega
  have h9 : func3 w ≠ 9 := by omega
  simp [decode_alu_unary, h0, h1, h2, h3, h4, h5, h6, h7, h8, h9]

theorem decode_alu_binary_eq_none {w : Nat} (h : ¬ (1 ≤ func1 w ∧ func1 w ≤ 12)) :
    decode_alu_binary w = none := by
  have h1 : func1 w ≠ 1 := by omega
  have h2 : func1 w ≠ 2 := by omega
  have h3 : func1 w ≠ 3 := by omega
  have h4 : func1 w ≠ 4 := by omega
  have h5 : func1 w ≠ 5 := by omega
  have h6 : func1 w ≠ 6 := by omega
  have h7 : func1 w ≠ 7 := by omega
  have h8 : func1 w ≠ 8 := by omega
  have h9 : func1 w ≠ 9 := by omega
  have h10 : func1 w ≠ 10 := by omega
  have h11 : func1 w ≠ 11 := by omega
  have h12 : func1 w ≠ 12 := by omega
  simp [decode_alu_binary, h1, h2, h3, h4, h5, h6, h7, h8, h9, h10, h11, h12]

theorem decode_alu_eq_none {w : Nat} (h : ¬ recognized w) :
    decode_alu w = none := by
  unfold recognized at h
  dsimp only at h
  unfold decode_alu
  split_ifs with h0 h1
  · rw [decode_alu_unary_eq_none (by omega), decode_alu_binary_eq_none (by omega)]
    rfl
  · rw [decode_alu_binary_eq_none (by omega)]
    rfl
  · rfl

theorem decode_imm8_eq_none {w : Nat} (h : ¬ recognized w) :
    decode_imm8 w = none := by
  unfold recognized at h
  unfold decode_imm8
  dsimp only at h
  split_ifs <;> first
    | rfl
    | (exfalso; omega)

/-- Unrecognized words fall through to the reserved decode result. -/
theorem decode_of_not_recognized {w : Nat} (h : ¬ recognized w) :
    decode w = { pc := .Reserved } := by
  have h2 : ¬ func0 w = 2 := by
    unfold recognized at h; dsimp only at h; omega
  have h3 : ¬ func0 w = 3 := by
    unfold recognized at h; dsimp only at h; omega
  unfold decode
  rw [decode_basic_eq_none h, decode_alu_eq_none h, decode_imm8_eq_none h,
    if_neg h2, if_neg h3]
  rfl

end Decoder

/-! ## Assembler data model (`assembler/assembler.py`) -/

namespace Assembler

/-- A condition code (`class Condition`). -/
inductive Condition where
  | C | NC | Z | NZ | S | NS | O | NO | EQ | NE
  | UGE | ULT | ULE | UGT | SLT | SGE | SLE | SGT
deriving DecidableEq

/-- `CONDITION_ENCODING`: 4-bit encodings; several names intentionally
alias the same bit pattern. -/
def CONDITION_ENCODING : Condition → Nat
  | .C => 0b0010
  | .NC => 0b0011
  | .Z => 0b0100
  | .NZ => 0b0101
  | .S => 0b0110
  | .NS => 0b0111
  | .O => 0b1000
  | .NO => 0b1001
  | .EQ => 0b0100
  | .NE => 0b0101
  | .UGE => 0b0010
  | .ULT => 0b0011
  | .ULE => 0b1010
  | .UGT => 0b1011
  | .SLT => 0b1100
  | .SGE => 0b1101
  | .SLE => 0b1110
  | .SGT => 0b1111

/-- The lower-case name of a condition code (`cond.name.lower()`). -/
def Condition.lowerName : Condition → String
  | .C => "c"
  | .NC => "nc"
  | .Z => "z"
  | .NZ => "nz"
  | .S => "s"
  | .NS => "ns"
  | .O => "o"
  | .NO => "no"
  | .EQ => "eq"
  | .NE => "ne"
  | .UGE => "uge"
  | .ULT => "ult"
  | .ULE => "ule"
  | .UGT => "ugt"
  | .SLT => "slt"
  | .SGE => "sge"
  | .SLE => "sle"
  | .SGT => "sgt"

/-- All condition codes, in declaration order (`for cond in Condition`). -/
def allConditions : List Condition :=
  [.C, .NC, .Z, .NZ, .S, .NS, .O, .NO, .EQ, .NE,
   .UGE, .ULT, .ULE, .UGT, .SLT, .SGE, .SLE, .SGT]

/-- `CONDITION_BY_NAME` lookup: the Python dict maps each condition's
lower-case name to the condition. -/
def CONDITION_BY_NAME (s : String) : Option Condition :=
  allConditions.find? (fun c => c.lowerName = s)

/-- `class Offset`: a jump/branch target before and after resolution.  The
source stores the binding as a direct reference to the defining
`Instruction`; since the program is never restructured after parsing, it
is modelled here as the program index of that instruction. -/
structure Offset where
  name : String
  binding : Option Nat := none
  offset : Option Int := none
deriving DecidableEq

/-- An instruction operand (`class Operand`): the `OperandKind` tag and
the `value` payload of the Python pair become one tagged value. -/
inductive Operand where
  | imm (value : Int)
  | reg (idx : Nat)
  | regPair (lo : Nat)
  | cond (c : Condition)
  | label (name : String)
  | offset (o : Offset)
deriving DecidableEq

/-- `class Opcode`. -/
inductive Opcode where
  -- Actual instructions
  | NOP | LDI | MV | JR | J | JRO | BR | B | BRO
  | LCDCW | LCDDW | LCDCR | LCDDR
  | NOT | NEG | ADD | ADDI | SUB | ADDC | ADDCI | SUBC
  | SHLL | SHLC | SHRL | SHRC | SHRA
  | AND | ANDI | OR | ORI | XOR | XORI
  | CMP | CMPI | TEST | TESTI
  | FSWAP | FR | FW | CMV | CLDI
  -- Pseudo-instructions
  | HALT
  -- Assembler directives
  | D_ORG | D_LABEL
deriving DecidableEq

/-- `class Instruction`. -/
structure Instruction where
  opcode : Opcode
  operands : List Operand := []
  address : Option Nat := none
  encoding : Option Nat := none
deriving DecidableEq

/-- The fatal diagnostics of the assembler (`error(...)` + `sys.exit(1)`),
as structured values carrying what the Python message interpolates.
`pyError` stands for unmodelled Python exceptions (e.g. operations on
`None`), which also abort the process. -/
inductive AsmError where
  | encodeBitsAssert
  | expectedRd (got : Operand)
  | expectedRs (got : Operand)
  | expectedRs16 (got : Operand)
  | expectedCond (got : Operand)
  | expectedImm (got : Operand)
  | immOutOfBounds (value lower upper : Int)
  | duplicateLabel (name : String)
  | unknownLabel (name : String)
  | unknownRelativeLabel (name : String) (forward : Bool)
  | orgBehind (org : Int) (current : Nat)
  | sizeExceeded (size outputSize : Nat)
  | regPairNotConsecutive (hi lo : Nat)
  | expectedRegister
  | expectedRegisterPair
  | expectedCondCode
  | expectedInteger (base : Nat)
  | expectedIntegerOrLabel
  | expectedToken (tok : String)
  | unknownInstruction
  | pyError (msg : String)
deriving DecidableEq

/-- The message of the out-of-bounds diagnostic, as formatted by
`InstructionEncoder.check_imm`. -/
def AsmError.render : AsmError → String
  | .immOutOfBounds v lo hi =>
      s!"immediate value {v} is out of bounds; expected {lo} <= value < {hi}"
  | .duplicateLabel name => s!"label `{name}` already defined"
  | .unknownLabel name => s!"unknown label `{name}`"
  | .unknownRelativeLabel name forward =>
      s!"unknown label `{name}` " ++ (if forward then "after" else "before")
        ++ " instruction"
  | .regPairNotConsecutive hi lo =>
      s!"registers in 16 bit register pair must be consecutive; got r{hi}r{lo}"
  | _ => ""

end Assembler

/-! ## Instruction encoder (`class InstructionEncoder`) -/

namespace Assembler

/-- `InstructionEncoder.encode_bits`: store `value` into bits
`offset..offset+length` of the 16-bit accumulator.  The Python code
builds `mask = ((1 << length) - 1) << offset`, clears `encoding & ~mask`,
and ors in `value << offset`; with the asserted `value < 2**length`,
clearing the field subtracts `acc / 2^offset % 2^length * 2^offset` and
or-ing into the cleared field adds `value * 2^offset`, which is the
arithmetic form used here.  The asserts on dynamic `value` are modelled
as a failure. -/
def encode_bits (offset length value acc : Nat) : Except AsmError Nat :=
  if offset + length ≤ 16 ∧ value < 2 ^ length then
    .ok (acc - acc / 2 ^ offset % 2 ^ length * 2 ^ offset + value * 2 ^ offset)
  else
    .error .encodeBitsAssert

/-- `encode_rd`: a register operand, biased by +1, in bits 4..7.  The
Python check `value < 0 or value > 6` reduces to `value > 6` for the
`Nat`-valued register index. -/
def encode_rd (operand : Operand) (acc : Nat) : Except AsmError Nat :=
  match operand with
  | .reg v => if v > 6 then .error (.expectedRd operand) else encode_bits 4 4 (v + 1) acc
  | _ => .error (.expectedRd operand)

/-- `encode_rs`: a register operand, biased by +1, in bits 8..11. -/
def encode_rs (operand : Operand) (acc : Nat) : Except AsmError Nat :=
  match operand with
  | .reg v => if v > 6 then .error (.expectedRs operand) else encode_bits 8 4 (v + 1) acc
  | _ => .error (.expectedRs operand)

/-- `encode_rs16`: a register-pair operand, biased by +1, in bits 8..11. -/
def encode_rs16 (operand : Operand) (acc : Nat) : Except AsmError Nat :=
  match operand with
  | .regPair v =>
    if v > 5 then .error (.expectedRs16 operand) else encode_bits 8 4 (v + 1) acc
  | _ => .error (.expectedRs16 operand)

/-- `check_imm`: an immediate (or resolved offset) checked against
`lower <= value < upper`.  An `Offset` operand with no computed
displacement makes the Python comparison `None < lower` raise. -/
def check_imm (operand : Operand) (lower upper : Int) : Except AsmError Int :=
  match operand with
  | .imm v =>
    if v < lower ∨ v ≥ upper then .error (.immOutOfBounds v lower upper) else .ok v
  | .offset o =>
    match o.offset with
    | some v =>
      if v < lower ∨ v ≥ upper then .error (.immOutOfBounds v lower upper) else .ok v
    | none => .error (.pyError "offset not evaluated")
  | _ => .error (.expectedImm operand)

/-- `encode_imm8`: Python masks with `value & 0xFF`, which on a (possibly
negative) Python int equals `value mod 256`. -/
def encode_imm8 (operand : Operand) (acc : Nat) : Except AsmError Nat := do
  let value ← check_imm operand (-128) 256
  encode_bits 8 8 ((value % 256).toNat) acc

/-- `encode_simm8`. -/
def encode_simm8 (operand : Operand) (acc : Nat) : Except AsmError Nat := do
  let value ← check_imm operand (-128) 128
  encode_bits 8 8 ((value % 256).toNat) acc

/-- `encode_simm4`: Python masks with `value & 0xF` = `value mod 16`. -/
def encode_simm4 (operand : Operand) (acc : Nat) : Except AsmError Nat := do
  let value ← check_imm operand (-8) 8
  encode_bits 8 4 ((value % 16).toNat) acc

/-- `encode_cond1`: condition code in bits 4..7 (the `rd` field). -/
def encode_cond1 (operand : Operand) (acc : Nat) : Except AsmError Nat :=
  match operand with
  | .cond c => encode_bits 4 4 (CONDITION_ENCODING c) acc
  | _ => .error (.expectedCond operand)

/-- `encode_cond2`: condition code in bits 12..15. -/
def encode_cond2 (operand : Operand) (acc : Nat) : Except AsmError Nat :=
  match operand with
  | .cond c => encode_bits 12 4 (CONDITION_ENCODING c) acc
  | _ => .error (.expectedCond operand)

/-- `inst.operands[i]`: a missing operand raises an `IndexError` in
Python. -/
def arg (inst : Instruction) (i : Nat) : Except AsmError Operand :=
  match inst.operands.get? i with
  | some op => .ok op
  | none => .error (.pyError "operand index out of range")

/-- `InstructionEncoder.encode_instruction`, returning the final
accumulator (`none` for the two directives, which clear the encoding). -/
def encode_instruction (inst : Instruction) : Except AsmError (Option Nat) := do
  match inst.opcode with
  | .NOP => do
    let a ← encode_bits 0 16 0x0000 0
    return some a
  | .LDI => do
    let a ← encode_bits 0 4 8 0
    let a ← encode_rd (← arg inst 0) a
    let a ← encode_imm8 (← arg inst 1) a
    return some a
  | .MV => do
    let a ← encode_bits 0 4 0 0
    let a ← encode_bits 12 4 1 a
    let a ← encode_rd (← arg inst 0) a
    let a ← encode_rs (← arg inst 1) a
    return some a
  | .JR => do
    let a ← encode_bits 0 4 0 0
    let a ← encode_bits 4 4 0 a
    let a ← encode_bits 12 4 3 a
    let a ← encode_rs16 (← arg inst 0) a
    return some a
  | .J => do
    let a ← encode_bits 0 4 9 0
    let a ← encode_bits 4 4 0 a
    let a ← encode_simm8 (← arg inst 0) a
    return some a
  | .JRO => do
    let a ← encode_bits 0 4 0 0
    let a ← encode_bits 4 4 0 a
    let a ← encode_bits 12 4 2 a
    let a ← encode_rs (← arg inst 0) a
    return some a
  | .BR => do
    let a ← encode_bits 0 4 0 0
    let a ← encode_cond1 (← arg inst 0) a
    let a ← encode_bits 12 4 3 a
    let a ← encode_rs16 (← arg inst 1) a
    return some a
  | .B => do
    let a ← encode_bits 0 4 9 0
    let a ← encode_cond1 (← arg inst 0) a
    let a ← encode_simm8 (← arg inst 1) a
    return some a
  | .BRO => do
    let a ← encode_bits 0 4 0 0
    let a ← encode_cond1 (← arg inst 0) a
    let a ← encode_bits 12 4 2 a
    let a ← encode_rs (← arg inst 1) a
    return some a
  | .LCDCW => do
    let a ← encode_bits 0 4 0 0
    let a ← encode_bits 12 4 4 a
    let a ← encode_bits 8 4 0 a
    let a ← encode_rd (← arg inst 0) a
    return some a
  | .LCDDW => do
    let a ← encode_bits 0 4 0 0
    let a ← encode_bits 12 4 4 a
    let a ← encode_bits 8 4 1 a
    let a ← encode_rd (← arg inst 0) a
    return some a
  | .LCDCR => do
    let a ← encode_bits 0 4 0 0
    let a ← encode_bits 12 4 4 a
    let a ← encode_bits 8 4 2 a
    let a ← encode_rd (← arg inst 0) a
    return some a
  | .LCDDR => do
    let a ← encode_bits 0 4 0 0
    let a ← encode_bits 12 4 4 a
    let a ← encode_bits 8 4 3 a
    let a ← encode_rd (← arg inst 0) a
    return some a
  | .NOT => do
    let a ← encode_bits 0 4 1 0
    let a ← encode_bits 12 4 0 a
    let a ← encode_bits 8 4 0 a
    let a ← encode_rd (← arg inst 0) a
    return some a
  | .NEG => do
    let a ← encode_bits 0 4 1 0
    let a ← encode_bits 12 4 0 a
    let a ← encode_bits 8 4 1 a
    let a ← encode_rd (← arg inst 0) a
    return some a
  | .ADD => do
    let a ← encode_bits 0 4 1 0
    let a ← encode_bits 12 4 1 a
    let a ← encode_rd (← arg inst 0) a
    let a ← encode_rs (← arg inst 1) a
    return some a
  | .ADDI => do
    let a ← encode_bits 0 4 12 0
    let a ← encode_rd (← arg inst 0) a
    let a ← encode_imm8 (← arg inst 1) a
    return some a
  | .SUB => do
    let a ← encode_bits 0 4 1 0
    let a ← encode_bits 12 4 3 a
    let a ← encode_rd (← arg inst 0) a
    let a ← encode_rs (← arg inst 1) a
    return some a
  | .ADDC => do
    let a ← encode_bits 0 4 1 0
    let a ← encode_bits 12 4 2 a
    let a ← encode_rd (← arg inst 0) a
    let a ← encode_rs (← arg inst 1) a
    return some a
  | .ADDCI => do
    let a ← encode_bits 0 4 1 0
    let a ← encode_bits 12 4 10 a
    let a ← encode_rd (← arg inst 0) a
    let a ← encode_simm4 (← arg inst 1) a
    return some a
  | .SUBC => do
    let a ← encode_bits 0 4 1 0
    let a ← encode_bits 12 4 4 a
    let a ← encode_rd (← arg inst 0) a
    let a ← encode_rs (← arg inst 1) a
    return some a
  | .SHLL => do
    let a ← encode_bits 0 4 1 0
    let a ← encode_bits 12 4 0 a
    let a ← encode_bits 8 4 2 a
    let a ← encode_rd (← arg inst 0) a
    return some a
  | .SHLC => do
    let a ← encode_bits 0 4 1 0
    let a ← encode_bits 12 4 0 a
    let a ← encode_bits 8 4 3 a
    let a ← encode_rd (← arg inst 0) a
    return some a
  | .SHRL => do
    let a ← encode_bits 0 4 1 0
    let a ← encode_bits 12 4 0 a
    let a ← encode_bits 8 4 4 a
    let a ← encode_rd (← arg inst 0) a
    return some a
  | .SHRC => do
    let a ← encode_bits 0 4 1 0
    let a ← encode_bits 12 4 0 a
    let a ← encode_bits 8 4 5 a
    let a ← encode_rd (← arg inst 0) a
    return some a
  | .SHRA => do
    let a ← encode_bits 0 4 1 0
    let a ← encode_bits 12 4 0 a
    let a ← encode_bits 8 4 6 a
    let a ← encode_rd (← arg inst 0) a
    return some a
  | .AND => do
    let a ← encode_bits 0 4 1 0
    let a ← encode_bits 12 4 5 a
    let a ← encode_rd (← arg inst 0) a
    let a ← encode_rs (← arg inst 1) a
    return some a
  | .ANDI => do
    let a ← encode_bits 0 4 13 0
    let a ← encode_rd (← arg inst 0) a
    let a ← encode_imm8 (← arg inst 1) a
    return some a
  | .OR => do
    let a ← encode_bits 0 4 1 0
    let a ← encode_bits 12 4 6 a
    let a ← encode_rd (← arg inst 0) a
    let a ← encode_rs (← arg inst 1) a
    return some a
  | .ORI => do
    let a ← encode_bits 0 4 14 0
    let a ← encode_rd (← arg inst 0) a
    let a ← encode_imm8 (← arg inst 1) a
    return some a
  | .XOR => do
    let a ← encode_bits 0 4 1 0
    let a ← encode_bits 12 4 7 a
    let a ← encode_rd (← arg inst 0) a
    let a ← encode_rs (← arg inst 1) a
    return some a
  | .XORI => do
    let a ← encode_bits 0 4 1 0
    let a ← encode_bits 12 4 11 a
    let a ← encode_rd (← arg inst 0) a
    let a ← encode_simm4 (← arg inst 1) a
    return some a
  | .CMP => do
    let a ← encode_bits 0 4 1 0
    let a ← encode_bits 12 4 8 a
    let a ← encode_rd (← arg inst 0) a
    let a ← encode_rs (← arg inst 1) a
    return some a
  | .CMPI => do
    let a ← encode_bits 0 4 1 0
    let a ← encode_bits 12 4 12 a
    let a ← encode_rd (← arg inst 0) a
    let a ← encode_simm4 (← arg inst 1) a
    return some a
  | .TEST => do
    let a ← encode_bits 0 4 1 0
    let a ← encode_bits 12 4 9 a
    let a ← encode_rd (← arg inst 0) a
    let a ← encode_rs (← arg inst 1) a
    return some a
  | .TESTI => do
    let a ← encode_bits 0 4 15 0
    let a ← encode_rd (← arg inst 0) a
    let a ← encode_imm8 (← arg inst 1) a
    return some a
  | .FSWAP => do
    let a ← encode_bits 0 4 1 0
    let a ← encode_bits 12 4 0 a
    let a ← encode_bits 8 4 7 a
    let a ← encode_rd (← arg inst 0) a
    return some a
  | .FR => do
    let a ← encode_bits 0 4 1 0
    let a ← encode_bits 12 4 0 a
    let a ← encode_bits 8 4 8 a
    let a ← encode_rd (← arg inst 0) a
    return some a
  | .FW => do
    let a ← encode_bits 0 4 1 0
    let a ← encode_bits 12 4 0 a
    let a ← encode_bits 8 4 9 a
    let a ← encode_rd (← arg inst 0) a
    return some a
  | .CMV => do
    let a ← encode_bits 0 4 2 0
    let a ← encode_cond2 (← arg inst 0) a
    let a ← encode_rd (← arg inst 1) a
    let a ← encode_rs (← arg inst 2) a
    return some a
  | .CLDI => do
    let a ← encode_bits 0 4 3 0
    let a ← encode_cond2 (← arg inst 0) a
    let a ← encode_rd (← arg inst 1) a
    let a ← encode_simm4 (← arg inst 2) a
    return some a
  -- Pseudo-instructions
  | .HALT => do
    let a ← encode_bits 0 16 0x0009 0
    return some a
  -- Directives: `self.encoding = None`
  | .D_ORG => return none
  | .D_LABEL => return none

/-- `encode_program`: set every instruction's encoding. -/
def encode_program (program : List Instruction) :
    Except AsmError (List Instruction) :=
  program.mapM fun inst => do
    let e ← encode_instruction inst
    return { inst with encoding := e }

@[simp] theorem exbind_ok {α β : Type} (x : α) (f : α → Except AsmError β) :
    (Except.ok x >>= f) = f x := rfl

@[simp] theorem exbind_error {α β : Type} (e : AsmError) (f : α → Except AsmError β) :
    ((Except.error e : Except AsmError α) >>= f) = .error e := rfl

theorem emod_toNat_lt (v : Int) {n : Nat} (h : 0 < n) : (v.emod n).toNat < n := by
  have h1 : 0 ≤ v.emod n := Int.emod_nonneg v (by exact_mod_cast h.ne')
  have h2 : v.emod n < n := Int.emod_lt_of_pos v (by exact_mod_cast h)
  omega

theorem encode_imm8_ok_iff (v : Int) (acc : Nat) :
    (∃ w, encode_imm8 (.imm v) acc = .ok w) ↔ (-128 ≤ v ∧ v < 256) := by
  simp only [encode_imm8, check_imm]
  by_cases h : v < -128 ∨ v ≥ 256
  · rw [if_pos h]
    simp only [exbind_error]
    constructor
    · rintro ⟨w, hw⟩
      simp at hw
    · intro hr
      exfalso
      omega
  · rw [if_neg h]
    simp only [exbind_ok]
    unfold encode_bits
    rw [if_pos ⟨by norm_num, emod_toNat_lt v (by norm_num)⟩]
    constructor
    · intro _
      omega
    · intro _
      exact ⟨_, rfl⟩

theorem encode_simm8_ok_iff (v : Int) (acc : Nat) :
    (∃ w, encode_simm8 (.imm v) acc = .ok w) ↔ (-128 ≤ v ∧ v < 128) := by
  simp only [encode_simm8, check_imm]
  by_cases h : v < -128 ∨ v ≥ 128
  · rw [if_pos h]
    simp only [exbind_error]
    constructor
    · rintro ⟨w, hw⟩
      simp at hw
    · intro hr
      exfalso
      omega
  · rw [if_neg h]
    simp only [exbind_ok]
    unfold encode_bits
    rw [if_pos ⟨by norm_num, emod_toNat_lt v (by norm_num)⟩]
    constructor
    · intro _
      omega
    · intro _
      exact ⟨_, rfl⟩

theorem encode_simm4_ok_iff (v : Int) (acc : Nat) :
    (∃ w, encode_simm4 (.imm v) acc = .ok w) ↔ (-8 ≤ v ∧ v < 8) := by
  simp only [encode_simm4, check_imm]
  by_cases h : v < -8 ∨ v ≥ 8
  · rw [if_pos h]
    simp only [exbind_error]
    constructor
    · rintro ⟨w, hw⟩
      simp at hw
    · intro hr
      exfalso
      omega
  · rw [if_neg h]
    simp only [exbind_ok]
    unfold encode_bits
    rw [if_pos ⟨by norm_num, emod_toNat_lt v (by norm_num)⟩]
    constructor
    · intro _
      omega
    · intro _
      exact ⟨_, rfl⟩

end Assembler

/-! ## Encode/decode round-trip lemmas -/

namespace Roundtrip

open Decoder Assembler

theorem encode_bits_ok {o l v : Nat} (acc : Nat) (h1 : o + l ≤ 16)
    (h2 : v < 2 ^ l) :
    encode_bits o l v acc =
      .ok (acc - acc / 2 ^ o % 2 ^ l * 2 ^ o + v * 2 ^ o) := by
  unfold encode_bits
  rw [if_pos ⟨h1, h2⟩]

theorem cond_enc_bounds (c : Condition) :
    2 ≤ CONDITION_ENCODING c ∧ CONDITION_ENCODING c ≤ 15 := by
  cases c <;> decide

theorem encode_rd_val {rd : Nat} (acc : Nat) (h : rd ≤ 6) :
    encode_rd (.reg rd) acc =
      .ok (acc - acc / 16 % 16 * 16 + (rd + 1) * 16) := by
  simp only [encode_rd]
  rw [if_neg (by omega), encode_bits_ok _ (by norm_num) (by omega)]
  exact congrArg Except.ok (by omega)

theorem encode_rs_val {rs : Nat} (acc : Nat) (h : rs ≤ 6) :
    encode_rs (.reg rs) acc =
      .ok (acc - acc / 256 % 16 * 256 + (rs + 1) * 256) := by
  simp only [encode_rs]
  rw [if_neg (by omega), encode_bits_ok _ (by norm_num) (by omega)]
  exact congrArg Except.ok (by omega)

theorem encode_rs16_val {p : Nat} (acc : Nat) (h : p ≤ 5) :
    encode_rs16 (.regPair p) acc =
      .ok (acc - acc / 256 % 16 * 256 + (p + 1) * 256) := by
  simp only [encode_rs16]
  rw [if_neg (by omega), encode_bits_ok _ (by norm_num) (by omega)]
  exact congrArg Except.ok (by omega)

theorem encode_cond1_val (c : Condition) (acc : Nat) :
    encode_cond1 (.cond c) acc =
      .ok (acc - acc / 16 % 16 * 16 + CONDITION_ENCODING c * 16) := by
  have hb := cond_enc_bounds c
  simp only [encode_cond1]
  rw [encode_bits_ok _ (by norm_num) (by omega)]
  exact congrArg Except.ok (by omega)

theorem encode_cond2_val (c : Condition) (acc : Nat) :
    encode_cond2 (.cond c) acc =
      .ok (acc - acc / 4096 % 16 * 4096 + CONDITION_ENCODING c * 4096) := by
  have hb := cond_enc_bounds c
  simp only [encode_cond2]
  rw [encode_bits_ok _ (by norm_num) (by omega)]
  exact congrArg Except.ok (by omega)

theorem encode_imm8_val {v : Int} (acc : Nat) (h1 : -128 ≤ v) (h2 : v < 256) :
    encode_imm8 (.imm v) acc =
      .ok (acc - acc / 256 % 256 * 256 + (v % 256).toNat * 256) := by
  simp only [encode_imm8, check_imm]
  rw [if_neg (by omega)]
  simp only [exbind_ok]
  rw [encode_bits_ok _ (by norm_num) (by omega)]
  exact congrArg Except.ok (by omega)

theorem encode_simm8_val {v : Int} (acc : Nat) (h1 : -128 ≤ v) (h2 : v < 128) :
    encode_simm8 (.imm v) acc =
      .ok (acc - acc / 256 % 256 * 256 + (v % 256).toNat * 256) := by
  simp only [encode_simm8, check_imm]
  rw [if_neg (by omega)]
  simp only [exbind_ok]
  rw [encode_bits_ok _ (by norm_num) (by omega)]
  exact congrArg Except.ok (by omega)

theorem encode_simm4_val {v : Int} (acc : Nat) (h1 : -8 ≤ v) (h2 : v < 8) :
    encode_simm4 (.imm v) acc =
      .ok (acc - acc / 256 % 16 * 256 + (v % 16).toNat * 256) := by
  simp only [encode_simm4, check_imm]
  rw [if_neg (by omega)]
  simp only [exbind_ok]
  rw [encode_bits_ok _ (by norm_num) (by omega)]
  exact congrArg Except.ok (by omega)


theorem arg_zero (op : Opcode) (x : Operand) (xs : List Operand)
    (a e : Option Nat) : arg ⟨op, x :: xs, a, e⟩ 0 = .ok x := rfl

theorem arg_one (op : Opcode) (x y : Operand) (xs : List Operand)
    (a e : Option Nat) : arg ⟨op, x :: y :: xs, a, e⟩ 1 = .ok y := rfl

theorem arg_two (op : Opcode) (x y z : Operand) (xs : List Operand)
    (a e : Option Nat) : arg ⟨op, x :: y :: z :: xs, a, e⟩ 2 = .ok z := rfl

theorem exmap_ok {α β : Type} (f : α → β) (x : α) :
    (f <$> (Except.ok x : Except AsmError α)) = .ok (f x) := rfl

theorem expure {α : Type} (x : α) :
    (pure x : Except AsmError α) = .ok x := rfl

/-- Round-trip for `nop`. -/
theorem rt_NOP (addr enc : Option Nat) :
    ∃ w, encode_instruction ⟨.NOP, [], addr, enc⟩ =
        .ok (some w) ∧
      decode w = {} := by
  refine ⟨0, ?_, by decide⟩
  · unfold encode_instruction
    dsimp only
    rw [encode_bits_ok 0 (by norm_num) (by norm_num)]
    try rw [exmap_ok]
    try rw [exbind_ok]
    try rw [expure]
    exact congrArg (fun n => (Except.ok (some n) : Except AsmError (Option Nat))) (by omega)

/-- Round-trip for `halt`. -/
theorem rt_HALT (addr enc : Option Nat) :
    ∃ w, encode_instruction ⟨.HALT, [], addr, enc⟩ =
        .ok (some w) ∧
      decode w = { rs := .Imm8, pc := .RelJump } := by
  refine ⟨9, ?_, by decide⟩
  · unfold encode_instruction
    dsimp only
    rw [encode_bits_ok 0 (by norm_num) (by norm_num)]
    try rw [exmap_ok]
    try rw [exbind_ok]
    try rw [expure]
    exact congrArg (fun n => (Except.ok (some n) : Except AsmError (Option Nat))) (by omega)

/-- Round-trip for `ldi`. -/
theorem rt_LDI (rd : Nat) (v : Int) (addr enc : Option Nat)
    (hrd : rd ≤ 6) (h1 : -128 ≤ v) (h2 : v < 256) :
    ∃ w, encode_instruction ⟨.LDI, [.reg rd, .imm v], addr, enc⟩ =
        .ok (some w) ∧
      decode w = { rd := .W, rs := .Imm8, fuid := .Move } := by
  refine ⟨8 + (rd + 1) * 16 + (v % 256).toNat * 256, ?_, ?_⟩
  · unfold encode_instruction
    dsimp only
    rw [encode_bits_ok 0 (by norm_num) (by norm_num)]
    rw [exbind_ok]
    rw [arg_zero]
    rw [exbind_ok]
    rw [encode_rd_val _ hrd]
    rw [exbind_ok]
    rw [arg_one]
    rw [exbind_ok]
    rw [encode_imm8_val _ h1 h2]
    try rw [exmap_ok]
    try rw [exbind_ok]
    try rw [expure]
    exact congrArg (fun n => (Except.ok (some n) : Except AsmError (Option Nat))) (by omega)
  · have h0 : func0 (8 + (rd + 1) * 16 + (v % 256).toNat * 256) = 8 := by rw [func0_eq]; omega
    simp [decode, decode_basic, decode_alu, decode_alu_unary,
      decode_alu_binary, decode_imm8, h0]

/-- Round-trip for `mv`. -/
theorem rt_MV (rd rs : Nat) (addr enc : Option Nat)
    (hrd : rd ≤ 6) (hrs : rs ≤ 6) :
    ∃ w, encode_instruction ⟨.MV, [.reg rd, .reg rs], addr, enc⟩ =
        .ok (some w) ∧
      decode w = { rd := .W, rs := .R8, fuid := .Move } := by
  refine ⟨4096 + (rd + 1) * 16 + (rs + 1) * 256, ?_, ?_⟩
  · unfold encode_instruction
    dsimp only
    rw [encode_bits_ok 0 (by norm_num) (by norm_num)]
    rw [exbind_ok]
    rw [encode_bits_ok _ (by norm_num) (by norm_num)]
    rw [exbind_ok]
    rw [arg_zero]
    rw [exbind_ok]
    rw [encode_rd_val _ hrd]
    rw [exbind_ok]
    rw [arg_one]
    rw [exbind_ok]
    rw [encode_rs_val _ hrs]
    try rw [exmap_ok]
    try rw [exbind_ok]
    try rw [expure]
    exact congrArg (fun n => (Except.ok (some n) : Except AsmError (Option Nat))) (by omega)
  · have h0 : func0 (4096 + (rd + 1) * 16 + (rs + 1) * 256) = 0 := by rw [func0_eq]; omega
    have hz : ¬(4096 + (rd + 1) * 16 + (rs + 1) * 256 = 0) := by omega
    have h1 : func1 (4096 + (rd + 1) * 16 + (rs + 1) * 256) = 1 := by rw [func1_eq]; omega
    simp [decode, decode_basic, decode_alu, decode_alu_unary,
      decode_alu_binary, decode_imm8, h0, hz, h1]

/-- Round-trip for `jr`. -/
theorem rt_JR (p : Nat) (addr enc : Option Nat)
    (hp : p ≤ 5) :
    ∃ w, encode_instruction ⟨.JR, [.regPair p], addr, enc⟩ =
        .ok (some w) ∧
      decode w = { rs := .R16, pc := .AbsJump } := by
  refine ⟨12288 + (p + 1) * 256, ?_, ?_⟩
  · unfold encode_instruction
    dsimp only
    rw [encode_bits_ok 0 (by norm_num) (by norm_num)]
    rw [exbind_ok]
    rw [encode_bits_ok _ (by norm_num) (by norm_num)]
    rw [exbind_ok]
    rw [encode_bits_ok _ (by norm_num) (by norm_num)]
    rw [exbind_ok]
    rw [arg_zero]
    rw [exbind_ok]
    rw [encode_rs16_val _ hp]
    try rw [exmap_ok]
    try rw [exbind_ok]
    try rw [expure]
    exact congrArg (fun n => (Except.ok (some n) : Except AsmError (Option Nat))) (by omega)
  · have h0 : func0 (12288 + (p + 1) * 256) = 0 := by rw [func0_eq]; omega
    have hz : ¬(12288 + (p + 1) * 256 = 0) := by omega
    have h1 : func1 (12288 + (p + 1) * 256) = 3 := by rw [func1_eq]; omega
    have h2 : func2 (12288 + (p + 1) * 256) = 0 := by rw [func2_eq]; omega
    simp [decode, decode_basic, decode_alu, decode_alu_unary,
      decode_alu_binary, decode_imm8, h0, hz, h1, h2]

/-- Round-trip for `j`. -/
theorem rt_J (v : Int) (addr enc : Option Nat)
    (h1 : -128 ≤ v) (h2 : v < 128) :
    ∃ w, encode_instruction ⟨.J, [.imm v], addr, enc⟩ =
        .ok (some w) ∧
      decode w = { rs := .Imm8, pc := .RelJump } := by
  refine ⟨9 + (v % 256).toNat * 256, ?_, ?_⟩
  · unfold encode_instruction
    dsimp only
    rw [encode_bits_ok 0 (by norm_num) (by norm_num)]
    rw [exbind_ok]
    rw [encode_bits_ok _ (by norm_num) (by norm_num)]
    rw [exbind_ok]
    rw [arg_zero]
    rw [exbind_ok]
    rw [encode_simm8_val _ h1 h2]
    try rw [exmap_ok]
    try rw [exbind_ok]
    try rw [expure]
    exact congrArg (fun n => (Except.ok (some n) : Except AsmError (Option Nat))) (by omega)
  · have h0 : func0 (9 + (v % 256).toNat * 256) = 9 := by rw [func0_eq]; omega
    have h3 : func2 (9 + (v % 256).toNat * 256) = 0 := by rw [func2_eq]; omega
    simp [decode, decode_basic, decode_alu, decode_alu_unary,
      decode_alu_binary, decode_imm8, h0, h3]

/-- Round-trip for `jro`. -/
theorem rt_JRO (rs : Nat) (addr enc : Option Nat)
    (hrs : rs ≤ 6) :
    ∃ w, encode_instruction ⟨.JRO, [.reg rs], addr, enc⟩ =
        .ok (some w) ∧
      decode w = { rs := .R8, pc := .RelJump } := by
  refine ⟨8192 + (rs + 1) * 256, ?_, ?_⟩
  · unfold encode_instruction
    dsimp only
    rw [encode_bits_ok 0 (by norm_num) (by norm_num)]
    rw [exbind_ok]
    rw [encode_bits_ok _ (by norm_num) (by norm_num)]
    rw [exbind_ok]
    rw [encode_bits_ok _ (by norm_num) (by norm_num)]
    rw [exbind_ok]
    rw [arg_zero]
    rw [exbind_ok]
    rw [encode_rs_val _ hrs]
    try rw [exmap_ok]
    try rw [exbind_ok]
    try rw [expure]
    exact congrArg (fun n => (Except.ok (some n) : Except AsmError (Option Nat))) (by omega)
  · have h0 : func0 (8192 + (rs + 1) * 256) = 0 := by rw [func0_eq]; omega
    have hz : ¬(8192 + (rs + 1) * 256 = 0) := by omega
    have h1 : func1 (8192 + (rs + 1) * 256) = 2 := by rw [func1_eq]; omega
    have h2 : func2 (8192 + (rs + 1) * 256) = 0 := by rw [func2_eq]; omega
    simp [decode, decode_basic, decode_alu, decode_alu_unary,
      decode_alu_binary, decode_imm8, h0, hz, h1, h2]

/-- Round-trip for `br`. -/
theorem rt_BR (c : Condition) (p : Nat) (addr enc : Option Nat)
    (hp : p ≤ 5) :
    ∃ w, encode_instruction ⟨.BR, [.cond c, .regPair p], addr, enc⟩ =
        .ok (some w) ∧
      decode w = { pc := .Reserved } := by
  have hb := cond_enc_bounds c
  refine ⟨12288 + CONDITION_ENCODING c * 16 + (p + 1) * 256, ?_, ?_⟩
  · unfold encode_instruction
    dsimp only
    rw [encode_bits_ok 0 (by norm_num) (by norm_num)]
    rw [exbind_ok]
    rw [arg_zero]
    rw [exbind_ok]
    rw [encode_cond1_val c]
    rw [exbind_ok]
    rw [encode_bits_ok _ (by norm_num) (by norm_num)]
    rw [exbind_ok]
    rw [arg_one]
    rw [exbind_ok]
    rw [encode_rs16_val _ hp]
    try rw [exmap_ok]
    try rw [exbind_ok]
    try rw [expure]
    exact congrArg (fun n => (Except.ok (some n) : Except AsmError (Option Nat))) (by omega)
  · have h0 : func0 (12288 + CONDITION_ENCODING c * 16 + (p + 1) * 256) = 0 := by rw [func0_eq]; omega
    have hz : ¬(12288 + CONDITION_ENCODING c * 16 + (p + 1) * 256 = 0) := by omega
    have h1 : func1 (12288 + CONDITION_ENCODING c * 16 + (p + 1) * 256) = 3 := by rw [func1_eq]; omega
    have h2 : func2 (12288 + CONDITION_ENCODING c * 16 + (p + 1) * 256) = CONDITION_ENCODING c := by rw [func2_eq]; omega
    have hcne : ¬(CONDITION_ENCODING c = 0) := by omega
    simp [decode, decode_basic, decode_alu, decode_alu_unary,
      decode_alu_binary, decode_imm8, h0, hz, h1, h2, hcne]

/-- Round-trip for `b`. -/
theorem rt_B (c : Condition) (v : Int) (addr enc : Option Nat)
    (h1 : -128 ≤ v) (h2 : v < 128) :
    ∃ w, encode_instruction ⟨.B, [.cond c, .imm v], addr, enc⟩ =
        .ok (some w) ∧
      decode w = { pc := .Reserved } := by
  have hb := cond_enc_bounds c
  refine ⟨9 + CONDITION_ENCODING c * 16 + (v % 256).toNat * 256, ?_, ?_⟩
  · unfold encode_instruction
    dsimp only
    rw [encode_bits_ok 0 (by norm_num) (by norm_num)]
    rw [exbind_ok]
    rw [arg_zero]
    rw [exbind_ok]
    rw [encode_cond1_val c]
    rw [exbind_ok]
    rw [arg_one]
    rw [exbind_ok]
    rw [encode_simm8_val _ h1 h2]
    try rw [exmap_ok]
    try rw [exbind_ok]
    try rw [expure]
    exact congrArg (fun n => (Except.ok (some n) : Except AsmError (Option Nat))) (by omega)
  · have h0 : func0 (9 + CONDITION_ENCODING c * 16 + (v % 256).toNat * 256) = 9 := by rw [func0_eq]; omega
    have h2f : func2 (9 + CONDITION_ENCODING c * 16 + (v % 256).toNat * 256) = CONDITION_ENCODING c := by rw [func2_eq]; omega
    have hcne : ¬(CONDITION_ENCODING c = 0) := by omega
    simp [decode, decode_basic, decode_alu, decode_alu_unary,
      decode_alu_binary, decode_imm8, h0, h2f, hcne]

/-- Round-trip for `bro`. -/
theorem rt_BRO (c : Condition) (rs : Nat) (addr enc : Option Nat)
    (hrs : rs ≤ 6) :
    ∃ w, encode_instruction ⟨.BRO, [.cond c, .reg rs], addr, enc⟩ =
        .ok (some w) ∧
      decode w = { pc := .Reserved } := by
  have hb := cond_enc_bounds c
  refine ⟨8192 + CONDITION_ENCODING c * 16 + (rs + 1) * 256, ?_, ?_⟩
  · unfold encode_instruction
    dsimp only
    rw [encode_bits_ok 0 (by norm_num) (by norm_num)]
    rw [exbind_ok]
    rw [arg_zero]
    rw [exbind_ok]
    rw [encode_cond1_val c]
    rw [exbind_ok]
    rw [encode_bits_ok _ (by norm_num) (by norm_num)]
    rw [exbind_ok]
    rw [arg_one]
    rw [exbind_ok]
    rw [encode_rs_val _ hrs]
    try rw [exmap_ok]
    try rw [exbind_ok]
    try rw [expure]
    exact congrArg (fun n => (Except.ok (some n) : Except AsmError (Option Nat))) (by omega)
  · have h0 : func0 (8192 + CONDITION_ENCODING c * 16 + (rs + 1) * 256) = 0 := by rw [func0_eq]; omega
    have hz : ¬(8192 + CONDITION_ENCODING c * 16 + (rs + 1) * 256 = 0) := by omega
    have h1 : func1 (8192 + CONDITION_ENCODING c * 16 + (rs + 1) * 256) = 2 := by rw [func1_eq]; omega
    have h2 : func2 (8192 + CONDITION_ENCODING c * 16 + (rs + 1) * 256) = CONDITION_ENCODING c := by rw [func2_eq]; omega
    have hcne : ¬(CONDITION_ENCODING c = 0) := by omega
    simp [decode, decode_basic, decode_alu, decode_alu_unary,
      decode_alu_binary, decode_imm8, h0, hz, h1, h2, hcne]

/-- Round-trip for `lcdcw`. -/
theorem rt_LCDCW (rd : Nat) (addr enc : Option Nat)
    (hrd : rd ≤ 6) :
    ∃ w, encode_instruction ⟨.LCDCW, [.reg rd], addr, enc⟩ =
        .ok (some w) ∧
      decode w = { pc := .Reserved } := by
  refine ⟨16384 + (rd + 1) * 16, ?_, ?_⟩
  · unfold encode_instruction
    dsimp only
    rw [encode_bits_ok 0 (by norm_num) (by norm_num)]
    rw [exbind_ok]
    rw [encode_bits_ok _ (by norm_num) (by norm_num)]
    rw [exbind_ok]
    rw [encode_bits_ok _ (by norm_num) (by norm_num)]
    rw [exbind_ok]
    rw [arg_zero]
    rw [exbind_ok]
    rw [encode_rd_val _ hrd]
    try rw [exmap_ok]
    try rw [exbind_ok]
    try rw [expure]
    exact congrArg (fun n => (Except.ok (some n) : Except AsmError (Option Nat))) (by omega)
  · have h0 : func0 (16384 + (rd + 1) * 16) = 0 := by rw [func0_eq]; omega
    have hz : ¬(16384 + (rd + 1) * 16 = 0) := by omega
    have h1 : func1 (16384 + (rd + 1) * 16) = 4 := by rw [func1_eq]; omega
    simp [decode, decode_basic, decode_alu, decode_alu_unary,
      decode_alu_binary, decode_imm8, h0, hz, h1]

/-- Round-trip for `lcddw`. -/
theorem rt_LCDDW (rd : Nat) (addr enc : Option Nat)
    (hrd : rd ≤ 6) :
    ∃ w, encode_instruction ⟨.LCDDW, [.reg rd], addr, enc⟩ =
        .ok (some w) ∧
      decode w = { pc := .Reserved } := by
  refine ⟨16640 + (rd + 1) * 16, ?_, ?_⟩
  · unfold encode_instruction
    dsimp only
    rw [encode_bits_ok 0 (by norm_num) (by norm_num)]
    rw [exbind_ok]
    rw [encode_bits_ok _ (by norm_num) (by norm_num)]
    rw [exbind_ok]
    rw [encode_bits_ok _ (by norm_num) (by norm_num)]
    rw [exbind_ok]
    rw [arg_zero]
    rw [exbind_ok]
    rw [encode_rd_val _ hrd]
    try rw [exmap_ok]
    try rw [exbind_ok]
    try rw [expure]
    exact congrArg (fun n => (Except.ok (some n) : Except AsmError (Option Nat))) (by omega)
  · have h0 : func0 (16640 + (rd + 1) * 16) = 0 := by rw [func0_eq]; omega
    have hz : ¬(16640 + (rd + 1) * 16 = 0) := by omega
    have h1 : func1 (16640 + (rd + 1) * 16) = 4 := by rw [func1_eq]; omega
    simp [decode, decode_basic, decode_alu, decode_alu_unary,
      decode_alu_binary, decode_imm8, h0, hz, h1]

/-- Round-trip for `lcdcr`. -/
theorem rt_LCDCR (rd : Nat) (addr enc : Option Nat)
    (hrd : rd ≤ 6) :
    ∃ w, encode_instruction ⟨.LCDCR, [.reg rd], addr, enc⟩ =
        .ok (some w) ∧
      decode w = { pc := .Reserved } := by
  refine ⟨16896 + (rd + 1) * 16, ?_, ?_⟩
  · unfold encode_instruction
    dsimp only
    rw [encode_bits_ok 0 (by norm_num) (by norm_num)]
    rw [exbind_ok]
    rw [encode_bits_ok _ (by norm_num) (by norm_num)]
    rw [exbind_ok]
    rw [encode_bits_ok _ (by norm_num) (by norm_num)]
    rw [exbind_ok]
    rw [arg_zero]
    rw [exbind_ok]
    rw [encode_rd_val _ hrd]
    try rw [exmap_ok]
    try rw [exbind_ok]
    try rw [expure]
    exact congrArg (fun n => (Except.ok (some n) : Except AsmError (Option Nat))) (by omega)
  · have h0 : func0 (16896 + (rd + 1) * 16) = 0 := by rw [func0_eq]; omega
    have hz : ¬(16896 + (rd + 1) * 16 = 0) := by omega
    have h1 : func1 (16896 + (rd + 1) * 16) = 4 := by rw [func1_eq]; omega
    simp [decode, decode_basic, decode_alu, decode_alu_unary,
      decode_alu_binary, decode_imm8, h0, hz, h1]

/-- Round-trip for `lcddr`. -/
theorem rt_LCDDR (rd : Nat) (addr enc : Option Nat)
    (hrd : rd ≤ 6) :
    ∃ w, encode_instruction ⟨.LCDDR, [.reg rd], addr, enc⟩ =
        .ok (some w) ∧
      decode w = { pc := .Reserved } := by
  refine ⟨17152 + (rd + 1) * 16, ?_, ?_⟩
  · unfold encode_instruction
    dsimp only
    rw [encode_bits_ok 0 (by norm_num) (by norm_num)]
    rw [exbind_ok]
    rw [encode_bits_ok _ (by norm_num) (by norm_num)]
    rw [exbind_ok]
    rw [encode_bits_ok _ (by norm_num) (by norm_num)]
    rw [exbind_ok]
    rw [arg_zero]
    rw [exbind_ok]
    rw [encode_rd_val _ hrd]
    try rw [exmap_ok]
    try rw [exbind_ok]
    try rw [expure]
    exact congrArg (fun n => (Except.ok (some n) : Except AsmError (Option Nat))) (by omega)
  · have h0 : func0 (17152 + (rd + 1) * 16) = 0 := by rw [func0_eq]; omega
    have hz : ¬(17152 + (rd + 1) * 16 = 0) := by omega
    have h1 : func1 (17152 + (rd + 1) * 16) = 4 := by rw [func1_eq]; omega
    simp [decode, decode_basic, decode_alu, decode_alu_unary,
      decode_alu_binary, decode_imm8, h0, hz, h1]

/-- Round-trip for `not`. -/
theorem rt_NOT (rd : Nat) (addr enc : Option Nat)
    (hrd : rd ≤ 6) :
    ∃ w, encode_instruction ⟨.NOT, [.reg rd], addr, enc⟩ =
        .ok (some w) ∧
      decode w = alu_unary ALUOp.NOT := by
  refine ⟨1 + (rd + 1) * 16, ?_, ?_⟩
  · unfold encode_instruction
    dsimp only
    rw [encode_bits_ok 0 (by norm_num) (by norm_num)]
    rw [exbind_ok]
    rw [encode_bits_ok _ (by norm_num) (by norm_num)]
    rw [exbind_ok]
    rw [encode_bits_ok _ (by norm_num) (by norm_num)]
    rw [exbind_ok]
    rw [arg_zero]
    rw [exbind_ok]
    rw [encode_rd_val _ hrd]
    try rw [exmap_ok]
    try rw [exbind_ok]
    try rw [expure]
    exact congrArg (fun n => (Except.ok (some n) : Except AsmError (Option Nat))) (by omega)
  · have h0 : func0 (1 + (rd + 1) * 16) = 1 := by rw [func0_eq]; omega
    have h1 : func1 (1 + (rd + 1) * 16) = 0 := by rw [func1_eq]; omega
    have h3 : func3 (1 + (rd + 1) * 16) = 0 := by rw [func3_eq]; omega
    simp [decode, decode_basic, decode_alu, decode_alu_unary,
      decode_alu_binary, decode_imm8, h0, h1, h3]

/-- Round-trip for `neg`. -/
theorem rt_NEG (rd : Nat) (addr enc : Option Nat)
    (hrd : rd ≤ 6) :
    ∃ w, encode_instruction ⟨.NEG, [.reg rd], addr, enc⟩ =
        .ok (some w) ∧
      decode w = alu_unary ALUOp.NEG := by
  refine ⟨257 + (rd + 1) * 16, ?_, ?_⟩
  · unfold encode_instruction
    dsimp only
    rw [encode_bits_ok 0 (by norm_num) (by norm_num)]
    rw [exbind_ok]
    rw [encode_bits_ok _ (by norm_num) (by norm_num)]
    rw [exbind_ok]
    rw [encode_bits_ok _ (by norm_num) (by norm_num)]
    rw [exbind_ok]
    rw [arg_zero]
    rw [exbind_ok]
    rw [encode_rd_val _ hrd]
    try rw [exmap_ok]
    try rw [exbind_ok]
    try rw [expure]
    exact congrArg (fun n => (Except.ok (some n) : Except AsmError (Option Nat))) (by omega)
  · have h0 : func0 (257 + (rd + 1) * 16) = 1 := by rw [func0_eq]; omega
    have h1 : func1 (257 + (rd + 1) * 16) = 0 := by rw [func1_eq]; omega
    have h3 : func3 (257 + (rd + 1) * 16) = 1 := by rw [func3_eq]; omega
    simp [decode, decode_basic, decode_alu, decode_alu_unary,
      decode_alu_binary, decode_imm8, h0, h1, h3]

/-- Round-trip for `shll`. -/
theorem rt_SHLL (rd : Nat) (addr enc : Option Nat)
    (hrd : rd ≤ 6) :
    ∃ w, encode_instruction ⟨.SHLL, [.reg rd], addr, enc⟩ =
        .ok (some w) ∧
      decode w = alu_unary ALUOp.SHLL := by
  refine ⟨513 + (rd + 1) * 16, ?_, ?_⟩
  · unfold encode_instruction
    dsimp only
    rw [encode_bits_ok 0 (by norm_num) (by norm_num)]
    rw [exbind_ok]
    rw [encode_bits_ok _ (by norm_num) (by norm_num)]
    rw [exbind_ok]
    rw [encode_bits_ok _ (by norm_num) (by norm_num)]
    rw [exbind_ok]
    rw [arg_zero]
    rw [exbind_ok]
    rw [encode_rd_val _ hrd]
    try rw [exmap_ok]
    try rw [exbind_ok]
    try rw [expure]
    exact congrArg (fun n => (Except.ok (some n) : Except AsmError (Option Nat))) (by omega)
  · have h0 : func0 (513 + (rd + 1) * 16) = 1 := by rw [func0_eq]; omega
    have h1 : func1 (513 + (rd + 1) * 16) = 0 := by rw [func1_eq]; omega
    have h3 : func3 (513 + (rd + 1) * 16) = 2 := by rw [func3_eq]; omega
    simp [decode, decode_basic, decode_alu, decode_alu_unary,
      decode_alu_binary, decode_imm8, h0, h1, h3]

/-- Round-trip for `shlc`. -/
theorem rt_SHLC (rd : Nat) (addr enc : Option Nat)
    (hrd : rd ≤ 6) :
    ∃ w, encode_instruction ⟨.SHLC, [.reg rd], addr, enc⟩ =
        .ok (some w) ∧
      decode w = alu_unary ALUOp.SHLC .RW := by
  refine ⟨769 + (rd + 1) * 16, ?_, ?_⟩
  · unfold encode_instruction
    dsimp only
    rw [encode_bits_ok 0 (by norm_num) (by norm_num)]
    rw [exbind_ok]
    rw [encode_bits_ok _ (by norm_num) (by norm_num)]
    rw [exbind_ok]
    rw [encode_bits_ok _ (by norm_num) (by norm_num)]
    rw [exbind_ok]
    rw [arg_zero]
    rw [exbind_ok]
    rw [encode_rd_val _ hrd]
    try rw [exmap_ok]
    try rw [exbind_ok]
    try rw [expure]
    exact congrArg (fun n => (Except.ok (some n) : Except AsmError (Option Nat))) (by omega)
  · have h0 : func0 (769 + (rd + 1) * 16) = 1 := by rw [func0_eq]; omega
    have h1 : func1 (769 + (rd + 1) * 16) = 0 := by rw [func1_eq]; omega
    have h3 : func3 (769 + (rd + 1) * 16) = 3 := by rw [func3_eq]; omega
    simp [decode, decode_basic, decode_alu, decode_alu_unary,
      decode_alu_binary, decode_imm8, h0, h1, h3]

/-- Round-trip for `shrl`. -/
theorem rt_SHRL (rd : Nat) (addr enc : Option Nat)
    (hrd : rd ≤ 6) :
    ∃ w, encode_instruction ⟨.SHRL, [.reg rd], addr, enc⟩ =
        .ok (some w) ∧
      decode w = alu_unary ALUOp.SHRL := by
  refine ⟨1025 + (rd + 1) * 16, ?_, ?_⟩
  · unfold encode_instruction
    dsimp only
    rw [encode_bits_ok 0 (by norm_num) (by norm_num)]
    rw [exbind_ok]
    rw [encode_bits_ok _ (by norm_num) (by norm_num)]
    rw [exbind_ok]
    rw [encode_bits_ok _ (by norm_num) (by norm_num)]
    rw [exbind_ok]
    rw [arg_zero]
    rw [exbind_ok]
    rw [encode_rd_val _ hrd]
    try rw [exmap_ok]
    try rw [exbind_ok]
    try rw [expure]
    exact congrArg (fun n => (Except.ok (some n) : Except AsmError (Option Nat))) (by omega)
  · have h0 : func0 (1025 + (rd + 1) * 16) = 1 := by rw [func0_eq]; omega
    have h1 : func1 (1025 + (rd + 1) * 16) = 0 := by rw [func1_eq]; omega
    have h3 : func3 (1025 + (rd + 1) * 16) = 4 := by rw [func3_eq]; omega
    simp [decode, decode_basic, decode_alu, decode_alu_unary,
      decode_alu_binary, decode_imm8, h0, h1, h3]

/-- Round-trip for `shrc`. -/
theorem rt_SHRC (rd : Nat) (addr enc : Option Nat)
    (hrd : rd ≤ 6) :
    ∃ w, encode_instruction ⟨.SHRC, [.reg rd], addr, enc⟩ =
        .ok (some w) ∧
      decode w = alu_unary ALUOp.SHRC .RW := by
  refine ⟨1281 + (rd + 1) * 16, ?_, ?_⟩
  · unfold encode_instruction
    dsimp only
    rw [encode_bits_ok 0 (by norm_num) (by norm_num)]
    rw [exbind_ok]
    rw [encode_bits_ok _ (by norm_num) (by norm_num)]
    rw [exbind_ok]
    rw [encode_bits_ok _ (by norm_num) (by norm_num)]
    rw [exbind_ok]
    rw [arg_zero]
    rw [exbind_ok]
    rw [encode_rd_val _ hrd]
    try rw [exmap_ok]
    try rw [exbind_ok]
    try rw [expure]
    exact congrArg (fun n => (Except.ok (some n) : Except AsmError (Option Nat))) (by omega)
  · have h0 : func0 (1281 + (rd + 1) * 16) = 1 := by rw [func0_eq]; omega
    have h1 : func1 (1281 + (rd + 1) * 16) = 0 := by rw [func1_eq]; omega
    have h3 : func3 (1281 + (rd + 1) * 16) = 5 := by rw [func3_eq]; omega
    simp [decode, decode_basic, decode_alu, decode_alu_unary,
      decode_alu_binary, decode_imm8, h0, h1, h3]

/-- Round-trip for `shra`. -/
theorem rt_SHRA (rd : Nat) (addr enc : Option Nat)
    (hrd : rd ≤ 6) :
    ∃ w, encode_instruction ⟨.SHRA, [.reg rd], addr, enc⟩ =
        .ok (some w) ∧
      decode w = alu_unary ALUOp.SHRA := by
  refine ⟨1537 + (rd + 1) * 16, ?_, ?_⟩
  · unfold encode_instruction
    dsimp only
    rw [encode_bits_ok 0 (by norm_num) (by norm_num)]
    rw [exbind_ok]
    rw [encode_bits_ok _ (by norm_num) (by norm_num)]
    rw [exbind_ok]
    rw [encode_bits_ok _ (by norm_num) (by norm_num)]
    rw [exbind_ok]
    rw [arg_zero]
    rw [exbind_ok]
    rw [encode_rd_val _ hrd]
    try rw [exmap_ok]
    try rw [exbind_ok]
    try rw [expure]
    exact congrArg (fun n => (Except.ok (some n) : Except AsmError (Option Nat))) (by omega)
  · have h0 : func0 (1537 + (rd + 1) * 16) = 1 := by rw [func0_eq]; omega
    have h1 : func1 (1537 + (rd + 1) * 16) = 0 := by rw [func1_eq]; omega
    have h3 : func3 (1537 + (rd + 1) * 16) = 6 := by rw [func3_eq]; omega
    simp [decode, decode_basic, decode_alu, decode_alu_unary,
      decode_alu_binary, decode_imm8, h0, h1, h3]

/-- Round-trip for `fswap`. -/
theorem rt_FSWAP (rd : Nat) (addr enc : Option Nat)
    (hrd : rd ≤ 6) :
    ∃ w, encode_instruction ⟨.FSWAP, [.reg rd], addr, enc⟩ =
        .ok (some w) ∧
      decode w = alu_unary ALUOp.FSWAP .RW := by
  refine ⟨1793 + (rd + 1) * 16, ?_, ?_⟩
  · unfold encode_instruction
    dsimp only
    rw [encode_bits_ok 0 (by norm_num) (by norm_num)]
    rw [exbind_ok]
    rw [encode_bits_ok _ (by norm_num) (by norm_num)]
    rw [exbind_ok]
    rw [encode_bits_ok _ (by norm_num) (by norm_num)]
    rw [exbind_ok]
    rw [arg_zero]
    rw [exbind_ok]
    rw [encode_rd_val _ hrd]
    try rw [exmap_ok]
    try rw [exbind_ok]
    try rw [expure]
    exact congrArg (fun n => (Except.ok (some n) : Except AsmError (Option Nat))) (by omega)
  · have h0 : func0 (1793 + (rd + 1) * 16) = 1 := by rw [func0_eq]; omega
    have h1 : func1 (1793 + (rd + 1) * 16) = 0 := by rw [func1_eq]; omega
    have h3 : func3 (1793 + (rd + 1) * 16) = 7 := by rw [func3_eq]; omega
    simp [decode, decode_basic, decode_alu, decode_alu_unary,
      decode_alu_binary, decode_imm8, h0, h1, h3]

/-- Round-trip for `fr`. -/
theorem rt_FR (rd : Nat) (addr enc : Option Nat)
    (hrd : rd ≤ 6) :
    ∃ w, encode_instruction ⟨.FR, [.reg rd], addr, enc⟩ =
        .ok (some w) ∧
      decode w = alu_unary ALUOp.FSWAP .R .W := by
  refine ⟨2049 + (rd + 1) * 16, ?_, ?_⟩
  · unfold encode_instruction
    dsimp only
    rw [encode_bits_ok 0 (by norm_num) (by norm_num)]
    rw [exbind_ok]
    rw [encode_bits_ok _ (by norm_num) (by norm_num)]
    rw [exbind_ok]
    rw [encode_bits_ok _ (by norm_num) (by norm_num)]
    rw [exbind_ok]
    rw [arg_zero]
    rw [exbind_ok]
    rw [encode_rd_val _ hrd]
    try rw [exmap_ok]
    try rw [exbind_ok]
    try rw [expure]
    exact congrArg (fun n => (Except.ok (some n) : Except AsmError (Option Nat))) (by omega)
  · have h0 : func0 (2049 + (rd + 1) * 16) = 1 := by rw [func0_eq]; omega
    have h1 : func1 (2049 + (rd + 1) * 16) = 0 := by rw [func1_eq]; omega
    have h3 : func3 (2049 + (rd + 1) * 16) = 8 := by rw [func3_eq]; omega
    simp [decode, decode_basic, decode_alu, decode_alu_unary,
      decode_alu_binary, decode_imm8, h0, h1, h3]

/-- Round-trip for `fw`. -/
theorem rt_FW (rd : Nat) (addr enc : Option Nat)
    (hrd : rd ≤ 6) :
    ∃ w, encode_instruction ⟨.FW, [.reg rd], addr, enc⟩ =
        .ok (some w) ∧
      decode w = alu_unary ALUOp.FSWAP .W .R := by
  refine ⟨2305 + (rd + 1) * 16, ?_, ?_⟩
  · unfold encode_instruction
    dsimp only
    rw [encode_bits_ok 0 (by norm_num) (by norm_num)]
    rw [exbind_ok]
    rw [encode_bits_ok _ (by norm_num) (by norm_num)]
    rw [exbind_ok]
    rw [encode_bits_ok _ (by norm_num) (by norm_num)]
    rw [exbind_ok]
    rw [arg_zero]
    rw [exbind_ok]
    rw [encode_rd_val _ hrd]
    try rw [exmap_ok]
    try rw [exbind_ok]
    try rw [expure]
    exact congrArg (fun n => (Except.ok (some n) : Except AsmError (Option Nat))) (by omega)
  · have h0 : func0 (2305 + (rd + 1) * 16) = 1 := by rw [func0_eq]; omega
    have h1 : func1 (2305 + (rd + 1) * 16) = 0 := by rw [func1_eq]; omega
    have h3 : func3 (2305 + (rd + 1) * 16) = 9 := by rw [func3_eq]; omega
    simp [decode, decode_basic, decode_alu, decode_alu_unary,
      decode_alu_binary, decode_imm8, h0, h1, h3]

/-- Round-trip for `add`. -/
theorem rt_ADD (rd rs : Nat) (addr enc : Option Nat)
    (hrd : rd ≤ 6) (hrs : rs ≤ 6) :
    ∃ w, encode_instruction ⟨.ADD, [.reg rd, .reg rs], addr, enc⟩ =
        .ok (some w) ∧
      decode w = alu_binary ALUOp.ADD := by
  refine ⟨4097 + (rd + 1) * 16 + (rs + 1) * 256, ?_, ?_⟩
  · unfold encode_instruction
    dsimp only
    rw [encode_bits_ok 0 (by norm_num) (by norm_num)]
    rw [exbind_ok]
    rw [encode_bits_ok _ (by norm_num) (by norm_num)]
    rw [exbind_ok]
    rw [arg_zero]
    rw [exbind_ok]
    rw [encode_rd_val _ hrd]
    rw [exbind_ok]
    rw [arg_one]
    rw [exbind_ok]
    rw [encode_rs_val _ hrs]
    try rw [exmap_ok]
    try rw [exbind_ok]
    try rw [expure]
    exact congrArg (fun n => (Except.ok (some n) : Except AsmError (Option Nat))) (by omega)
  · have h0 : func0 (4097 + (rd + 1) * 16 + (rs + 1) * 256) = 1 := by rw [func0_eq]; omega
    have h1 : func1 (4097 + (rd + 1) * 16 + (rs + 1) * 256) = 1 := by rw [func1_eq]; omega
    simp [decode, decode_basic, decode_alu, decode_alu_unary,
      decode_alu_binary, decode_imm8, h0, h1]

/-- Round-trip for `addc`. -/
theorem rt_ADDC (rd rs : Nat) (addr enc : Option Nat)
    (hrd : rd ≤ 6) (hrs : rs ≤ 6) :
    ∃ w, encode_instruction ⟨.ADDC, [.reg rd, .reg rs], addr, enc⟩ =
        .ok (some w) ∧
      decode w = alu_binary ALUOp.ADDC .RW := by
  refine ⟨8193 + (rd + 1) * 16 + (rs + 1) * 256, ?_, ?_⟩
  · unfold encode_instruction
    dsimp only
    rw [encode_bits_ok 0 (by norm_num) (by norm_num)]
    rw [exbind_ok]
    rw [encode_bits_ok _ (by norm_num) (by norm_num)]
    rw [exbind_ok]
    rw [arg_zero]
    rw [exbind_ok]
    rw [encode_rd_val _ hrd]
    rw [exbind_ok]
    rw [arg_one]
    rw [exbind_ok]
    rw [encode_rs_val _ hrs]
    try rw [exmap_ok]
    try rw [exbind_ok]
    try rw [expure]
    exact congrArg (fun n => (Except.ok (some n) : Except AsmError (Option Nat))) (by omega)
  · have h0 : func0 (8193 + (rd + 1) * 16 + (rs + 1) * 256) = 1 := by rw [func0_eq]; omega
    have h1 : func1 (8193 + (rd + 1) * 16 + (rs + 1) * 256) = 2 := by rw [func1_eq]; omega
    simp [decode, decode_basic, decode_alu, decode_alu_unary,
      decode_alu_binary, decode_imm8, h0, h1]

/-- Round-trip for `sub`. -/
theorem rt_SUB (rd rs : Nat) (addr enc : Option Nat)
    (hrd : rd ≤ 6) (hrs : rs ≤ 6) :
    ∃ w, encode_instruction ⟨.SUB, [.reg rd, .reg rs], addr, enc⟩ =
        .ok (some w) ∧
      decode w = alu_binary ALUOp.SUB := by
  refine ⟨12289 + (rd + 1) * 16 + (rs + 1) * 256, ?_, ?_⟩
  · unfold encode_instruction
    dsimp only
    rw [encode_bits_ok 0 (by norm_num) (by norm_num)]
    rw [exbind_ok]
    rw [encode_bits_ok _ (by norm_num) (by norm_num)]
    rw [exbind_ok]
    rw [arg_zero]
    rw [exbind_ok]
    rw [encode_rd_val _ hrd]
    rw [exbind_ok]
    rw [arg_one]
    rw [exbind_ok]
    rw [encode_rs_val _ hrs]
    try rw [exmap_ok]
    try rw [exbind_ok]
    try rw [expure]
    exact congrArg (fun n => (Except.ok (some n) : Except AsmError (Option Nat))) (by omega)
  · have h0 : func0 (12289 + (rd + 1) * 16 + (rs + 1) * 256) = 1 := by rw [func0_eq]; omega
    have h1 : func1 (12289 + (rd + 1) * 16 + (rs + 1) * 256) = 3 := by rw [func1_eq]; omega
    simp [decode, decode_basic, decode_alu, decode_alu_unary,
      decode_alu_binary, decode_imm8, h0, h1]

/-- Round-trip for `subc`. -/
theorem rt_SUBC (rd rs : Nat) (addr enc : Option Nat)
    (hrd : rd ≤ 6) (hrs : rs ≤ 6) :
    ∃ w, encode_instruction ⟨.SUBC, [.reg rd, .reg rs], addr, enc⟩ =
        .ok (some w) ∧
      decode w = alu_binary ALUOp.SUBC .RW := by
  refine ⟨16385 + (rd + 1) * 16 + (rs + 1) * 256, ?_, ?_⟩
  · unfold encode_instruction
    dsimp only
    rw [encode_bits_ok 0 (by norm_num) (by norm_num)]
    rw [exbind_ok]
    rw [encode_bits_ok _ (by norm_num) (by norm_num)]
    rw [exbind_ok]
    rw [arg_zero]
    rw [exbind_ok]
    rw [encode_rd_val _ hrd]
    rw [exbind_ok]
    rw [arg_one]
    rw [exbind_ok]
    rw [encode_rs_val _ hrs]
    try rw [exmap_ok]
    try rw [exbind_ok]
    try rw [expure]
    exact congrArg (fun n => (Except.ok (some n) : Except AsmError (Option Nat))) (by omega)
  · have h0 : func0 (16385 + (rd + 1) * 16 + (rs + 1) * 256) = 1 := by rw [func0_eq]; omega
    have h1 : func1 (16385 + (rd + 1) * 16 + (rs + 1) * 256) = 4 := by rw [func1_eq]; omega
    simp [decode, decode_basic, decode_alu, decode_alu_unary,
      decode_alu_binary, decode_imm8, h0, h1]

/-- Round-trip for `and`. -/
theorem rt_AND (rd rs : Nat) (addr enc : Option Nat)
    (hrd : rd ≤ 6) (hrs : rs ≤ 6) :
    ∃ w, encode_instruction ⟨.AND, [.reg rd, .reg rs], addr, enc⟩ =
        .ok (some w) ∧
      decode w = alu_binary ALUOp.AND := by
  refine ⟨20481 + (rd + 1) * 16 + (rs + 1) * 256, ?_, ?_⟩
  · unfold encode_instruction
    dsimp only
    rw [encode_bits_ok 0 (by norm_num) (by norm_num)]
    rw [exbind_ok]
    rw [encode_bits_ok _ (by norm_num) (by norm_num)]
    rw [exbind_ok]
    rw [arg_zero]
    rw [exbind_ok]
    rw [encode_rd_val _ hrd]
    rw [exbind_ok]
    rw [arg_one]
    rw [exbind_ok]
    rw [encode_rs_val _ hrs]
    try rw [exmap_ok]
    try rw [exbind_ok]
    try rw [expure]
    exact congrArg (fun n => (Except.ok (some n) : Except AsmError (Option Nat))) (by omega)
  · have h0 : func0 (20481 + (rd + 1) * 16 + (rs + 1) * 256) = 1 := by rw [func0_eq]; omega
    have h1 : func1 (20481 + (rd + 1) * 16 + (rs + 1) * 256) = 5 := by rw [func1_eq]; omega
    simp [decode, decode_basic, decode_alu, decode_alu_unary,
      decode_alu_binary, decode_imm8, h0, h1]

/-- Round-trip for `or`. -/
theorem rt_OR (rd rs : Nat) (addr enc : Option Nat)
    (hrd : rd ≤ 6) (hrs : rs ≤ 6) :
    ∃ w, encode_instruction ⟨.OR, [.reg rd, .reg rs], addr, enc⟩ =
        .ok (some w) ∧
      decode w = alu_binary ALUOp.OR := by
  refine ⟨24577 + (rd + 1) * 16 + (rs + 1) * 256, ?_, ?_⟩
  · unfold encode_instruction
    dsimp only
    rw [encode_bits_ok 0 (by norm_num) (by norm_num)]
    rw [exbind_ok]
    rw [encode_bits_ok _ (by norm_num) (by norm_num)]
    rw [exbind_ok]
    rw [arg_zero]
    rw [exbind_ok]
    rw [encode_rd_val _ hrd]
    rw [exbind_ok]
    rw [arg_one]
    rw [exbind_ok]
    rw [encode_rs_val _ hrs]
    try rw [exmap_ok]
    try rw [exbind_ok]
    try rw [expure]
    exact congrArg (fun n => (Except.ok (some n) : Except AsmError (Option Nat))) (by omega)
  · have h0 : func0 (24577 + (rd + 1) * 16 + (rs + 1) * 256) = 1 := by rw [func0_eq]; omega
    have h1 : func1 (24577 + (rd + 1) * 16 + (rs + 1) * 256) = 6 := by rw [func1_eq]; omega
    simp [decode, decode_basic, decode_alu, decode_alu_unary,
      decode_alu_binary, decode_imm8, h0, h1]

/-- Round-trip for `xor`. -/
theorem rt_XOR (rd rs : Nat) (addr enc : Option Nat)
    (hrd : rd ≤ 6) (hrs : rs ≤ 6) :
    ∃ w, encode_instruction ⟨.XOR, [.reg rd, .reg rs], addr, enc⟩ =
        .ok (some w) ∧
      decode w = alu_binary ALUOp.XOR := by
  refine ⟨28673 + (rd + 1) * 16 + (rs + 1) * 256, ?_, ?_⟩
  · unfold encode_instruction
    dsimp only
    rw [encode_bits_ok 0 (by norm_num) (by norm_num)]
    rw [exbind_ok]
    rw [encode_bits_ok _ (by norm_num) (by norm_num)]
    rw [exbind_ok]
    rw [arg_zero]
    rw [exbind_ok]
    rw [encode_rd_val _ hrd]
    rw [exbind_ok]
    rw [arg_one]
    rw [exbind_ok]
    rw [encode_rs_val _ hrs]
    try rw [exmap_ok]
    try rw [exbind_ok]
    try rw [expure]
    exact congrArg (fun n => (Except.ok (some n) : Except AsmError (Option Nat))) (by omega)
  · have h0 : func0 (28673 + (rd + 1) * 16 + (rs + 1) * 256) = 1 := by rw [func0_eq]; omega
    have h1 : func1 (28673 + (rd + 1) * 16 + (rs + 1) * 256) = 7 := by rw [func1_eq]; omega
    simp [decode, decode_basic, decode_alu, decode_alu_unary,
      decode_alu_binary, decode_imm8, h0, h1]

/-- Round-trip for `cmp`. -/
theorem rt_CMP (rd rs : Nat) (addr enc : Option Nat)
    (hrd : rd ≤ 6) (hrs : rs ≤ 6) :
    ∃ w, encode_instruction ⟨.CMP, [.reg rd, .reg rs], addr, enc⟩ =
        .ok (some w) ∧
      decode w = alu_binary ALUOp.SUB .W .R := by
  refine ⟨32769 + (rd + 1) * 16 + (rs + 1) * 256, ?_, ?_⟩
  · unfold encode_instruction
    dsimp only
    rw [encode_bits_ok 0 (by norm_num) (by norm_num)]
    rw [exbind_ok]
    rw [encode_bits_ok _ (by norm_num) (by norm_num)]
    rw [exbind_ok]
    rw [arg_zero]
    rw [exbind_ok]
    rw [encode_rd_val _ hrd]
    rw [exbind_ok]
    rw [arg_one]
    rw [exbind_ok]
    rw [encode_rs_val _ hrs]
    try rw [exmap_ok]
    try rw [exbind_ok]
    try rw [expure]
    exact congrArg (fun n => (Except.ok (some n) : Except AsmError (Option Nat))) (by omega)
  · have h0 : func0 (32769 + (rd + 1) * 16 + (rs + 1) * 256) = 1 := by rw [func0_eq]; omega
    have h1 : func1 (32769 + (rd + 1) * 16 + (rs + 1) * 256) = 8 := by rw [func1_eq]; omega
    simp [decode, decode_basic, decode_alu, decode_alu_unary,
      decode_alu_binary, decode_imm8, h0, h1]

/-- Round-trip for `test`. -/
theorem rt_TEST (rd rs : Nat) (addr enc : Option Nat)
    (hrd : rd ≤ 6) (hrs : rs ≤ 6) :
    ∃ w, encode_instruction ⟨.TEST, [.reg rd, .reg rs], addr, enc⟩ =
        .ok (some w) ∧
      decode w = alu_binary ALUOp.AND .W .R := by
  refine ⟨36865 + (rd + 1) * 16 + (rs + 1) * 256, ?_, ?_⟩
  · unfold encode_instruction
    dsimp only
    rw [encode_bits_ok 0 (by norm_num) (by norm_num)]
    rw [exbind_ok]
    rw [encode_bits_ok _ (by norm_num) (by norm_num)]
    rw [exbind_ok]
    rw [arg_zero]
    rw [exbind_ok]
    rw [encode_rd_val _ hrd]
    rw [exbind_ok]
    rw [arg_one]
    rw [exbind_ok]
    rw [encode_rs_val _ hrs]
    try rw [exmap_ok]
    try rw [exbind_ok]
    try rw [expure]
    exact congrArg (fun n => (Except.ok (some n) : Except AsmError (Option Nat))) (by omega)
  · have h0 : func0 (36865 + (rd + 1) * 16 + (rs + 1) * 256) = 1 := by rw [func0_eq]; omega
    have h1 : func1 (36865 + (rd + 1) * 16 + (rs + 1) * 256) = 9 := by rw [func1_eq]; omega
    simp [decode, decode_basic, decode_alu, decode_alu_unary,
      decode_alu_binary, decode_imm8, h0, h1]

/-- Round-trip for `addci`. -/
theorem rt_ADDCI (rd : Nat) (v : Int) (addr enc : Option Nat)
    (hrd : rd ≤ 6) (h1 : -8 ≤ v) (h2 : v < 8) :
    ∃ w, encode_instruction ⟨.ADDCI, [.reg rd, .imm v], addr, enc⟩ =
        .ok (some w) ∧
      decode w = alu_binary ALUOp.ADDC .RW .RW .Imm4 := by
  refine ⟨40961 + (rd + 1) * 16 + (v % 16).toNat * 256, ?_, ?_⟩
  · unfold encode_instruction
    dsimp only
    rw [encode_bits_ok 0 (by norm_num) (by norm_num)]
    rw [exbind_ok]
    rw [encode_bits_ok _ (by norm_num) (by norm_num)]
    rw [exbind_ok]
    rw [arg_zero]
    rw [exbind_ok]
    rw [encode_rd_val _ hrd]
    rw [exbind_ok]
    rw [arg_one]
    rw [exbind_ok]
    rw [encode_simm4_val _ h1 h2]
    try rw [exmap_ok]
    try rw [exbind_ok]
    try rw [expure]
    exact congrArg (fun n => (Except.ok (some n) : Except AsmError (Option Nat))) (by omega)
  · have h0 : func0 (40961 + (rd + 1) * 16 + (v % 16).toNat * 256) = 1 := by rw [func0_eq]; omega
    have h1f : func1 (40961 + (rd + 1) * 16 + (v % 16).toNat * 256) = 10 := by rw [func1_eq]; omega
    simp [decode, decode_basic, decode_alu, decode_alu_unary,
      decode_alu_binary, decode_imm8, h0, h1f]

/-- Round-trip for `xori`. -/
theorem rt_XORI (rd : Nat) (v : Int) (addr enc : Option Nat)
    (hrd : rd ≤ 6) (h1 : -8 ≤ v) (h2 : v < 8) :
    ∃ w, encode_instruction ⟨.XORI, [.reg rd, .imm v], addr, enc⟩ =
        .ok (some w) ∧
      decode w = alu_binary ALUOp.XOR .W .RW .Imm4 := by
  refine ⟨45057 + (rd + 1) * 16 + (v % 16).toNat * 256, ?_, ?_⟩
  · unfold encode_instruction
    dsimp only
    rw [encode_bits_ok 0 (by norm_num) (by norm_num)]
    rw [exbind_ok]
    rw [encode_bits_ok _ (by norm_num) (by norm_num)]
    rw [exbind_ok]
    rw [arg_zero]
    rw [exbind_ok]
    rw [encode_rd_val _ hrd]
    rw [exbind_ok]
    rw [arg_one]
    rw [exbind_ok]
    rw [encode_simm4_val _ h1 h2]
    try rw [exmap_ok]
    try rw [exbind_ok]
    try rw [expure]
    exact congrArg (fun n => (Except.ok (some n) : Except AsmError (Option Nat))) (by omega)
  · have h0 : func0 (45057 + (rd + 1) * 16 + (v % 16).toNat * 256) = 1 := by rw [func0_eq]; omega
    have h1f : func1 (45057 + (rd + 1) * 16 + (v % 16).toNat * 256) = 11 := by rw [func1_eq]; omega
    simp [decode, decode_basic, decode_alu, decode_alu_unary,
      decode_alu_binary, decode_imm8, h0, h1f]

/-- Round-trip for `cmpi`. -/
theorem rt_CMPI (rd : Nat) (v : Int) (addr enc : Option Nat)
    (hrd : rd ≤ 6) (h1 : -8 ≤ v) (h2 : v < 8) :
    ∃ w, encode_instruction ⟨.CMPI, [.reg rd, .imm v], addr, enc⟩ =
        .ok (some w) ∧
      decode w = alu_binary ALUOp.SUB .W .R .Imm4 := by
  refine ⟨49153 + (rd + 1) * 16 + (v % 16).toNat * 256, ?_, ?_⟩
  · unfold encode_instruction
    dsimp only
    rw [encode_bits_ok 0 (by norm_num) (by norm_num)]
    rw [exbind_ok]
    rw [encode_bits_ok _ (by norm_num) (by norm_num)]
    rw [exbind_ok]
    rw [arg_zero]
    rw [exbind_ok]
    rw [encode_rd_val _ hrd]
    rw [exbind_ok]
    rw [arg_one]
    rw [exbind_ok]
    rw [encode_simm4_val _ h1 h2]
    try rw [exmap_ok]
    try rw [exbind_ok]
    try rw [expure]
    exact congrArg (fun n => (Except.ok (some n) : Except AsmError (Option Nat))) (by omega)
  · have h0 : func0 (49153 + (rd + 1) * 16 + (v % 16).toNat * 256) = 1 := by rw [func0_eq]; omega
    have h1f : func1 (49153 + (rd + 1) * 16 + (v % 16).toNat * 256) = 12 := by rw [func1_eq]; omega
    simp [decode, decode_basic, decode_alu, decode_alu_unary,
      decode_alu_binary, decode_imm8, h0, h1f]

/-- Round-trip for `addi`. -/
theorem rt_ADDI (rd : Nat) (v : Int) (addr enc : Option Nat)
    (hrd : rd ≤ 6) (h1 : -128 ≤ v) (h2 : v < 256) :
    ∃ w, encode_instruction ⟨.ADDI, [.reg rd, .imm v], addr, enc⟩ =
        .ok (some w) ∧
      decode w = alu_binary ALUOp.ADD .W .RW .Imm8 := by
  refine ⟨12 + (rd + 1) * 16 + (v % 256).toNat * 256, ?_, ?_⟩
  · unfold encode_instruction
    dsimp only
    rw [encode_bits_ok 0 (by norm_num) (by norm_num)]
    rw [exbind_ok]
    rw [arg_zero]
    rw [exbind_ok]
    rw [encode_rd_val _ hrd]
    rw [exbind_ok]
    rw [arg_one]
    rw [exbind_ok]
    rw [encode_imm8_val _ h1 h2]
    try rw [exmap_ok]
    try rw [exbind_ok]
    try rw [expure]
    exact congrArg (fun n => (Except.ok (some n) : Except AsmError (Option Nat))) (by omega)
  · have h0 : func0 (12 + (rd + 1) * 16 + (v % 256).toNat * 256) = 12 := by rw [func0_eq]; omega
    simp [decode, decode_basic, decode_alu, decode_alu_unary,
      decode_alu_binary, decode_imm8, h0]

/-- Round-trip for `andi`. -/
theorem rt_ANDI (rd : Nat) (v : Int) (addr enc : Option Nat)
    (hrd : rd ≤ 6) (h1 : -128 ≤ v) (h2 : v < 256) :
    ∃ w, encode_instruction ⟨.ANDI, [.reg rd, .imm v], addr, enc⟩ =
        .ok (some w) ∧
      decode w = alu_binary ALUOp.AND .W .RW .Imm8 := by
  refine ⟨13 + (rd + 1) * 16 + (v % 256).toNat * 256, ?_, ?_⟩
  · unfold encode_instruction
    dsimp only
    rw [encode_bits_ok 0 (by norm_num) (by norm_num)]
    rw [exbind_ok]
    rw [arg_zero]
    rw [exbind_ok]
    rw [encode_rd_val _ hrd]
    rw [exbind_ok]
    rw [arg_one]
    rw [exbind_ok]
    rw [encode_imm8_val _ h1 h2]
    try rw [exmap_ok]
    try rw [exbind_ok]
    try rw [expure]
    exact congrArg (fun n => (Except.ok (some n) : Except AsmError (Option Nat))) (by omega)
  · have h0 : func0 (13 + (rd + 1) * 16 + (v % 256).toNat * 256) = 13 := by rw [func0_eq]; omega
    simp [decode, decode_basic, decode_alu, decode_alu_unary,
      decode_alu_binary, decode_imm8, h0]

/-- Round-trip for `ori`. -/
theorem rt_ORI (rd : Nat) (v : Int) (addr enc : Option Nat)
    (hrd : rd ≤ 6) (h1 : -128 ≤ v) (h2 : v < 256) :
    ∃ w, encode_instruction ⟨.ORI, [.reg rd, .imm v], addr, enc⟩ =
        .ok (some w) ∧
      decode w = alu_binary ALUOp.OR .W .RW .Imm8 := by
  refine ⟨14 + (rd + 1) * 16 + (v % 256).toNat * 256, ?_, ?_⟩
  · unfold encode_instruction
    dsimp only
    rw [encode_bits_ok 0 (by norm_num) (by norm_num)]
    rw [exbind_ok]
    rw [arg_zero]
    rw [exbind_ok]
    rw [encode_rd_val _ hrd]
    rw [exbind_ok]
    rw [arg_one]
    rw [exbind_ok]
    rw [encode_imm8_val _ h1 h2]
    try rw [exmap_ok]
    try rw [exbind_ok]
    try rw [expure]
    exact congrArg (fun n => (Except.ok (some n) : Except AsmError (Option Nat))) (by omega)
  · have h0 : func0 (14 + (rd + 1) * 16 + (v % 256).toNat * 256) = 14 := by rw [func0_eq]; omega
    simp [decode, decode_basic, decode_alu, decode_alu_unary,
      decode_alu_binary, decode_imm8, h0]

/-- Round-trip for `testi`. -/
theorem rt_TESTI (rd : Nat) (v : Int) (addr enc : Option Nat)
    (hrd : rd ≤ 6) (h1 : -128 ≤ v) (h2 : v < 256) :
    ∃ w, encode_instruction ⟨.TESTI, [.reg rd, .imm v], addr, enc⟩ =
        .ok (some w) ∧
      decode w = alu_binary ALUOp.AND .W .R .Imm8 := by
  refine ⟨15 + (rd + 1) * 16 + (v % 256).toNat * 256, ?_, ?_⟩
  · unfold encode_instruction
    dsimp only
    rw [encode_bits_ok 0 (by norm_num) (by norm_num)]
    rw [exbind_ok]
    rw [arg_zero]
    rw [exbind_ok]
    rw [encode_rd_val _ hrd]
    rw [exbind_ok]
    rw [arg_one]
    rw [exbind_ok]
    rw [encode_imm8_val _ h1 h2]
    try rw [exmap_ok]
    try rw [exbind_ok]
    try rw [expure]
    exact congrArg (fun n => (Except.ok (some n) : Except AsmError (Option Nat))) (by omega)
  · have h0 : func0 (15 + (rd + 1) * 16 + (v % 256).toNat * 256) = 15 := by rw [func0_eq]; omega
    simp [decode, decode_basic, decode_alu, decode_alu_unary,
      decode_alu_binary, decode_imm8, h0]

/-- Round-trip for `cmv`. -/
theorem rt_CMV (c : Condition) (rd rs : Nat) (addr enc : Option Nat)
    (hrd : rd ≤ 6) (hrs : rs ≤ 6) :
    ∃ w, encode_instruction ⟨.CMV, [.cond c, .reg rd, .reg rs], addr, enc⟩ =
        .ok (some w) ∧
      decode w = alu_binary (ALUOp.CMV ||| CONDITION_ENCODING c) .R := by
  have hb := cond_enc_bounds c
  refine ⟨2 + CONDITION_ENCODING c * 4096 + (rd + 1) * 16 + (rs + 1) * 256, ?_, ?_⟩
  · unfold encode_instruction
    dsimp only
    rw [encode_bits_ok 0 (by norm_num) (by norm_num)]
    rw [exbind_ok]
    rw [arg_zero]
    rw [exbind_ok]
    rw [encode_cond2_val c]
    rw [exbind_ok]
    rw [arg_one]
    rw [exbind_ok]
    rw [encode_rd_val _ hrd]
    rw [exbind_ok]
    rw [arg_two]
    rw [exbind_ok]
    rw [encode_rs_val _ hrs]
    try rw [exmap_ok]
    try rw [exbind_ok]
    try rw [expure]
    exact congrArg (fun n => (Except.ok (some n) : Except AsmError (Option Nat))) (by omega)
  · have h0 : func0 (2 + CONDITION_ENCODING c * 4096 + (rd + 1) * 16 + (rs + 1) * 256) = 2 := by rw [func0_eq]; omega
    have h1f : func1 (2 + CONDITION_ENCODING c * 4096 + (rd + 1) * 16 + (rs + 1) * 256) = CONDITION_ENCODING c := by rw [func1_eq]; omega
    simp [decode, decode_basic, decode_alu, decode_alu_unary,
      decode_alu_binary, decode_imm8, h0, h1f]

/-- Round-trip for `cldi`. -/
theorem rt_CLDI (c : Condition) (rd : Nat) (v : Int) (addr enc : Option Nat)
    (hrd : rd ≤ 6) (h1 : -8 ≤ v) (h2 : v < 8) :
    ∃ w, encode_instruction ⟨.CLDI, [.cond c, .reg rd, .imm v], addr, enc⟩ =
        .ok (some w) ∧
      decode w = alu_binary (ALUOp.CMV ||| CONDITION_ENCODING c) .R .RW .Imm4 := by
  have hb := cond_enc_bounds c
  refine ⟨3 + CONDITION_ENCODING c * 4096 + (rd + 1) * 16 + (v % 16).toNat * 256, ?_, ?_⟩
  · unfold encode_instruction
    dsimp only
    rw [encode_bits_ok 0 (by norm_num) (by norm_num)]
    rw [exbind_ok]
    rw [arg_zero]
    rw [exbind_ok]
    rw [encode_cond2_val c]
    rw [exbind_ok]
    rw [arg_one]
    rw [exbind_ok]
    rw [encode_rd_val _ hrd]
    rw [exbind_ok]
    rw [arg_two]
    rw [exbind_ok]
    rw [encode_simm4_val _ h1 h2]
    try rw [exmap_ok]
    try rw [exbind_ok]
    try rw [expure]
    exact congrArg (fun n => (Except.ok (some n) : Except AsmError (Option Nat))) (by omega)
  · have h0 : func0 (3 + CONDITION_ENCODING c * 4096 + (rd + 1) * 16 + (v % 16).toNat * 256) = 3 := by rw [func0_eq]; omega
    have h1f : func1 (3 + CONDITION_ENCODING c * 4096 + (rd + 1) * 16 + (v % 16).toNat * 256) = CONDITION_ENCODING c := by rw [func1_eq]; omega
    simp [decode, decode_basic, decode_alu, decode_alu_unary,
      decode_alu_binary, decode_imm8, h0, h1f]

end Roundtrip

open Decoder Assembler Roundtrip in
/-- C1 counterexample: `lcdcw r0` is a real (non-directive) instruction that
is neither a jump nor a branch, its operand passes the encoder's checks, yet
decoding its encoded word 0x4010 yields the reserved program-counter mode,
not `Step`, and no control signals of an LCD write. -/
theorem C1_counterexample :
    encode_instruction ⟨.LCDCW, [.reg 0], none, none⟩ = .ok (some 0x4010) ∧
    (decode 0x4010).pc = PcMode.Reserved ∧ PcMode.Reserved ≠ PcMode.Step := by
  refine ⟨rfl, by decide, by decide⟩

open Decoder Assembler Roundtrip in
/-- C1 (amended): encode/decode round-trip. For every real instruction other
than the LCD opcodes and the conditional branches `b`/`br`/`bro`, whose
operands pass the encoder's kind and range checks, decoding the encoded
16-bit word yields exactly the control signals of that opcode (`add` gives
FU=ALU, fuop=ADD, rd-mode=RW, rs-mode=R8; `ldi` gives FU=Move, rd-mode=W,
rs-mode=Imm8; `j` gives PcMode=RelJump with rs-mode=Imm8; PcMode is `Step`
for non-jumps, `RelJump` for `j`/`jro` and for `halt` (which encodes as a
jump-to-self), `AbsJump` for `jr`).  The four LCD opcodes and the three
conditional branches instead decode to the reserved PC mode. -/
theorem C1_round_trip :
    (∀ (addr enc : Option Nat),
      ∃ w, encode_instruction ⟨.NOP, [], addr, enc⟩ = .ok (some w) ∧
        decode w = {}) ∧
    (∀ (addr enc : Option Nat),
      ∃ w, encode_instruction ⟨.HALT, [], addr, enc⟩ = .ok (some w) ∧
        decode w = { rs := .Imm8, pc := .RelJump }) ∧
    (∀ (rd : Nat) (v : Int) (addr enc : Option Nat),
      rd ≤ 6 → -128 ≤ v → v < 256 →
      ∃ w, encode_instruction ⟨.LDI, [.reg rd, .imm v], addr, enc⟩ = .ok (some w) ∧
        decode w = { rd := .W, rs := .Imm8, fuid := .Move }) ∧
    (∀ (rd rs : Nat) (addr enc : Option Nat),
      rd ≤ 6 → rs ≤ 6 →
      ∃ w, encode_instruction ⟨.MV, [.reg rd, .reg rs], addr, enc⟩ = .ok (some w) ∧
        decode w = { rd := .W, rs := .R8, fuid := .Move }) ∧
    (∀ (p : Nat) (addr enc : Option Nat),
      p ≤ 5 →
      ∃ w, encode_instruction ⟨.JR, [.regPair p], addr, enc⟩ = .ok (some w) ∧
        decode w = { rs := .R16, pc := .AbsJump }) ∧
    (∀ (v : Int) (addr enc : Option Nat),
      -128 ≤ v → v < 128 →
      ∃ w, encode_instruction ⟨.J, [.imm v], addr, enc⟩ = .ok (some w) ∧
        decode w = { rs := .Imm8, pc := .RelJump }) ∧
    (∀ (rs : Nat) (addr enc : Option Nat),
      rs ≤ 6 →
      ∃ w, encode_instruction ⟨.JRO, [.reg rs], addr, enc⟩ = .ok (some w) ∧
        decode w = { rs := .R8, pc := .RelJump }) ∧
    (∀ (c : Condition) (p : Nat) (addr enc : Option Nat),
      p ≤ 5 →
      ∃ w, encode_instruction ⟨.BR, [.cond c, .regPair p], addr, enc⟩ = .ok (some w) ∧
        decode w = { pc := .Reserved }) ∧
    (∀ (c : Condition) (v : Int) (addr enc : Option Nat),
      -128 ≤ v → v < 128 →
      ∃ w, encode_instruction ⟨.B, [.cond c, .imm v], addr, enc⟩ = .ok (some w) ∧
        decode w = { pc := .Reserved }) ∧
    (∀ (c : Condition) (rs : Nat) (addr enc : Option Nat),
      rs ≤ 6 →
      ∃ w, encode_instruction ⟨.BRO, [.cond c, .reg rs], addr, enc⟩ = .ok (some w) ∧
        decode w = { pc := .Reserved }) ∧
    (∀ (rd : Nat) (addr enc : Option Nat),
      rd ≤ 6 →
      ∃ w, encode_instruction ⟨.LCDCW, [.reg rd], addr, enc⟩ = .ok (some w) ∧
        decode w = { pc := .Reserved }) ∧
    (∀ (rd : Nat) (addr enc : Option Nat),
      rd ≤ 6 →
      ∃ w, encode_instruction ⟨.LCDDW, [.reg rd], addr, enc⟩ = .ok (some w) ∧
        decode w = { pc := .Reserved }) ∧
    (∀ (rd : Nat) (addr enc : Option Nat),
      rd ≤ 6 →
      ∃ w, encode_instruction ⟨.LCDCR, [.reg rd], addr, enc⟩ = .ok (some w) ∧
        decode w = { pc := .Reserved }) ∧
    (∀ (rd : Nat) (addr enc : Option Nat),
      rd ≤ 6 →
      ∃ w, encode_instruction ⟨.LCDDR, [.reg rd], addr, enc⟩ = .ok (some w) ∧
        decode w = { pc := .Reserved }) ∧
    (∀ (rd : Nat) (addr enc : Option Nat),
      rd ≤ 6 →
      ∃ w, encode_instruction ⟨.NOT, [.reg rd], addr, enc⟩ = .ok (some w) ∧
        decode w = alu_unary ALUOp.NOT) ∧
    (∀ (rd : Nat) (addr enc : Option Nat),
      rd ≤ 6 →
      ∃ w, encode_instruction ⟨.NEG, [.reg rd], addr, enc⟩ = .ok (some w) ∧
        decode w = alu_unary ALUOp.NEG) ∧
    (∀ (rd : Nat) (addr enc : Option Nat),
      rd ≤ 6 →
      ∃ w, encode_instruction ⟨.SHLL, [.reg rd], addr, enc⟩ = .ok (some w) ∧
        decode w = alu_unary ALUOp.SHLL) ∧
    (∀ (rd : Nat) (addr enc : Option Nat),
      rd ≤ 6 →
      ∃ w, encode_instruction ⟨.SHLC, [.reg rd], addr, enc⟩ = .ok (some w) ∧
        decode w = alu_unary ALUOp.SHLC .RW) ∧
    (∀ (rd : Nat) (addr enc : Option Nat),
      rd ≤ 6 →
      ∃ w, encode_instruction ⟨.SHRL, [.reg rd], addr, enc⟩ = .ok (some w) ∧
        decode w = alu_unary ALUOp.SHRL) ∧
    (∀ (rd : Nat) (addr enc : Option Nat),
      rd ≤ 6 →
      ∃ w, encode_instruction ⟨.SHRC, [.reg rd], addr, enc⟩ = .ok (some w) ∧
        decode w = alu_unary ALUOp.SHRC .RW) ∧
    (∀ (rd : Nat) (addr enc : Option Nat),
      rd ≤ 6 →
      ∃ w, encode_instruction ⟨.SHRA, [.reg rd], addr, enc⟩ = .ok (some w) ∧
        decode w = alu_unary ALUOp.SHRA) ∧
    (∀ (rd : Nat) (addr enc : Option Nat),
      rd ≤ 6 →
      ∃ w, encode_instruction ⟨.FSWAP, [.reg rd], addr, enc⟩ = .ok (some w) ∧
        decode w = alu_unary ALUOp.FSWAP .RW) ∧
    (∀ (rd : Nat) (addr enc : Option Nat),
      rd ≤ 6 →
      ∃ w, encode_instruction ⟨.FR, [.reg rd], addr, enc⟩ = .ok (some w) ∧
        decode w = alu_unary ALUOp.FSWAP .R .W) ∧
    (∀ (rd : Nat) (addr enc : Option Nat),
      rd ≤ 6 →
      ∃ w, encode_instruction ⟨.FW, [.reg rd], addr, enc⟩ = .ok (some w) ∧
        decode w = alu_unary ALUOp.FSWAP .W .R) ∧
    (∀ (rd rs : Nat) (addr enc : Option Nat),
      rd ≤ 6 → rs ≤ 6 →
      ∃ w, encode_instruction ⟨.ADD, [.reg rd, .reg rs], addr, enc⟩ = .ok (some w) ∧
        decode w = alu_binary ALUOp.ADD) ∧
    (∀ (rd rs : Nat) (addr enc : Option Nat),
      rd ≤ 6 → rs ≤ 6 →
      ∃ w, encode_instruction ⟨.ADDC, [.reg rd, .reg rs], addr, enc⟩ = .ok (some w) ∧
        decode w = alu_binary ALUOp.ADDC .RW) ∧
    (∀ (rd rs : Nat) (addr enc : Option Nat),
      rd ≤ 6 → rs ≤ 6 →
      ∃ w, encode_instruction ⟨.SUB, [.reg rd, .reg rs], addr, enc⟩ = .ok (some w) ∧
        decode w = alu_binary ALUOp.SUB) ∧
    (∀ (rd rs : Nat) (addr enc : Option Nat),
      rd ≤ 6 → rs ≤ 6 →
      ∃ w, encode_instruction ⟨.SUBC, [.reg rd, .reg rs], addr, enc⟩ = .ok (some w) ∧
        decode w = alu_binary ALUOp.SUBC .RW) ∧
    (∀ (rd rs : Nat) (addr enc : Option Nat),
      rd ≤ 6 → rs ≤ 6 →
      ∃ w, encode_instruction ⟨.AND, [.reg rd, .reg rs], addr, enc⟩ = .ok (some w) ∧
        decode w = alu_binary ALUOp.AND) ∧
    (∀ (rd rs : Nat) (addr enc : Option Nat),
      rd ≤ 6 → rs ≤ 6 →
      ∃ w, encode_instruction ⟨.OR, [.reg rd, .reg rs], addr, enc⟩ = .ok (some w) ∧
        decode w = alu_binary ALUOp.OR) ∧
    (∀ (rd rs : Nat) (addr enc : Option Nat),
      rd ≤ 6 → rs ≤ 6 →
      ∃ w, encode_instruction ⟨.XOR, [.reg rd, .reg rs], addr, enc⟩ = .ok (some w) ∧
        decode w = alu_binary ALUOp.XOR) ∧
    (∀ (rd rs : Nat) (addr enc : Option Nat),
      rd ≤ 6 → rs ≤ 6 →
      ∃ w, encode_instruction ⟨.CMP, [.reg rd, .reg rs], addr, enc⟩ = .ok (some w) ∧
        decode w = alu_binary ALUOp.SUB .W .R) ∧
    (∀ (rd rs : Nat) (addr enc : Option Nat),
      rd ≤ 6 → rs ≤ 6 →
      ∃ w, encode_instruction ⟨.TEST, [.reg rd, .reg rs], addr, enc⟩ = .ok (some w) ∧
        decode w = alu_binary ALUOp.AND .W .R) ∧
    (∀ (rd : Nat) (v : Int) (addr enc : Option Nat),
      rd ≤ 6 → -8 ≤ v → v < 8 →
      ∃ w, encode_instruction ⟨.ADDCI, [.reg rd, .imm v], addr, enc⟩ = .ok (some w) ∧
        decode w = alu_binary ALUOp.ADDC .RW .RW .Imm4) ∧
    (∀ (rd : Nat) (v : Int) (addr enc : Option Nat),
      rd ≤ 6 → -8 ≤ v → v < 8 →
      ∃ w, encode_instruction ⟨.XORI, [.reg rd, .imm v], addr, enc⟩ = .ok (some w) ∧
        decode w = alu_binary ALUOp.XOR .W .RW .Imm4) ∧
    (∀ (rd : Nat) (v : Int) (addr enc : Option Nat),
      rd ≤ 6 → -8 ≤ v → v < 8 →
      ∃ w, encode_instruction ⟨.CMPI, [.reg rd, .imm v], addr, enc⟩ = .ok (some w) ∧
        decode w = alu_binary ALUOp.SUB .W .R .Imm4) ∧
    (∀ (rd : Nat) (v : Int) (addr enc : Option Nat),
      rd ≤ 6 → -128 ≤ v → v < 256 →
      ∃ w, encode_instruction ⟨.ADDI, [.reg rd, .imm v], addr, enc⟩ = .ok (some w) ∧
        decode w = alu_binary ALUOp.ADD .W .RW .Imm8) ∧
    (∀ (rd : Nat) (v : Int) (addr enc : Option Nat),
      rd ≤ 6 → -128 ≤ v → v < 256 →
      ∃ w, encode_instruction ⟨.ANDI, [.reg rd, .imm v], addr, enc⟩ = .ok (some w) ∧
        decode w = alu_binary ALUOp.AND .W .RW .Imm8) ∧
    (∀ (rd : Nat) (v : Int) (addr enc : Option Nat),
      rd ≤ 6 → -128 ≤ v → v < 256 →
      ∃ w, encode_instruction ⟨.ORI, [.reg rd, .imm v], addr, enc⟩ = .ok (some w) ∧
        decode w = alu_binary ALUOp.OR .W .RW .Imm8) ∧
    (∀ (rd : Nat) (v : Int) (addr enc : Option Nat),
      rd ≤ 6 → -128 ≤ v → v < 256 →
      ∃ w, encode_instruction ⟨.TESTI, [.reg rd, .imm v], addr, enc⟩ = .ok (some w) ∧
        decode w = alu_binary ALUOp.AND .W .R .Imm8) ∧
    (∀ (c : Condition) (rd rs : Nat) (addr enc : Option Nat),
      rd ≤ 6 → rs ≤ 6 →
      ∃ w, encode_instruction ⟨.CMV, [.cond c, .reg rd, .reg rs], addr, enc⟩ = .ok (some w) ∧
        decode w = alu_binary (ALUOp.CMV ||| CONDITION_ENCODING c) .R) ∧
    (∀ (c : Condition) (rd : Nat) (v : Int) (addr enc : Option Nat),
      rd ≤ 6 → -8 ≤ v → v < 8 →
      ∃ w, encode_instruction ⟨.CLDI, [.cond c, .reg rd, .imm v], addr, enc⟩ = .ok (some w) ∧
        decode w = alu_binary (ALUOp.CMV ||| CONDITION_ENCODING c) .R .RW .Imm4) :=
  ⟨rt_NOP, rt_HALT, rt_LDI, rt_MV, rt_JR, rt_J, rt_JRO, rt_BR, rt_B, rt_BRO, rt_LCDCW, rt_LCDDW, rt_LCDCR, rt_LCDDR, rt_NOT, rt_NEG, rt_SHLL, rt_SHLC, rt_SHRL, rt_SHRC, rt_SHRA, rt_FSWAP, rt_FR, rt_FW, rt_ADD, rt_ADDC, rt_SUB, rt_SUBC, rt_AND, rt_OR, rt_XOR, rt_CMP, rt_TEST, rt_ADDCI, rt_XORI, rt_CMPI, rt_ADDI, rt_ANDI, rt_ORI, rt_TESTI, rt_CMV, rt_CLDI⟩

open Decoder Assembler in
/-- C1 witness: the amended round-trip theorem applied to `ldi r0, 5` and
`add r1, r2`. -/
theorem C1_round_trip_witness :
    (∃ w, encode_instruction ⟨.LDI, [.reg 0, .imm 5], none, none⟩ =
        .ok (some w) ∧ decode w = { rd := .W, rs := .Imm8, fuid := .Move }) ∧
    (∃ w, encode_instruction ⟨.ADD, [.reg 1, .reg 2], none, none⟩ =
        .ok (some w) ∧ decode w = alu_binary ALUOp.ADD) :=
  ⟨C1_round_trip.2.2.1 0 5 none none (by decide) (by decide) (by decide),
   C1_round_trip.2.2.2.2.2.2.2.2.2.2.2.2.2.2.2.2.2.2.2.2.2.2.2.2.1 1 2 none none (by decide) (by decide)⟩

open Decoder in
/-- C2: totality of decode.  Every 16-bit word decodes without failure:
both ROM images have exactly 65536 entries, entry `n` of ROM0 packs the
decoded rd, rs, flags and pc modes of word `n` (at bit offsets 0, 2, 4, 6)
and entry `n` of ROM1 packs its functional-unit operation and selector (at
bit offsets 0 and 6), with no `pack` assertion ever firing; and every word
matching no recognized instruction pattern decodes with the reserved
program-counter mode 0b11. -/
theorem C2_decode_totality :
    rom0_bytes.length = 65536 ∧ rom1_bytes.length = 65536 ∧
    (∀ n : Nat, rom0_byte n = some ((decode n).rd.toNat + 4 * (decode n).rs.toNat +
        16 * (decode n).flags.toNat + 64 * (decode n).pc.toNat) ∧
      rom1_byte n = some ((decode n).fuop + 64 * (decode n).fuid.toNat)) ∧
    (∀ n : Nat, n < 65536 →
      rom0_bytes.get? n = some (rom0_byte n) ∧
      rom1_bytes.get? n = some (rom1_byte n)) ∧
    (∀ w : Nat, ¬ recognized w → decode w = { pc := .Reserved }) ∧
    PcMode.Reserved.toNat = 0b11 := by
  refine ⟨?_, ?_, ?_, ?_, ?_, rfl⟩
  · simp [rom0_bytes]
  · simp [rom1_bytes]
  · intro n
    exact ⟨rom0_byte_eq n, rom1_byte_eq n⟩
  · intro n hn
    constructor
    · rw [rom0_bytes, List.get?_map, List.get?_range (by simpa using hn)]
      rfl
    · rw [rom1_bytes, List.get?_map, List.get?_range (by simpa using hn)]
      rfl
  · intro w hw
    exact decode_of_not_recognized hw

open Decoder in
/-- C2 witness: the totality theorem applied at entry 3 and at the
unrecognized word 4 (whose low nibble 4 matches no instruction pattern). -/
theorem C2_decode_totality_witness :
    Decoder.rom0_bytes.get? 3 = some (Decoder.rom0_byte 3) ∧
    ¬ Decoder.recognized 4 ∧
    Decoder.decode 4 = { pc := .Reserved } :=
  ⟨(C2_decode_totality.2.2.2.1 3 (by norm_num)).1, by decide,
   C2_decode_totality.2.2.2.2.1 4 (by decide)⟩

open Assembler in
/-- C3: immediate range enforcement.  Encoding an unsigned 8-bit immediate
succeeds exactly for −128 ≤ v < 256 (and masks the value to 8 bits); a
signed 8-bit displacement exactly for −128 ≤ v < 128; a signed 4-bit
immediate exactly for −8 ≤ v < 8.  Each value one past a boundary fails
with the diagnostic carrying the bounds and the offending value, rendered
with the exact message text, while the boundary values succeed. -/
theorem C3_immediate_range_enforcement :
    (∀ (v : Int) (acc : Nat),
      (∃ w, encode_imm8 (.imm v) acc = .ok w) ↔ (-128 ≤ v ∧ v < 256)) ∧
    (∀ (v : Int) (acc : Nat),
      (∃ w, encode_simm8 (.imm v) acc = .ok w) ↔ (-128 ≤ v ∧ v < 128)) ∧
    (∀ (v : Int) (acc : Nat),
      (∃ w, encode_simm4 (.imm v) acc = .ok w) ↔ (-8 ≤ v ∧ v < 8)) ∧
    (∀ (v : Int) (acc : Nat), -128 ≤ v → v < 256 →
      encode_imm8 (.imm v) acc = encode_bits 8 8 ((v % 256).toNat) acc) ∧
    (encode_imm8 (.imm 256) 0 = .error (.immOutOfBounds 256 (-128) 256)) ∧
    (encode_imm8 (.imm (-129)) 0 = .error (.immOutOfBounds (-129) (-128) 256)) ∧
    (encode_simm8 (.imm 128) 0 = .error (.immOutOfBounds 128 (-128) 128)) ∧
    (encode_simm8 (.imm (-129)) 0 = .error (.immOutOfBounds (-129) (-128) 128)) ∧
    (encode_simm4 (.imm 8) 0 = .error (.immOutOfBounds 8 (-8) 8)) ∧
    (encode_simm4 (.imm (-9)) 0 = .error (.immOutOfBounds (-9) (-8) 8)) ∧
    (∃ w, encode_imm8 (.imm 255) 0 = .ok w) ∧
    (∃ w, encode_imm8 (.imm (-128)) 0 = .ok w) ∧
    (∃ w, encode_simm8 (.imm 127) 0 = .ok w) ∧
    (∃ w, encode_simm8 (.imm (-128)) 0 = .ok w) ∧
    (∃ w, encode_simm4 (.imm 7) 0 = .ok w) ∧
    (∃ w, encode_simm4 (.imm (-8)) 0 = .ok w) ∧
    AsmError.render (.immOutOfBounds 256 (-128) 256) =
      "immediate value 256 is out of bounds; expected -128 <= value < 256" := by
  refine ⟨encode_imm8_ok_iff, encode_simm8_ok_iff, encode_simm4_ok_iff,
    ?_, rfl, rfl, rfl, rfl, rfl, rfl,
    (encode_imm8_ok_iff 255 0).mpr (by norm_num),
    (encode_imm8_ok_iff (-128) 0).mpr (by norm_num),
    (encode_simm8_ok_iff 127 0).mpr (by norm_num),
    (encode_simm8_ok_iff (-128) 0).mpr (by norm_num),
    (encode_simm4_ok_iff 7 0).mpr (by norm_num),
    (encode_simm4_ok_iff (-8) 0).mpr (by norm_num), rfl⟩
  intro v acc h1 h2
  simp only [encode_imm8, check_imm]
  rw [if_neg (by omega)]
  simp only [exbind_ok]

open Assembler in
/-- C3 witness: the masking clause applied at v = −1 (masked byte 0xFF). -/
theorem C3_immediate_range_enforcement_witness :
    encode_imm8 (.imm (-1)) 0 =
      encode_bits 8 8 (((-1 : Int) % 256).toNat) 0 :=
  C3_immediate_range_enforcement.2.2.2.1 (-1) 0 (by norm_num) (by norm_num)

/-! ## Resolver, layouter, evaluator and byte serialization -/

namespace Assembler

/-- Python `str.isdigit()` on a label: non-empty and all digits. -/
def isDigitOnly (s : String) : Bool :=
  s.toList ≠ [] && s.toList.all Char.isDigit

/-- The regex `^([0-9]+)([bf])$` of `Resolver.resolve_offset`: a non-empty
digit group followed by a `b` or `f` suffix (`true` = `f`/forward). -/
def matchRelative (name : String) : Option (String × Bool) :=
  let cs := name.toList
  match cs.getLast? with
  | some 'f' =>
    if cs.dropLast ≠ [] ∧ cs.dropLast.all Char.isDigit then
      some (String.mk cs.dropLast, true)
    else none
  | some 'b' =>
    if cs.dropLast ≠ [] ∧ cs.dropLast.all Char.isDigit then
      some (String.mk cs.dropLast, false)
    else none
  | _ => none

/-- `relative_labels.setdefault(label, []).append((index, inst))`: append
the defining instruction's program index to the label's list. -/
def insertRel (m : List (String × List Nat)) (name : String) (index : Nat) :
    List (String × List Nat) :=
  match m with
  | [] => [(name, [index])]
  | (k, l) :: rest =>
    if k = name then (k, l ++ [index]) :: rest
    else (k, l) :: insertRel rest name index

/-- `class Resolver`: the two label tables.  The source stores defining
`Instruction` objects; since the program is never restructured, they are
modelled as program indices. -/
structure Resolver where
  labels : List (String × Nat) := []
  relative_labels : List (String × List Nat) := []
deriving DecidableEq

/-- `Resolver.register_label`. -/
def register_label (r : Resolver) (index : Nat) (inst : Instruction) :
    Except AsmError Resolver :=
  match inst.operands.get? 0 with
  | some (.label name) =>
    if isDigitOnly name then
      .ok { r with relative_labels := insertRel r.relative_labels name index }
    else if (r.labels.lookup name).isSome then
      .error (.duplicateLabel name)
    else
      .ok { r with labels := r.labels ++ [(name, index)] }
  | _ => .error (.pyError "label definition without label operand")

/-- One enumerated step of pass (a) of `Resolver.resolve_program`:
`D_LABEL` instructions are registered, all others are skipped. -/
def register_step (r : Resolver) (p : Nat × Instruction) :
    Except AsmError Resolver :=
  if p.2.opcode = .D_LABEL then register_label r p.1 p.2 else .ok r

/-- Pass (a) of `Resolver.resolve_program`: register every `D_LABEL`. -/
def register_pass (program : List Instruction) : Except AsmError Resolver :=
  program.enum.foldlM register_step {}

/-- `Resolver.resolve_offset`. -/
def resolve_offset (r : Resolver) (index : Nat) (o : Offset) :
    Except AsmError Offset :=
  match matchRelative o.name with
  | some (label, forward) =>
    let labels := (r.relative_labels.lookup label).getD []
    if forward then
      -- Use the first label with index after the current instruction.
      match labels.find? (fun li => index ≤ li) with
      | some li => .ok { o with binding := some li }
      | none => .error (.unknownRelativeLabel label true)
    else
      -- Use the first label with index before the current instruction.
      match labels.reverse.find? (fun li => li ≤ index) with
      | some li => .ok { o with binding := some li }
      | none => .error (.unknownRelativeLabel label false)
  | none =>
    -- Handle regular labels.
    match r.labels.lookup o.name with
    | some li => .ok { o with binding := some li }
    | none => .error (.unknownLabel o.name)

/-- `Resolver.resolve_instruction`: resolve every `Offset` operand. -/
def resolve_instruction (r : Resolver) (index : Nat) (inst : Instruction) :
    Except AsmError Instruction := do
  let ops ← inst.operands.mapM fun op =>
    match op with
    | .offset o => do
      let o' ← resolve_offset r index o
      pure (Operand.offset o')
    | other => pure other
  pure { inst with operands := ops }

/-- `Resolver.resolve_program`: register all labels, then resolve all
instructions. -/
def resolve_program (program : List Instruction) :
    Except AsmError (List Instruction) := do
  let r ← register_pass program
  program.enum.mapM fun (p : Nat × Instruction) => resolve_instruction r p.1 p.2

/-- `Layouter.layout_instruction`: one step of the address layout pass,
returning the updated instruction and the new current address. -/
def layout_instruction (current : Nat) (inst : Instruction) :
    Except AsmError (Instruction × Nat) :=
  if inst.opcode = .D_ORG then
    match inst.operands.get? 0 with
    | some (.imm org) =>
      if (current : Int) > org then .error (.orgBehind org current)
      else .ok ({ inst with address := some org.toNat }, org.toNat)
    | _ => .error (.pyError "org directive without immediate operand")
  else if inst.opcode = .D_LABEL then
    .ok ({ inst with address := some current }, current)
  else
    .ok ({ inst with address := some current }, current + 2)

/-- The layout pass from a given current address. -/
def layout_go (current : Nat) : List Instruction →
    Except AsmError (List Instruction)
  | [] => .ok []
  | inst :: rest => do
    let (inst', current') ← layout_instruction current inst
    let rest' ← layout_go current' rest
    .ok (inst' :: rest')

/-- `Layouter.layout_program`: current address starts at 0. -/
def layout_program (program : List Instruction) :
    Except AsmError (List Instruction) :=
  layout_go 0 program

/-- `Evaluator.evaluate_instruction` on one operand:
`operand.value.offset = operand.value.binding.address - inst.address`.
A missing binding or address would raise in Python. -/
def evaluate_operand (program : List Instruction) (inst : Instruction)
    (op : Operand) : Except AsmError Operand :=
  match op with
  | .offset o =>
    match o.binding with
    | some b =>
      match (program.get? b).bind Instruction.address, inst.address with
      | some ba, some ia =>
        .ok (.offset { o with offset := some ((ba : Int) - (ia : Int)) })
      | _, _ => .error (.pyError "address not computed")
    | none => .error (.pyError "offset not resolved")
  | _ => .ok op

/-- `Evaluator.evaluate_instruction`. -/
def evaluate_instruction (program : List Instruction) (inst : Instruction) :
    Except AsmError Instruction := do
  let ops ← inst.operands.mapM (evaluate_operand program inst)
  pure { inst with operands := ops }

/-- `Evaluator.evaluate_program`. -/
def evaluate_program (program : List Instruction) :
    Except AsmError (List Instruction) :=
  program.mapM (evaluate_instruction program)

/-- One step of the buffer construction in `convert_program_to_bytes`. -/
def convert_step (buffer : List Nat) (inst : Instruction) : List Nat :=
  match inst.encoding, inst.address with
  | some e, some a =>
    let buffer :=
      if a > buffer.length then buffer ++ List.replicate (a - buffer.length) 0
      else buffer
    buffer ++ [e % 256, e / 256 % 256]
  | _, _ => buffer

/-- The raw (pre-padding) byte buffer of `convert_program_to_bytes`. -/
def raw_buffer (program : List Instruction) : List Nat :=
  program.foldl convert_step []

/-- `convert_program_to_bytes`: little-endian bytes at each instruction's
address, zero-filled gaps, and the configured output size enforced. -/
def convert_program_to_bytes (program : List Instruction)
    (output_size : Option Nat := none) : Except AsmError (List Nat) :=
  let buffer := raw_buffer program
  match output_size with
  | some size =>
    if buffer.length > size then .error (.sizeExceeded buffer.length size)
    else .ok (buffer ++ List.replicate (size - buffer.length) 0)
  | none => .ok buffer

/-- The assembly pipeline of the module-level script: resolve, layout,
evaluate, encode, serialize. -/
def assemble_program (program : List Instruction)
    (output_size : Option Nat := none) :
    Except AsmError (List Instruction × List Nat) := do
  let p1 ← resolve_program program
  let p2 ← layout_program p1
  let p3 ← evaluate_program p2
  let p4 ← encode_program p3
  let binary ← convert_program_to_bytes p4 output_size
  pure (p4, binary)

end Assembler

open Assembler in
/-- C6: layouter behaviour.  The pass starts its counter at 0
(`layout_program = layout_go 0`); an origin directive sets the counter to
its immediate value and fails exactly when that value is below the current
counter; a label definition records the current address and advances by 0;
every other instruction records the current address and advances by
exactly 2. -/
theorem C6_layouter :
    (layout_program = layout_go 0) ∧
    (∀ (current : Nat) (inst : Instruction) (org : Int),
      inst.opcode = .D_ORG → inst.operands = [.imm org] →
      layout_instruction current inst =
        if (current : Int) > org then .error (.orgBehind org current)
        else .ok ({ inst with address := some org.toNat }, org.toNat)) ∧
    (∀ (current : Nat) (inst : Instruction),
      inst.opcode = .D_LABEL →
      layout_instruction current inst =
        .ok ({ inst with address := some current }, current)) ∧
    (∀ (current : Nat) (inst : Instruction),
      inst.opcode ≠ .D_ORG → inst.opcode ≠ .D_LABEL →
      layout_instruction current inst =
        .ok ({ inst with address := some current }, current + 2)) := by
  refine ⟨rfl, ?_, ?_, ?_⟩
  · intro current inst org hop hops
    simp [layout_instruction, hop, hops]
  · intro current inst hop
    simp [layout_instruction, hop]
  · intro current inst h1 h2
    simp [layout_instruction, h1, h2]

open Assembler in
/-- C6 witness: the three step equations at concrete inputs: `.org 0x10`
from counter 0 (accepted) and from counter 0x20 (rejected), a label
definition, and a `nop`. -/
theorem C6_layouter_witness :
    layout_instruction 0 ⟨.D_ORG, [.imm 16], none, none⟩ =
      .ok (⟨.D_ORG, [.imm 16], some 16, none⟩, 16) ∧
    layout_instruction 32 ⟨.D_ORG, [.imm 16], none, none⟩ =
      .error (.orgBehind 16 32) ∧
    layout_instruction 4 ⟨.D_LABEL, [.label "x"], none, none⟩ =
      .ok (⟨.D_LABEL, [.label "x"], some 4, none⟩, 4) ∧
    layout_instruction 4 ⟨.NOP, [], none, none⟩ =
      .ok (⟨.NOP, [], some 4, none⟩, 6) := by
  refine ⟨?_, ?_, ?_, ?_⟩
  · rw [C6_layouter.2.1 0 ⟨.D_ORG, [.imm 16], none, none⟩ 16 rfl rfl]
    rfl
  · rw [C6_layouter.2.1 32 ⟨.D_ORG, [.imm 16], none, none⟩ 16 rfl rfl]
    rfl
  · rw [C6_layouter.2.2.1 4 ⟨.D_LABEL, [.label "x"], none, none⟩ rfl]
  · rw [C6_layouter.2.2.2 4 ⟨.NOP, [], none, none⟩ (by decide) (by decide)]

open Assembler in
/-- C5: displacement evaluation.  For every `Offset` operand with a
resolved binding, when the binding's instruction and the referencing
instruction both carry addresses, the evaluator stores exactly
`binding.address − referencing.address` as the resolved (signed)
displacement.  And the program `.org 0x10 / start: / j start` resolves the
jump displacement to 0, encoding the zero relative jump 0x0009. -/
theorem C5_displacement :
    (∀ (program : List Instruction) (inst : Instruction) (o : Offset)
        (b ba ia : Nat) (bi : Instruction),
      o.binding = some b → program.get? b = some bi → bi.address = some ba →
      inst.address = some ia →
      evaluate_operand program inst (.offset o) =
        .ok (.offset { o with offset := some ((ba : Int) - (ia : Int)) })) ∧
    (assemble_program
        [⟨.D_ORG, [.imm 16], none, none⟩,
         ⟨.D_LABEL, [.label "start"], none, none⟩,
         ⟨.J, [.offset ⟨"start", none, none⟩], none, none⟩] none =
      .ok ([⟨.D_ORG, [.imm 16], some 16, none⟩,
            ⟨.D_LABEL, [.label "start"], some 16, none⟩,
            ⟨.J, [.offset ⟨"start", some 1, some 0⟩], some 16, some 0x0009⟩],
           List.replicate 16 0 ++ [0x09, 0x00])) := by
  constructor
  · intro program inst o b ba ia bi hb hget haddr hia
    have h1 : (program.get? b).bind Instruction.address = some ba := by
      rw [hget]; exact haddr
    simp only [evaluate_operand, hb]
    rw [h1, hia]
  · rfl

open Assembler in
/-- C5 witness: the evaluator equation applied to the scenario's jump:
binding index 1 (the label at 0x10) against the jump at 0x10 gives
displacement 0. -/
theorem C5_displacement_witness :
    evaluate_operand
        [⟨.D_ORG, [.imm 16], some 16, none⟩,
         ⟨.D_LABEL, [.label "start"], some 16, none⟩,
         ⟨.J, [.offset ⟨"start", some 1, none⟩], some 16, none⟩]
        ⟨.J, [.offset ⟨"start", some 1, none⟩], some 16, none⟩
        (.offset ⟨"start", some 1, none⟩) =
      .ok (.offset ⟨"start", some 1, some ((16 : Int) - (16 : Int))⟩) :=
  C5_displacement.1 _ _ _ 1 16 16 ⟨.D_LABEL, [.label "start"], some 16, none⟩
    rfl rfl rfl rfl

namespace Assembler

/-- The program indices at which a label-definition instruction defines
`name`, in order of appearance. -/
def relDefIndices (program : List Instruction) (name : String) : List Nat :=
  program.enum.filterMap fun p =>
    if p.2.opcode = .D_LABEL ∧ p.2.operands.get? 0 = some (.label name)
    then some p.1 else none

end Assembler

namespace Assembler

theorem lookup_insertRel_self (m : List (String × List Nat)) (name : String)
    (i : Nat) :
    (insertRel m name i).lookup name =
      some (((m.lookup name).getD []) ++ [i]) := by
  induction m with
  | nil => simp [insertRel, List.lookup]
  | cons kv rest ih =>
    obtain ⟨k, l⟩ := kv
    by_cases hk : k = name
    · subst hk
      simp [insertRel, List.lookup]
    · have hb : (name == k) = false := beq_eq_false_iff_ne.mpr
        (fun h => hk h.symm)
      simp [insertRel, hk, List.lookup, hb, ih]

theorem lookup_insertRel_other (m : List (String × List Nat))
    (name name' : String) (i : Nat) (h : name' ≠ name) :
    (insertRel m name i).lookup name' = m.lookup name' := by
  have hb : (name' == name) = false := beq_eq_false_iff_ne.mpr h
  induction m with
  | nil => simp [insertRel, List.lookup, hb]
  | cons kv rest ih =>
    obtain ⟨k, l⟩ := kv
    by_cases hk : k = name
    · subst hk
      simp [insertRel, List.lookup, hb]
    · simp [insertRel, hk, List.lookup, ih]

end Assembler

namespace Assembler

theorem register_label_rel (r : Resolver) (i : Nat) (inst : Instruction)
    (nm : String) (hget : inst.operands.get? 0 = some (.label nm))
    (hdig : isDigitOnly nm = true) :
    register_label r i inst =
      .ok { r with relative_labels := insertRel r.relative_labels nm i } := by
  rw [register_label, hget]
  dsimp only
  rw [if_pos hdig]

theorem register_label_new (r : Resolver) (i : Nat) (inst : Instruction)
    (nm : String) (hget : inst.operands.get? 0 = some (.label nm))
    (hdig : isDigitOnly nm = false)
    (hlk : r.labels.lookup nm = none) :
    register_label r i inst = .ok { r with labels := r.labels ++ [(nm, i)] } := by
  rw [register_label, hget]
  dsimp only
  rw [if_neg (by rw [hdig]; exact Bool.false_ne_true),
    if_neg (by rw [hlk]; exact Bool.false_ne_true)]

theorem register_label_dup (r : Resolver) (i : Nat) (inst : Instruction)
    (nm : String) (hget : inst.operands.get? 0 = some (.label nm))
    (hdig : isDigitOnly nm = false)
    (hlk : (r.labels.lookup nm).isSome = true) :
    register_label r i inst = .error (.duplicateLabel nm) := by
  rw [register_label, hget]
  dsimp only
  rw [if_neg (by rw [hdig]; exact Bool.false_ne_true), if_pos hlk]

/-- Effect of pass (a) on one relative-label table entry: folding
`register_step` appends, to the digit-label `name`, exactly the indices of
the enumerated `D_LABEL` instructions defining `name`, in order. -/
theorem register_fold_rel (name : String) (hd : isDigitOnly name = true) :
    ∀ (l : List (Nat × Instruction)) (r0 r : Resolver),
      l.foldlM register_step r0 = .ok r →
      (r.relative_labels.lookup name).getD [] =
        ((r0.relative_labels.lookup name).getD []) ++
          l.filterMap (fun p =>
            if p.2.opcode = .D_LABEL ∧ p.2.operands.get? 0 = some (.label name)
            then some p.1 else none) := by
  intro l
  induction l with
  | nil =>
    intro r0 r h
    rw [List.foldlM_nil] at h
    cases h
    simp
  | cons p rest ih =>
    intro r0 r h
    rw [List.foldlM_cons] at h
    obtain ⟨i, inst⟩ := p
    by_cases hop : inst.opcode = .D_LABEL
    · rw [register_step, if_pos hop] at h
      cases hget : inst.operands.get? 0 with
      | none =>
        rw [register_label, hget, exbind_error] at h
        cases h
      | some op =>
        cases op with
        | label nm =>
          by_cases hdig : isDigitOnly nm
          · rw [register_label_rel r0 i inst nm hget hdig, exbind_ok] at h
            have hrec := ih _ _ h
            rw [hrec]
            by_cases hnm : nm = name
            · subst hnm
              rw [List.filterMap_cons]
              simp only [hop, hget, true_and, and_self, if_pos rfl]
              simp [lookup_insertRel_self]
            · have hne : ¬ (inst.opcode = .D_LABEL ∧
                  inst.operands.get? 0 = some (.label name)) := by
                intro hh
                rw [hget] at hh
                exact hnm (Operand.label.inj (Option.some.inj hh.2))
              rw [List.filterMap_cons]
              simp only [hne, if_neg hne]
              have hlk := lookup_insertRel_other r0.relative_labels nm name i
                (fun hh => hnm hh.symm)
              simp [hlk]
          · have hdig' : isDigitOnly nm = false := by
              cases hh : isDigitOnly nm with
              | true => exact absurd hh hdig
              | false => rfl
            have hnm : nm ≠ name := fun hh => by
              rw [hh, hd] at hdig'; cases hdig'
            have hne : ¬ (inst.opcode = .D_LABEL ∧
                inst.operands.get? 0 = some (.label name)) := by
              intro hh
              rw [hget] at hh
              exact hnm (Operand.label.inj (Option.some.inj hh.2))
            cases hlk : r0.labels.lookup nm with
            | some j =>
              rw [register_label_dup r0 i inst nm hget hdig'
                (by rw [hlk]; rfl), exbind_error] at h
              cases h
            | none =>
              rw [register_label_new r0 i inst nm hget hdig' hlk,
                exbind_ok] at h
              have hrec := ih _ _ h
              rw [hrec]
              rw [List.filterMap_cons]
              simp only [if_neg hne]
        | imm v =>
          rw [register_label, hget, exbind_error] at h
          cases h
        | reg v =>
          rw [register_label, hget, exbind_error] at h
          cases h
        | regPair v =>
          rw [register_label, hget, exbind_error] at h
          cases h
        | cond c =>
          rw [register_label, hget, exbind_error] at h
          cases h
        | offset o =>
          rw [register_label, hget, exbind_error] at h
          cases h
    · rw [register_step, if_neg hop, exbind_ok] at h
      have hrec := ih _ _ h
      rw [hrec]
      have hne : ¬ (inst.opcode = .D_LABEL ∧
          inst.operands.get? 0 = some (.label name)) := fun hh => hop hh.1
      rw [List.filterMap_cons]
      simp only [if_neg hne]

end Assembler

namespace Assembler

theorem lookup_append_one (l : List (String × Nat)) (k a : String) (v : Nat)
    (h : a ≠ k) : (l ++ [(k, v)]).lookup a = l.lookup a := by
  induction l with
  | nil => simp [List.lookup, beq_eq_false_iff_ne.mpr h]
  | cons q rest ih =>
    obtain ⟨k', v'⟩ := q
    cases hb : a == k' <;> simp [List.lookup, hb, ih]

theorem lookup_append_self (l : List (String × Nat)) (k : String) (v : Nat) :
    ((l ++ [(k, v)]).lookup k).isSome = true := by
  induction l with
  | nil => simp [List.lookup]
  | cons q rest ih =>
    obtain ⟨k', v'⟩ := q
    cases hb : k == k' <;> simp [List.lookup, hb, ih]

end Assembler

namespace Assembler

/-- Pass (a) invariant for a non-digit label `name`: on success, the number
of `D_LABEL` definitions of `name` seen by the fold, plus one if `name` was
already in the starting table, is at most one. -/
theorem register_fold_abs (name : String) (hd : isDigitOnly name = false) :
    ∀ (l : List (Nat × Instruction)) (r0 r : Resolver),
      l.foldlM register_step r0 = .ok r →
      l.countP (fun p => decide (p.2.opcode = .D_LABEL ∧
          p.2.operands.get? 0 = some (.label name))) +
        (if (r0.labels.lookup name).isSome then 1 else 0) ≤ 1 := by
  intro l
  induction l with
  | nil =>
    intro r0 r h
    rw [List.countP_nil]
    split <;> omega
  | cons p rest ih =>
    intro r0 r h
    rw [List.foldlM_cons] at h
    obtain ⟨i, inst⟩ := p
    rw [List.countP_cons]
    dsimp only
    by_cases hop : inst.opcode = .D_LABEL
    · rw [register_step, if_pos hop] at h
      cases hget : inst.operands.get? 0 with
      | none =>
        rw [register_label, hget, exbind_error] at h
        cases h
      | some op =>
        cases op with
        | label nm =>
          by_cases hdig : isDigitOnly nm
          · rw [register_label_rel r0 i inst nm hget hdig, exbind_ok] at h
            have hrec := ih _ _ h
            have hnm : nm ≠ name := fun hh => by
              rw [hh, hd] at hdig; cases hdig
            have hpred : decide (inst.opcode = Opcode.D_LABEL ∧
                (some (Operand.label nm) : Option Operand) =
                  some (Operand.label name)) = false := by
              rw [decide_eq_false_iff_not]
              intro hh
              exact hnm (Operand.label.inj (Option.some.inj hh.2))
            rw [hpred]
            dsimp only at hrec
            simpa using hrec
          · have hdig' : isDigitOnly nm = false := by
              cases hh : isDigitOnly nm with
              | true => exact absurd hh hdig
              | false => rfl
            cases hlk : r0.labels.lookup nm with
            | some j =>
              rw [register_label_dup r0 i inst nm hget hdig'
                (by rw [hlk]; rfl), exbind_error] at h
              cases h
            | none =>
              rw [register_label_new r0 i inst nm hget hdig' hlk,
                exbind_ok] at h
              have hrec := ih _ _ h
              dsimp only at hrec
              by_cases hnm : nm = name
              · subst hnm
                have hpred : decide (inst.opcode = Opcode.D_LABEL ∧
                    (some (Operand.label nm) : Option Operand) =
                      some (Operand.label nm)) = true :=
                  decide_eq_true ⟨hop, rfl⟩
                rw [hpred]
                rw [lookup_append_self r0.labels nm i] at hrec
                rw [if_pos rfl] at hrec
                rw [hlk]
                have h3 : (if ((none : Option Nat).isSome = true) then (1 : Nat)
                    else 0) = 0 := rfl
                rw [h3, if_pos rfl]
                omega
              · have hpred : decide (inst.opcode = Opcode.D_LABEL ∧
                    (some (Operand.label nm) : Option Operand) =
                      some (Operand.label name)) = false := by
                  rw [decide_eq_false_iff_not]
                  intro hh
                  exact hnm (Operand.label.inj (Option.some.inj hh.2))
                rw [hpred]
                rw [lookup_append_one r0.labels nm name i
                  (fun hh => hnm hh.symm)] at hrec
                simpa using hrec
        | imm v =>
          rw [register_label, hget, exbind_error] at h
          cases h
        | reg v =>
          rw [register_label, hget, exbind_error] at h
          cases h
        | regPair v =>
          rw [register_label, hget, exbind_error] at h
          cases h
        | cond c =>
          rw [register_label, hget, exbind_error] at h
          cases h
        | offset o =>
          rw [register_label, hget, exbind_error] at h
          cases h
    · rw [register_step, if_neg hop, exbind_ok] at h
      have hrec := ih _ _ h
      have hpred : decide (inst.opcode = .D_LABEL ∧
          inst.operands.get? 0 = some (.label name)) = false := by
        rw [decide_eq_false_iff_not]
        exact fun hh => hop hh.1
      rw [hpred]
      simpa using hrec

/-- Pass (a) either succeeds or stops with a duplicate-label error, provided
every `D_LABEL` instruction carries a label operand. -/
theorem register_fold_dichotomy :
    ∀ (l : List (Nat × Instruction)) (r0 : Resolver),
      (∀ p ∈ l, p.2.opcode = .D_LABEL →
        ∃ nm, p.2.operands.get? 0 = some (.label nm)) →
      (∃ r, l.foldlM register_step r0 = .ok r) ∨
      (∃ nm, l.foldlM register_step r0 = .error (.duplicateLabel nm)) := by
  intro l
  induction l with
  | nil =>
    intro r0 _
    exact .inl ⟨r0, rfl⟩
  | cons p rest ih =>
    intro r0 hwf
    have hwf' : ∀ q ∈ rest, q.2.opcode = .D_LABEL →
        ∃ nm, q.2.operands.get? 0 = some (.label nm) :=
      fun q hq => hwf q (List.mem_cons_of_mem _ hq)
    obtain ⟨i, inst⟩ := p
    by_cases hop : inst.opcode = .D_LABEL
    · obtain ⟨nm, hget⟩ := hwf (i, inst) (List.mem_cons_self _ _) hop
      by_cases hdig : isDigitOnly nm
      · rcases ih ({ r0 with relative_labels := insertRel r0.relative_labels nm i }) hwf' with ⟨r, hr⟩ | ⟨n, hn⟩
        · exact .inl ⟨r, by
            rw [List.foldlM_cons, register_step, if_pos hop,
              register_label_rel r0 i inst nm hget hdig, exbind_ok, hr]⟩
        · exact .inr ⟨n, by
            rw [List.foldlM_cons, register_step, if_pos hop,
              register_label_rel r0 i inst nm hget hdig, exbind_ok, hn]⟩
      · have hdig' : isDigitOnly nm = false := by
          cases hh : isDigitOnly nm with
          | true => exact absurd hh hdig
          | false => rfl
        cases hlk : r0.labels.lookup nm with
        | some j =>
          exact .inr ⟨nm, by
            rw [List.foldlM_cons, register_step, if_pos hop,
              register_label_dup r0 i inst nm hget hdig' (by rw [hlk]; rfl),
              exbind_error]⟩
        | none =>
          rcases ih ({ r0 with labels := r0.labels ++ [(nm, i)] }) hwf' with ⟨r, hr⟩ | ⟨n, hn⟩
          · exact .inl ⟨r, by
              rw [List.foldlM_cons, register_step, if_pos hop,
                register_label_new r0 i inst nm hget hdig' hlk, exbind_ok, hr]⟩
          · exact .inr ⟨n, by
              rw [List.foldlM_cons, register_step, if_pos hop,
                register_label_new r0 i inst nm hget hdig' hlk, exbind_ok, hn]⟩
    · rcases ih r0 hwf' with ⟨r, hr⟩ | ⟨n, hn⟩
      · exact .inl ⟨r, by
          rw [List.foldlM_cons, register_step, if_neg hop, exbind_ok, hr]⟩
      · exact .inr ⟨n, by
          rw [List.foldlM_cons, register_step, if_neg hop, exbind_ok, hn]⟩

end Assembler

namespace Assembler

theorem countP_two_of_get? {α : Type} (p : α → Bool) :
    ∀ (l : List α) (i j : Nat) (x y : α), i < j →
      l.get? i = some x → l.get? j = some y → p x = true → p y = true →
      2 ≤ l.countP p := by
  intro l
  induction l with
  | nil =>
    intro i j x y hij hx hy _ _
    exact absurd hx (by simp)
  | cons a t ih =>
    intro i j x y hij hx hy hpx hpy
    rw [List.countP_cons]
    cases i with
    | zero =>
      rw [List.get?_cons_zero] at hx
      injection hx with hx
      subst hx
      cases j with
      | zero => omega
      | succ j' =>
        rw [List.get?_cons_succ] at hy
        have hpos : 0 < t.countP p :=
          List.countP_pos_iff.mpr ⟨y, List.get?_mem hy, hpy⟩
        rw [if_pos hpx]
        omega
    | succ i' =>
      cases j with
      | zero => omega
      | succ j' =>
        rw [List.get?_cons_succ] at hx hy
        have hrec := ih i' j' x y (by omega) hx hy hpx hpy
        by_cases hpa : p a
        · rw [if_pos hpa]; omega
        · rw [if_neg hpa]; omega

theorem enumFrom_pairwise_fst {α : Type} (l : List α) :
    ∀ n : Nat, (l.enumFrom n).Pairwise (fun a b => a.1 < b.1) := by
  induction l with
  | nil => intro n; exact List.Pairwise.nil
  | cons a t ih =>
    intro n
    show ((n, a) :: t.enumFrom (n + 1)).Pairwise (fun a b => a.1 < b.1)
    refine List.Pairwise.cons ?_ (ih (n + 1))
    intro q hq
    exact List.le_fst_of_mem_enumFrom hq

/-- The defining indices of any label are listed in strictly increasing
order. -/
theorem relDefIndices_sorted (program : List Instruction) (name : String) :
    (relDefIndices program name).Pairwise (· < ·) := by
  rw [relDefIndices]
  rw [List.pairwise_filterMap]
  have hp : program.enum.Pairwise (fun a b => a.1 < b.1) :=
    enumFrom_pairwise_fst program 0
  refine hp.imp ?_
  intro a b hab x hx y hy
  have hxa : x = a.1 := by
    by_cases hca : a.2.opcode = .D_LABEL ∧ a.2.operands.get? 0 = some (.label name)
    · rw [if_pos hca] at hx
      exact (Option.some.inj (Option.mem_def.mp hx)).symm
    · rw [if_neg hca] at hx
      cases (Option.mem_def.mp hx)
  have hyb : y = b.1 := by
    by_cases hcb : b.2.opcode = .D_LABEL ∧ b.2.operands.get? 0 = some (.label name)
    · rw [if_pos hcb] at hy
      exact (Option.some.inj (Option.mem_def.mp hy)).symm
    · rw [if_neg hcb] at hy
      cases (Option.mem_def.mp hy)
  rw [hxa, hyb]
  exact hab

theorem find?_first_ge :
    ∀ (l : List Nat), l.Pairwise (· < ·) → ∀ i j : Nat,
      l.find? (fun x => i ≤ x) = some j → ∀ k ∈ l, i ≤ k → j ≤ k := by
  intro l
  induction l with
  | nil =>
    intro _ i j h
    exact absurd h (by simp)
  | cons a t ih =>
    intro hs i j h k hk hik
    by_cases ha : i ≤ a
    · have hfc : List.find? (fun x => i ≤ x) (a :: t) = some a :=
        List.find?_cons_of_pos _ (decide_eq_true ha)
      rw [hfc] at h
      injection h with h
      subst h
      rcases List.mem_cons.mp hk with rfl | hk'
      · exact Nat.le_refl k
      · exact Nat.le_of_lt (List.rel_of_pairwise_cons hs hk')
    · have hfc : List.find? (fun x => i ≤ x) (a :: t) =
          List.find? (fun x => i ≤ x) t :=
        List.find?_cons_of_neg _ (by simpa using ha)
      rw [hfc] at h
      rcases List.mem_cons.mp hk with rfl | hk'
      · exact absurd hik ha
      · exact ih (List.Pairwise.of_cons hs) i j h k hk' hik

theorem find?_last_le_desc :
    ∀ (l : List Nat), l.Pairwise (fun a b => b < a) → ∀ i j : Nat,
      l.find? (fun x => x ≤ i) = some j → ∀ k ∈ l, k ≤ i → k ≤ j := by
  intro l
  induction l with
  | nil =>
    intro _ i j h
    exact absurd h (by simp)
  | cons a t ih =>
    intro hs i j h k hk hki
    by_cases ha : a ≤ i
    · have hfc : List.find? (fun x => x ≤ i) (a :: t) = some a :=
        List.find?_cons_of_pos _ (decide_eq_true ha)
      rw [hfc] at h
      injection h with h
      subst h
      rcases List.mem_cons.mp hk with rfl | hk'
      · exact Nat.le_refl k
      · exact Nat.le_of_lt (List.rel_of_pairwise_cons hs hk')
    · have hfc : List.find? (fun x => x ≤ i) (a :: t) =
          List.find? (fun x => x ≤ i) t :=
        List.find?_cons_of_neg _ (by simpa using ha)
      rw [hfc] at h
      rcases List.mem_cons.mp hk with rfl | hk'
      · exact absurd hki ha
      · exact ih (List.Pairwise.of_cons hs) i j h k hk' hki

theorem find?_last_le (l : List Nat) (hs : l.Pairwise (· < ·)) (i j : Nat)
    (h : l.reverse.find? (fun x => x ≤ i) = some j) :
    ∀ k ∈ l, k ≤ i → k ≤ j := by
  have hs' : l.reverse.Pairwise (fun a b => b < a) :=
    List.pairwise_reverse.mpr hs
  intro k hk hki
  exact find?_last_le_desc l.reverse hs' i j h k (List.mem_reverse.mpr hk) hki

/-- On success, pass (a) stores under each digit-only label exactly its
defining indices, in appearance order. -/
theorem register_pass_rel (program : List Instruction) (r : Resolver)
    (name : String) (hd : isDigitOnly name = true)
    (h : register_pass program = .ok r) :
    (r.relative_labels.lookup name).getD [] = relDefIndices program name := by
  have hfold := register_fold_rel name hd program.enum {} r h
  rw [hfold]
  rw [relDefIndices]
  rfl

theorem resolve_offset_forward (r : Resolver) (index : Nat) (o : Offset)
    (label : String) (hm : matchRelative o.name = some (label, true)) :
    resolve_offset r index o =
      match ((r.relative_labels.lookup label).getD []).find?
          (fun li => index ≤ li) with
      | some li => .ok { o with binding := some li }
      | none => .error (.unknownRelativeLabel label true) := by
  rw [resolve_offset, hm]
  rfl

theorem resolve_offset_backward (r : Resolver) (index : Nat) (o : Offset)
    (label : String) (hm : matchRelative o.name = some (label, false)) :
    resolve_offset r index o =
      match ((r.relative_labels.lookup label).getD []).reverse.find?
          (fun li => li ≤ index) with
      | some li => .ok { o with binding := some li }
      | none => .error (.unknownRelativeLabel label false) := by
  rw [resolve_offset, hm]
  rfl

end Assembler

open Assembler in
/-- C4: relative label resolution direction.  With the resolver tables
built by pass (a), an `Offset` whose name is digits + `f`, referenced from
index `i`, binds to the smallest defining index `≥ i` of that digit label
(and fails with `unknownRelativeLabel` when every definition is `< i`);
digits + `b` binds to the largest defining index `≤ i` (failing when every
definition is `> i`).  In particular with `1:` defined at indices 2 and 7:
`1f` from 4 binds 7, `1b` from 4 binds 2, `1f` from 7 binds 7, `1f` from 8
and `1b` from 1 fail. -/
theorem C4_relative_resolution :
    (∀ (program : List Instruction) (r : Resolver) (label : String)
        (i : Nat) (o : Offset),
      register_pass program = .ok r →
      matchRelative o.name = some (label, true) →
      isDigitOnly label = true →
      ((∃ k ∈ relDefIndices program label, i ≤ k) →
        ∃ j, resolve_offset r i o = .ok { o with binding := some j } ∧
          j ∈ relDefIndices program label ∧ i ≤ j ∧
          ∀ k ∈ relDefIndices program label, i ≤ k → j ≤ k) ∧
      ((∀ k ∈ relDefIndices program label, k < i) →
        resolve_offset r i o = .error (.unknownRelativeLabel label true))) ∧
    (∀ (program : List Instruction) (r : Resolver) (label : String)
        (i : Nat) (o : Offset),
      register_pass program = .ok r →
      matchRelative o.name = some (label, false) →
      isDigitOnly label = true →
      ((∃ k ∈ relDefIndices program label, k ≤ i) →
        ∃ j, resolve_offset r i o = .ok { o with binding := some j } ∧
          j ∈ relDefIndices program label ∧ j ≤ i ∧
          ∀ k ∈ relDefIndices program label, k ≤ i → k ≤ j) ∧
      ((∀ k ∈ relDefIndices program label, i < k) →
        resolve_offset r i o = .error (.unknownRelativeLabel label false))) ∧
    (register_pass
        [⟨.NOP, [], none, none⟩, ⟨.NOP, [], none, none⟩,
         ⟨.D_LABEL, [.label "1"], none, none⟩, ⟨.NOP, [], none, none⟩,
         ⟨.NOP, [], none, none⟩, ⟨.NOP, [], none, none⟩,
         ⟨.NOP, [], none, none⟩, ⟨.D_LABEL, [.label "1"], none, none⟩] =
        .ok ⟨[], [("1", [2, 7])]⟩ ∧
     resolve_offset ⟨[], [("1", [2, 7])]⟩ 4 ⟨"1f", none, none⟩ =
        .ok ⟨"1f", some 7, none⟩ ∧
     resolve_offset ⟨[], [("1", [2, 7])]⟩ 4 ⟨"1b", none, none⟩ =
        .ok ⟨"1b", some 2, none⟩ ∧
     resolve_offset ⟨[], [("1", [2, 7])]⟩ 7 ⟨"1f", none, none⟩ =
        .ok ⟨"1f", some 7, none⟩ ∧
     resolve_offset ⟨[], [("1", [2, 7])]⟩ 8 ⟨"1f", none, none⟩ =
        .error (.unknownRelativeLabel "1" true) ∧
     resolve_offset ⟨[], [("1", [2, 7])]⟩ 1 ⟨"1b", none, none⟩ =
        .error (.unknownRelativeLabel "1" false)) := by
  refine ⟨?_, ?_, rfl, rfl, rfl, rfl, rfl, rfl⟩
  · intro program r label i o hreg hm hd
    have hent := register_pass_rel program r label hd hreg
    have hred := resolve_offset_forward r i o label hm
    rw [hent] at hred
    constructor
    · rintro ⟨k0, hk0, hik0⟩
      cases hf : (relDefIndices program label).find? (fun li => i ≤ li) with
      | none =>
        exact absurd (decide_eq_true hik0) (List.find?_eq_none.mp hf k0 hk0)
      | some j =>
        refine ⟨j, ?_, List.mem_of_find?_eq_some hf,
          by simpa using List.find?_some hf, ?_⟩
        · rw [hred, hf]
        · exact find?_first_ge (relDefIndices program label)
            (relDefIndices_sorted program label) i j hf
    · intro hall
      cases hf : (relDefIndices program label).find? (fun li => i ≤ li) with
      | some j =>
        have hj : i ≤ j := by simpa using List.find?_some hf
        have hmem := List.mem_of_find?_eq_some hf
        exact absurd hj (Nat.not_le.mpr (hall j hmem))
      | none => rw [hred, hf]
  · intro program r label i o hreg hm hd
    have hent := register_pass_rel program r label hd hreg
    have hred := resolve_offset_backward r i o label hm
    rw [hent] at hred
    constructor
    · rintro ⟨k0, hk0, hik0⟩
      cases hf : (relDefIndices program label).reverse.find?
          (fun li => li ≤ i) with
      | none =>
        exact absurd (decide_eq_true hik0)
          (List.find?_eq_none.mp hf k0 (List.mem_reverse.mpr hk0))
      | some j =>
        refine ⟨j, ?_,
          List.mem_reverse.mp (List.mem_of_find?_eq_some hf),
          by simpa using List.find?_some hf, ?_⟩
        · rw [hred, hf]
        · exact find?_last_le (relDefIndices program label)
            (relDefIndices_sorted program label) i j hf
    · intro hall
      cases hf : (relDefIndices program label).reverse.find?
          (fun li => li ≤ i) with
      | some j =>
        have hj : j ≤ i := by simpa using List.find?_some hf
        have hmem := List.mem_reverse.mp (List.mem_of_find?_eq_some hf)
        exact absurd hj (Nat.not_le.mpr (hall j hmem))
      | none => rw [hred, hf]

open Assembler in
/-- C4 witness: the forward characterization applied to the scenario:
`1f` from index 4 binds the smallest defining index of `1` that is `≥ 4`,
namely 7. -/
theorem C4_relative_resolution_witness :
    ∃ j, resolve_offset ⟨[], [("1", [2, 7])]⟩ 4 ⟨"1f", none, none⟩ =
        .ok ⟨"1f", some j, none⟩ ∧
      j ∈ relDefIndices
        [⟨.NOP, [], none, none⟩, ⟨.NOP, [], none, none⟩,
         ⟨.D_LABEL, [.label "1"], none, none⟩, ⟨.NOP, [], none, none⟩,
         ⟨.NOP, [], none, none⟩, ⟨.NOP, [], none, none⟩,
         ⟨.NOP, [], none, none⟩, ⟨.D_LABEL, [.label "1"], none, none⟩] "1" ∧
      4 ≤ j ∧
      ∀ k ∈ relDefIndices
        [⟨.NOP, [], none, none⟩, ⟨.NOP, [], none, none⟩,
         ⟨.D_LABEL, [.label "1"], none, none⟩, ⟨.NOP, [], none, none⟩,
         ⟨.NOP, [], none, none⟩, ⟨.NOP, [], none, none⟩,
         ⟨.NOP, [], none, none⟩, ⟨.D_LABEL, [.label "1"], none, none⟩] "1",
        4 ≤ k → j ≤ k :=
  (C4_relative_resolution.1
    [⟨.NOP, [], none, none⟩, ⟨.NOP, [], none, none⟩,
     ⟨.D_LABEL, [.label "1"], none, none⟩, ⟨.NOP, [], none, none⟩,
     ⟨.NOP, [], none, none⟩, ⟨.NOP, [], none, none⟩,
     ⟨.NOP, [], none, none⟩, ⟨.D_LABEL, [.label "1"], none, none⟩]
    ⟨[], [("1", [2, 7])]⟩ "1" 4 ⟨"1f", none, none⟩
    rfl rfl rfl).1 ⟨7, by decide, by decide⟩

open Assembler in
/-- C8: duplicate-label rejection.  (1) If a non-digit label name is
defined by two distinct label-definition instructions (and every `D_LABEL`
carries a label operand, as the parser guarantees), the register pass
fails with a duplicate-label error, resolution fails identically, and the
whole pipeline fails with that error — so the layout pass never assigns an
address.  (2) Registering a digit-only label always succeeds, regardless
of the current tables.  (3) On success, a digit-only label's recorded
definition list is exactly its defining indices in appearance order. -/
theorem C8_duplicate_labels :
    (∀ (program : List Instruction) (name : String) (i j : Nat)
        (ii ji : Instruction),
      (∀ p ∈ program.enum, p.2.opcode = Opcode.D_LABEL →
        ∃ nm, p.2.operands.get? 0 = some (.label nm)) →
      i < j → program.get? i = some ii → program.get? j = some ji →
      ii.opcode = .D_LABEL → ji.opcode = .D_LABEL →
      ii.operands.get? 0 = some (.label name) →
      ji.operands.get? 0 = some (.label name) →
      isDigitOnly name = false →
      ∃ nm, register_pass program = .error (.duplicateLabel nm) ∧
        resolve_program program = .error (.duplicateLabel nm) ∧
        ∀ size, assemble_program program size =
          .error (.duplicateLabel nm)) ∧
    (∀ (r : Resolver) (idx : Nat) (inst : Instruction) (name : String),
      inst.operands.get? 0 = some (.label name) →
      isDigitOnly name = true →
      register_label r idx inst =
        .ok { r with relative_labels := insertRel r.relative_labels name idx }) ∧
    (∀ (program : List Instruction) (r : Resolver) (name : String),
      register_pass program = .ok r → isDigitOnly name = true →
      (r.relative_labels.lookup name).getD [] =
        relDefIndices program name) := by
  refine ⟨?_, ?_, ?_⟩
  · intro program name i j ii ji hwf hij hgi hgj hopi hopj hli hlj hd
    have hei : program.enum.get? i = some (i, ii) := by
      rw [List.get?_enum, hgi]; rfl
    have hej : program.enum.get? j = some (j, ji) := by
      rw [List.get?_enum, hgj]; rfl
    rcases register_fold_dichotomy program.enum {} hwf with ⟨r, hr⟩ | ⟨nm, hn⟩
    · exfalso
      have hcount := register_fold_abs name hd program.enum {} r hr
      have h2 := countP_two_of_get?
        (fun p => decide (p.2.opcode = Opcode.D_LABEL ∧
          p.2.operands.get? 0 = some (.label name)))
        program.enum i j (i, ii) (j, ji) hij hei hej
        (decide_eq_true ⟨hopi, hli⟩) (decide_eq_true ⟨hopj, hlj⟩)
      have h0 : (if ((({} : Resolver).labels.lookup name).isSome = true)
          then (1 : Nat) else 0) = 0 := rfl
      omega
    · have hres : resolve_program program = .error (.duplicateLabel nm) := by
        rw [resolve_program, register_pass, hn, exbind_error]
      refine ⟨nm, hn, hres, fun size => ?_⟩
      rw [assemble_program, hres, exbind_error]
  · intro r idx inst name hget hdig
    exact register_label_rel r idx inst name hget hdig
  · intro program r name h hd
    exact register_pass_rel program r name hd h

open Assembler in
/-- C8 witness: the program `x: / x:` (two `D_LABEL "x"` instructions) is
rejected with a duplicate-label error by the register pass, resolution,
and the full pipeline; and registering the digit label `1` twice succeeds,
recording both indices in order. -/
theorem C8_duplicate_labels_witness :
    (∃ nm, register_pass
        [⟨.D_LABEL, [.label "x"], none, none⟩,
         ⟨.D_LABEL, [.label "x"], none, none⟩] =
          .error (.duplicateLabel nm) ∧
      resolve_program
        [⟨.D_LABEL, [.label "x"], none, none⟩,
         ⟨.D_LABEL, [.label "x"], none, none⟩] =
          .error (.duplicateLabel nm) ∧
      ∀ size, assemble_program
        [⟨.D_LABEL, [.label "x"], none, none⟩,
         ⟨.D_LABEL, [.label "x"], none, none⟩] size =
          .error (.duplicateLabel nm)) ∧
    register_label ⟨[], [("1", [0])]⟩ 3 ⟨.D_LABEL, [.label "1"], none, none⟩ =
      .ok ⟨[], [("1", [0, 3])]⟩ := by
  constructor
  · exact C8_duplicate_labels.1
      [⟨.D_LABEL, [.label "x"], none, none⟩,
       ⟨.D_LABEL, [.label "x"], none, none⟩] "x" 0 1
      ⟨.D_LABEL, [.label "x"], none, none⟩
      ⟨.D_LABEL, [.label "x"], none, none⟩
      (by
        intro p hp hop
        have he : ([⟨.D_LABEL, [.label "x"], none, none⟩,
            ⟨.D_LABEL, [.label "x"], none, none⟩] :
            List Instruction).enum =
            [(0, ⟨.D_LABEL, [.label "x"], none, none⟩),
             (1, ⟨.D_LABEL, [.label "x"], none, none⟩)] := rfl
        rw [he] at hp
        rcases List.mem_cons.mp hp with rfl | hp
        · exact ⟨"x", rfl⟩
        · rcases List.mem_cons.mp hp with rfl | hp
          · exact ⟨"x", rfl⟩
          · cases hp)
      (by decide) rfl rfl rfl rfl rfl rfl rfl
  · exact C8_duplicate_labels.2.1 ⟨[], [("1", [0])]⟩ 3
      ⟨.D_LABEL, [.label "1"], none, none⟩ "1" rfl rfl

namespace Assembler

/-- The (address, encoding) pairs the converter actually emits, in program
order: exactly the instructions having both an encoding and an address. -/
def encoded_entries (program : List Instruction) : List (Nat × Nat) :=
  program.filterMap fun inst =>
    match inst.encoding, inst.address with
    | some e, some a => some (a, e)
    | _, _ => none

theorem encoded_entries_cons_skip (inst : Instruction)
    (rest : List Instruction)
    (h : inst.encoding = none ∨ inst.address = none) :
    encoded_entries (inst :: rest) = encoded_entries rest := by
  rcases h with h | h
  · rw [encoded_entries, List.filterMap_cons, h]
    rfl
  · cases henc : inst.encoding with
    | none =>
      rw [encoded_entries, List.filterMap_cons, henc]
      rfl
    | some e =>
      rw [encoded_entries, List.filterMap_cons, henc, h]
      rfl

theorem encoded_entries_cons_enc (inst : Instruction)
    (rest : List Instruction) (e a : Nat)
    (he : inst.encoding = some e) (ha : inst.address = some a) :
    encoded_entries (inst :: rest) = (a, e) :: encoded_entries rest := by
  rw [encoded_entries, List.filterMap_cons, he, ha]
  rfl

theorem convert_step_skip (buffer : List Nat) (inst : Instruction)
    (h : inst.encoding = none ∨ inst.address = none) :
    convert_step buffer inst = buffer := by
  rcases h with h | h
  · rw [convert_step, h]
  · cases henc : inst.encoding with
    | none => rw [convert_step, henc]
    | some e => rw [convert_step, henc, h]

theorem convert_step_enc_le (buffer : List Nat) (inst : Instruction)
    (e a : Nat) (he : inst.encoding = some e) (ha : inst.address = some a)
    (hle : buffer.length ≤ a) :
    convert_step buffer inst =
      buffer ++ List.replicate (a - buffer.length) 0 ++
        [e % 256, e / 256 % 256] := by
  rw [convert_step, he, ha]
  dsimp only
  by_cases hgt : a > buffer.length
  · rw [if_pos hgt, List.append_assoc]
  · have ha' : a - buffer.length = 0 := by omega
    rw [if_neg hgt, ha', List.replicate_zero, List.append_nil]

theorem get?_replicate_lt {n m : Nat} (a : Nat) (h : m < n) :
    (List.replicate n a).get? m = some a := by
  rw [List.get?_eq_getElem?]
  exact List.getElem?_replicate_of_lt h

theorem append_two_get? (xs : List Nat) (pad n lo hi : Nat)
    (hn : n = xs.length + pad) :
    (xs ++ List.replicate pad 0 ++ [lo, hi]).get? n = some lo ∧
    (xs ++ List.replicate pad 0 ++ [lo, hi]).get? (n + 1) = some hi := by
  subst hn
  have hl : (xs ++ List.replicate pad 0).length = xs.length + pad := by simp
  constructor
  · rw [List.get?_append_right (by omega :
      (xs ++ List.replicate pad 0).length ≤ xs.length + pad)]
    have h0 : xs.length + pad - (xs ++ List.replicate pad 0).length = 0 := by
      omega
    rw [h0]
    rfl
  · rw [List.get?_append_right (by omega :
      (xs ++ List.replicate pad 0).length ≤ xs.length + pad + 1)]
    have h1 : xs.length + pad + 1 - (xs ++ List.replicate pad 0).length = 1 := by
      omega
    rw [h1]
    rfl

/-- Full behaviour of the converter's fold, given that the emitted entries
appear in strictly increasing address order with no overlap and start at
or after the end of the initial buffer: the result has length `last
address + 2`, preserves the initial buffer, places each encoding's low
byte at its address and high byte right after, and fills every uncovered
position with zero. -/
theorem convert_fold_spec :
    ∀ (program : List Instruction) (buffer : List Nat),
      (encoded_entries program).Chain' (fun x y => x.1 + 2 ≤ y.1) →
      (∀ b ∈ (encoded_entries program).head?, buffer.length ≤ b.1) →
      (program.foldl convert_step buffer).length =
          (((encoded_entries program).getLast?.map (fun b => b.1 + 2)).getD
            buffer.length) ∧
      (∀ k, k < buffer.length →
        (program.foldl convert_step buffer).get? k = buffer.get? k) ∧
      (∀ a e, (a, e) ∈ encoded_entries program →
        (program.foldl convert_step buffer).get? a = some (e % 256) ∧
        (program.foldl convert_step buffer).get? (a + 1) =
          some (e / 256 % 256)) ∧
      (∀ pos, buffer.length ≤ pos →
        pos < (program.foldl convert_step buffer).length →
        (∀ a e, (a, e) ∈ encoded_entries program → pos < a ∨ a + 2 ≤ pos) →
        (program.foldl convert_step buffer).get? pos = some 0) := by
  intro program
  induction program with
  | nil =>
    intro buffer _ _
    refine ⟨rfl, fun k _ => rfl, ?_, ?_⟩
    · intro a e hmem
      exact absurd hmem (List.not_mem_nil _)
    · intro pos h1 h2 _
      exact absurd h2 (by rw [List.foldl_nil]; omega)
  | cons inst rest ih =>
    intro buffer hchain hhead
    rw [List.foldl_cons]
    by_cases hskip : inst.encoding = none ∨ inst.address = none
    · rw [convert_step_skip buffer inst hskip]
      rw [encoded_entries_cons_skip inst rest hskip] at hchain hhead ⊢
      exact ih buffer hchain hhead
    · push_neg at hskip
      obtain ⟨he', ha'⟩ := hskip
      obtain ⟨e, he⟩ := Option.ne_none_iff_exists'.mp he'
      obtain ⟨a, ha⟩ := Option.ne_none_iff_exists'.mp ha'
      rw [encoded_entries_cons_enc inst rest e a he ha] at hchain hhead ⊢
      have hle : buffer.length ≤ a := hhead (a, e) rfl
      rw [convert_step_enc_le buffer inst e a he ha hle]
      have hlen' : (buffer ++ List.replicate (a - buffer.length) 0 ++
          [e % 256, e / 256 % 256]).length = a + 2 := by
        simp
        omega
      have hcc := List.chain'_cons'.mp hchain
      have hhead' : ∀ b ∈ (encoded_entries rest).head?,
          (buffer ++ List.replicate (a - buffer.length) 0 ++
            [e % 256, e / 256 % 256]).length ≤ b.1 := by
        intro b hb
        have hr := hcc.1 b hb
        rw [hlen']
        exact hr
      obtain ⟨ihlen, ihpre, ihmem, ihgap⟩ :=
        ih (buffer ++ List.replicate (a - buffer.length) 0 ++
          [e % 256, e / 256 % 256]) hcc.2 hhead'
      refine ⟨?_, ?_, ?_, ?_⟩
      · cases hr : encoded_entries rest with
        | nil =>
          rw [hr] at ihlen
          rw [List.getLast?_nil, Option.map_none', Option.getD_none,
            hlen'] at ihlen
          simp only [List.getLast?_singleton, Option.map_some',
            Option.getD_some]
          exact ihlen
        | cons q qs =>
          rw [hr] at ihlen
          rw [List.getLast?_cons_cons]
          cases hl : (q :: qs).getLast? with
          | none =>
            exact absurd hl (by simp [List.getLast?_eq_none_iff])
          | some b =>
            rw [hl] at ihlen
            simpa using ihlen
      · intro k hk
        have h1 := ihpre k (by rw [hlen']; omega)
        rw [h1]
        have hk1 : k < (buffer ++
            List.replicate (a - buffer.length) 0).length := by
          simp
          omega
        rw [List.get?_append hk1, List.get?_append hk]
      · intro a' e' hmem'
        rcases List.mem_cons.mp hmem' with heq | hmem''
        · injection heq with h1 h2
          subst h1
          subst h2
          have hp := append_two_get? buffer (a' - buffer.length) a'
            (e' % 256) (e' / 256 % 256) (by omega)
          have q1 := ihpre a' (by rw [hlen']; omega)
          have q2 := ihpre (a' + 1) (by rw [hlen']; omega)
          rw [q1, q2, hp.1, hp.2]
          exact ⟨rfl, rfl⟩
        · exact ihmem a' e' hmem''
      · intro pos hpos hlt hgap
        by_cases hpb : pos < (buffer ++
            List.replicate (a - buffer.length) 0 ++
            [e % 256, e / 256 % 256]).length
        · have hcase := hgap a e (List.mem_cons_self _ _)
          have hpa : pos < a := by
            rw [hlen'] at hpb
            omega
          have h1 := ihpre pos hpb
          rw [h1]
          have hp1 : pos < (buffer ++
              List.replicate (a - buffer.length) 0).length := by
            simp
            omega
          rw [List.get?_append hp1, List.get?_append_right hpos]
          exact get?_replicate_lt 0 (by omega)
        · exact ihgap pos (by omega) hlt
            (fun a' e' hm => hgap a' e' (List.mem_cons_of_mem _ hm))

end Assembler

open Assembler in
/-- C7 counterexample: the converter appends sequentially, so an encoded
instruction whose address is not past the end of the buffer built so far
does NOT get its bytes at its own address.  With two encoded instructions
both at address 0, the second one's low byte (0xCD) ends up at offset 2,
and offset 0 holds the first one's low byte instead. -/
theorem C7_counterexample :
    convert_program_to_bytes
        [⟨.NOP, [], some 0, some 0x1234⟩, ⟨.NOP, [], some 0, some 0xABCD⟩]
        none = .ok [0x34, 0x12, 0xCD, 0xAB] ∧
    ([0x34, 0x12, 0xCD, 0xAB] : List Nat).get? 0 ≠ some (0xABCD % 256) :=
  ⟨rfl, by decide⟩

open Assembler in
/-- C7 (amended with an ordering premise): when the converter's emitted
entries appear in strictly increasing address order with no overlap
(`a + 2 ≤ a'` consecutively), each encoding's low byte lands at its
address and its high byte at address+1; instructions lacking an encoding
contribute nothing; positions covered by no instruction are zero; with a
configured output size, an over-long buffer is a hard error and a shorter
one is zero-padded to exactly that size. -/
theorem C7_serialization :
    (∀ (program : List Instruction),
      (encoded_entries program).Chain' (fun x y => x.1 + 2 ≤ y.1) →
      (∀ a e, (a, e) ∈ encoded_entries program →
        (raw_buffer program).get? a = some (e % 256) ∧
        (raw_buffer program).get? (a + 1) = some (e / 256 % 256)) ∧
      (∀ pos, pos < (raw_buffer program).length →
        (∀ a e, (a, e) ∈ encoded_entries program → pos < a ∨ a + 2 ≤ pos) →
        (raw_buffer program).get? pos = some 0)) ∧
    (∀ (buffer : List Nat) (inst : Instruction),
      inst.encoding = none → convert_step buffer inst = buffer) ∧
    (∀ (program : List Instruction) (size : Nat),
      ((raw_buffer program).length > size →
        convert_program_to_bytes program (some size) =
          .error (.sizeExceeded (raw_buffer program).length size)) ∧
      ((raw_buffer program).length ≤ size →
        convert_program_to_bytes program (some size) =
          .ok (raw_buffer program ++
            List.replicate (size - (raw_buffer program).length) 0) ∧
        ∀ bytes, convert_program_to_bytes program (some size) = .ok bytes →
          bytes.length = size)) := by
  refine ⟨?_, ?_, ?_⟩
  · intro program hchain
    obtain ⟨_, _, hmem, hgap⟩ := convert_fold_spec program [] hchain
      (fun b _ => Nat.zero_le _)
    exact ⟨hmem, fun pos hlt hcond => hgap pos (Nat.zero_le _) hlt hcond⟩
  · intro buffer inst h
    exact convert_step_skip buffer inst (.inl h)
  · intro program size
    constructor
    · intro hgt
      rw [convert_program_to_bytes]
      rw [if_pos hgt]
    · intro hle
      constructor
      · rw [convert_program_to_bytes]
        rw [if_neg (by omega)]
      · intro bytes hb
        rw [convert_program_to_bytes] at hb
        rw [if_neg (by omega)] at hb
        injection hb with hb
        rw [← hb]
        simp
        omega

open Assembler in
/-- C7 witness: a program with encodings at addresses 0 and 16 (after an
origin directive) satisfies the ordering premise; the second instruction's
bytes land at 16 and 17, the gap bytes 2..15 are zero, and a configured
output size of 20 pads the 18-byte buffer to exactly 20. -/
theorem C7_serialization_witness :
    ((raw_buffer
        [⟨.NOP, [], some 0, some 0x0009⟩,
         ⟨.D_ORG, [.imm 16], some 16, none⟩,
         ⟨.NOP, [], some 16, some 0x1234⟩]).get? 16 =
      some (0x1234 % 256) ∧
     (raw_buffer
        [⟨.NOP, [], some 0, some 0x0009⟩,
         ⟨.D_ORG, [.imm 16], some 16, none⟩,
         ⟨.NOP, [], some 16, some 0x1234⟩]).get? 17 =
      some (0x1234 / 256 % 256)) ∧
    (raw_buffer
        [⟨.NOP, [], some 0, some 0x0009⟩,
         ⟨.D_ORG, [.imm 16], some 16, none⟩,
         ⟨.NOP, [], some 16, some 0x1234⟩]).get? 7 = some 0 ∧
    convert_program_to_bytes
        [⟨.NOP, [], some 0, some 0x0009⟩,
         ⟨.D_ORG, [.imm 16], some 16, none⟩,
         ⟨.NOP, [], some 16, some 0x1234⟩] (some 20) =
      .ok (raw_buffer
        [⟨.NOP, [], some 0, some 0x0009⟩,
         ⟨.D_ORG, [.imm 16], some 16, none⟩,
         ⟨.NOP, [], some 16, some 0x1234⟩] ++
        List.replicate (20 - (raw_buffer
          [⟨.NOP, [], some 0, some 0x0009⟩,
           ⟨.D_ORG, [.imm 16], some 16, none⟩,
           ⟨.NOP, [], some 16, some 0x1234⟩]).length) 0) :=
  ⟨(C7_serialization.1
      [⟨.NOP, [], some 0, some 0x0009⟩,
       ⟨.D_ORG, [.imm 16], some 16, none⟩,
       ⟨.NOP, [], some 16, some 0x1234⟩]
      (by
        rw [show encoded_entries
            [⟨.NOP, [], some 0, some 0x0009⟩,
             ⟨.D_ORG, [.imm 16], some 16, none⟩,
             ⟨.NOP, [], some 16, some 0x1234⟩] = [(0, 9), (16, 4660)]
          from rfl]
        exact List.chain'_cons.mpr ⟨by omega, List.chain'_singleton _⟩)).1
      16 0x1234 (by decide),
   (C7_serialization.1
      [⟨.NOP, [], some 0, some 0x0009⟩,
       ⟨.D_ORG, [.imm 16], some 16, none⟩,
       ⟨.NOP, [], some 16, some 0x1234⟩]
      (by
        rw [show encoded_entries
            [⟨.NOP, [], some 0, some 0x0009⟩,
             ⟨.D_ORG, [.imm 16], some 16, none⟩,
             ⟨.NOP, [], some 16, some 0x1234⟩] = [(0, 9), (16, 4660)]
          from rfl]
        exact List.chain'_cons.mpr ⟨by omega, List.chain'_singleton _⟩)).2
      7 (by decide)
      (by
        intro a e hm
        rw [show encoded_entries
            [⟨.NOP, [], some 0, some 0x0009⟩,
             ⟨.D_ORG, [.imm 16], some 16, none⟩,
             ⟨.NOP, [], some 16, some 0x1234⟩] = [(0, 9), (16, 4660)]
          from rfl] at hm
        rcases List.mem_cons.mp hm with heq | hm
        · injection heq with h1 h2
          subst h1
          omega
        · rcases List.mem_cons.mp hm with heq | hm
          · injection heq with h1 h2
            subst h1
            omega
          · cases hm),
   ((C7_serialization.2.2
      [⟨.NOP, [], some 0, some 0x0009⟩,
       ⟨.D_ORG, [.imm 16], some 16, none⟩,
       ⟨.NOP, [], some 16, some 0x1234⟩] 20).2 (by decide)).1⟩


namespace Assembler

/-- Python `\s`: space, tab, newline, vertical tab, form feed, carriage
return. -/
def isSpaceChar (c : Char) : Bool :=
  c = ' ' || c = '\t' || c = '\n' || c = '\r' ||
    c = Char.ofNat 11 || c = Char.ofNat 12

/-- The regex word class `[a-zA-Z0-9_]`. -/
def isWordChar (c : Char) : Bool :=
  c.isAlphanum || c = '_'

/-- Remainder after the last `$` of the line-comment regex `.*[\n$]` when
the input has no newline (greedy `.*` backtracks to the last `$`). -/
def lastDollarSplit : List Char → Option (List Char)
  | [] => none
  | c :: rest =>
    if c = '$' then
      match lastDollarSplit rest with
      | some r => some r
      | none => some rest
    else lastDollarSplit rest

/-- Remainder after the greedy match of `.*[\n$]`: through the first
newline if any, else through the last dollar sign. -/
def lineCommentRest (cs : List Char) : Option (List Char) :=
  if cs.contains '\n' then some ((cs.dropWhile (fun c => c ≠ '\n')).drop 1)
  else lastDollarSplit cs

/-- Remainder after the greedy match of `(?s)/\*.*\*/`: through the last
occurrence of the closing delimiter. -/
def lastCloseSplit : List Char → Option (List Char)
  | [] => none
  | c :: rest =>
    if c = '*' ∧ rest.head? = some '/' then
      match lastCloseSplit rest.tail with
      | some r => some r
      | none => some rest.tail
    else lastCloseSplit rest
termination_by cs => cs.length
decreasing_by
  · simp [List.length_tail]
    omega
  · simp

/-- One comment match at the current position: `#...` or `//...` line
comments, or a `/*...*/` block comment. -/
def commentSplit (cs : List Char) : Option (List Char) :=
  match cs with
  | c :: rest =>
    if c = '#' then lineCommentRest rest
    else if c = '/' ∧ rest.head? = some '/' then lineCommentRest rest.tail
    else if c = '/' ∧ rest.head? = some '*' then lastCloseSplit rest.tail
    else none
  | [] => none

theorem lastDollarSplit_le :
    ∀ (cs r : List Char), lastDollarSplit cs = some r →
      r.length ≤ cs.length := by
  intro cs
  induction cs with
  | nil => intro r h; cases h
  | cons c rest ih =>
    intro r h
    rw [lastDollarSplit] at h
    by_cases hc : c = '$'
    · rw [if_pos hc] at h
      cases hr : lastDollarSplit rest with
      | some r' =>
        rw [hr] at h
        cases h
        have := ih _ hr
        simp
        omega
      | none =>
        rw [hr] at h
        cases h
        simp
    · rw [if_neg hc] at h
      have := ih _ h
      simp
      omega

theorem lastCloseSplit_le_aux :
    ∀ (n : Nat) (cs : List Char), cs.length ≤ n →
      ∀ r, lastCloseSplit cs = some r → r.length ≤ cs.length := by
  intro n
  induction n with
  | zero =>
    intro cs hcs r h
    cases cs with
    | nil => rw [lastCloseSplit] at h; cases h
    | cons c rest => simp at hcs
  | succ n ih =>
    intro cs hcs r h
    cases cs with
    | nil => rw [lastCloseSplit] at h; cases h
    | cons c rest =>
      rw [lastCloseSplit] at h
      by_cases hc : c = '*' ∧ rest.head? = some '/'
      · rw [if_pos hc] at h
        have htl : rest.tail.length ≤ n := by
          have := List.length_tail rest
          simp at hcs
          omega
        cases hr : lastCloseSplit rest.tail with
        | some r' =>
          rw [hr] at h
          cases h
          have h1 := ih rest.tail htl _ hr
          have := List.length_tail rest
          simp
          omega
        | none =>
          rw [hr] at h
          cases h
          have := List.length_tail rest
          simp
          omega
      · rw [if_neg hc] at h
        have h1 := ih rest (by simp at hcs; omega) _ h
        simp
        omega

theorem lastCloseSplit_le (cs r : List Char)
    (h : lastCloseSplit cs = some r) : r.length ≤ cs.length :=
  lastCloseSplit_le_aux cs.length cs (Nat.le_refl _) r h

theorem lineCommentRest_le (cs r : List Char)
    (h : lineCommentRest cs = some r) : r.length ≤ cs.length := by
  rw [lineCommentRest] at h
  by_cases hc : cs.contains '\n'
  · rw [if_pos hc] at h
    cases h
    have h1 := (List.dropWhile_sublist (l := cs)
      (fun c => c ≠ '\n')).length_le
    simp at h1 ⊢
    omega
  · rw [if_neg hc] at h
    exact lastDollarSplit_le cs r h

theorem commentSplit_lt (cs r : List Char)
    (h : commentSplit cs = some r) : r.length < cs.length := by
  cases cs with
  | nil => cases h
  | cons c rest =>
    rw [commentSplit] at h
    by_cases h1 : c = '#'
    · rw [if_pos h1] at h
      have := lineCommentRest_le rest r h
      simp
      omega
    · rw [if_neg h1] at h
      by_cases h2 : c = '/' ∧ rest.head? = some '/'
      · rw [if_pos h2] at h
        have := lineCommentRest_le rest.tail r h
        have h3 := List.length_tail rest
        simp
        omega
      · rw [if_neg h2] at h
        by_cases h3 : c = '/' ∧ rest.head? = some '*'
        · rw [if_pos h3] at h
          have := lastCloseSplit_le rest.tail r h
          have h4 := List.length_tail rest
          simp
          omega
        · rw [if_neg h3] at h
          cases h

/-- `AssemblyParser.skip`, with explicit iteration fuel: discard
whitespace and comments.  (Whitespace goes a character at a time; the
result matches the source's run-at-a-time loop.  Every iteration consumes
at least one character, so `length`-many iterations always finish.) -/
def skip_go : Nat → List Char → List Char
  | 0, cs => cs
  | _ + 1, [] => []
  | fuel + 1, c :: rest =>
    if isSpaceChar c then skip_go fuel rest
    else
      match commentSplit (c :: rest) with
      | some r => skip_go fuel r
      | none => c :: rest

/-- `AssemblyParser.skip`. -/
def skip (cs : List Char) : List Char := skip_go cs.length cs

theorem skip_nil : skip [] = [] := rfl

theorem skip_cons_space (c : Char) (rest : List Char)
    (h : isSpaceChar c = true) : skip (c :: rest) = skip rest := by
  rw [skip, skip, List.length_cons, skip_go, if_pos h]

theorem skip_cons_not (c : Char) (rest : List Char)
    (h1 : isSpaceChar c = false)
    (h2 : commentSplit (c :: rest) = none) :
    skip (c :: rest) = c :: rest := by
  rw [skip, List.length_cons, skip_go,
    if_neg (by rw [h1]; exact Bool.false_ne_true), h2]

end Assembler

namespace Assembler

/-- Digit class of `[0-9_]` / `[0-9a-fA-F_]` / `[0-7_]` / `[01_]` for the
given base. -/
def isBaseDigit (base : Nat) (c : Char) : Bool :=
  if base = 16 then
    c.isDigit || ('a' ≤ c ∧ c ≤ 'f') || ('A' ≤ c ∧ c ≤ 'F') || c = '_'
  else if base = 8 then ('0' ≤ c ∧ c ≤ '7') || c = '_'
  else if base = 2 then c = '0' || c = '1' || c = '_'
  else c.isDigit || c = '_'

/-- Numeric value of one digit character (as used by Python's `int`). -/
def charVal (c : Char) : Nat :=
  if c.isDigit then c.toNat - '0'.toNat
  else if 'a' ≤ c ∧ c ≤ 'f' then c.toNat - 'a'.toNat + 10
  else if 'A' ≤ c ∧ c ≤ 'F' then c.toNat - 'A'.toNat + 10
  else 0

/-- `int(text.replace("_", ""), base)` for a digit string. -/
def digitsToNat (base : Nat) (ds : List Char) : Nat :=
  (ds.filter (fun c => c ≠ '_')).foldl (fun acc c => acc * base + charVal c) 0

/-- `consume_regex(rf'{identifier}\b')`: the literal word followed by a
word boundary, with trailing whitespace skipped. -/
def consume_identifier (id : List Char) (cs : List Char) :
    Option (List Char) :=
  if cs.take id.length = id ∧
      ((cs.drop id.length).head?.all (fun c => !isWordChar c)) then
    some (skip (cs.drop id.length))
  else none

/-- The label rule `([a-zA-Z0-9_]+):` of `parse_instruction`. -/
def consume_label (cs : List Char) : Option (String × List Char) :=
  let w := cs.takeWhile isWordChar
  if w ≠ [] ∧ (cs.drop w.length).head? = some ':' then
    some (String.mk w, skip (cs.drop w.length).tail)
  else none

/-- `AssemblyParser.parse_register`: `r([0-6])\b`. -/
def parse_register (cs : List Char) :
    Except AsmError (Operand × List Char) :=
  match cs with
  | 'r' :: d :: rest =>
    if ('0' ≤ d ∧ d ≤ '6') ∧ rest.head?.all (fun c => !isWordChar c) then
      .ok (.reg (d.toNat - '0'.toNat), skip rest)
    else .error (.pyError "expected a register")
  | _ => .error (.pyError "expected a register")

/-- `AssemblyParser.parse_register_pair`: `r([0-6])r([0-6])\b`, then the
consecutiveness check `hi == lo + 1`. -/
def parse_register_pair (cs : List Char) :
    Except AsmError (Operand × List Char) :=
  match cs with
  | 'r' :: h :: 'r' :: l :: rest =>
    if ('0' ≤ h ∧ h ≤ '6') ∧ ('0' ≤ l ∧ l ≤ '6') ∧
        rest.head?.all (fun c => !isWordChar c) then
      if h.toNat - '0'.toNat ≠ (l.toNat - '0'.toNat) + 1 then
        .error (.regPairNotConsecutive (h.toNat - '0'.toNat)
          (l.toNat - '0'.toNat))
      else .ok (.regPair (l.toNat - '0'.toNat), skip rest)
    else .error (.pyError "expected a 16 bit register pair")
  | _ => .error (.pyError "expected a 16 bit register pair")

/-- `AssemblyParser.parse_immediate`: optional sign, optional base prefix,
then a digit run with a word boundary. -/
def parse_immediate (cs : List Char) :
    Except AsmError (Operand × List Char) :=
  let negative := cs.head? = some '-'
  let cs1 := if cs.head? = some '-' ∨ cs.head? = some '+' then cs.tail
    else cs
  let base := if cs1.take 2 = ['0', 'x'] then 16
    else if cs1.take 2 = ['0', 'o'] then 8
    else if cs1.take 2 = ['0', 'b'] then 2
    else 10
  let cs2 := if base = 10 then cs1 else cs1.drop 2
  let ds := cs2.takeWhile (isBaseDigit base)
  if ds ≠ [] ∧ ((cs2.drop ds.length).head?.all (fun c => !isWordChar c)) then
    .ok (.imm (if negative then -(digitsToNat base ds : Int)
        else (digitsToNat base ds : Int)),
      skip (cs2.drop ds.length))
  else .error (.pyError "expected integer")

/-- The integer shapes recognized by `parse_offset`: `^[0-9_]+$`,
`^0x[0-9a-fA-F_]+$`, `^0o[0-7_]+$`, `^0b[01_]+$`. -/
def offsetBase (text : List Char) : Option (Nat × List Char) :=
  if text ≠ [] ∧ text.all (isBaseDigit 10) then some (10, text)
  else if text.take 2 = ['0', 'x'] ∧ text.drop 2 ≠ [] ∧
      (text.drop 2).all (isBaseDigit 16) then some (16, text.drop 2)
  else if text.take 2 = ['0', 'o'] ∧ text.drop 2 ≠ [] ∧
      (text.drop 2).all (isBaseDigit 8) then some (8, text.drop 2)
  else if text.take 2 = ['0', 'b'] ∧ text.drop 2 ≠ [] ∧
      (text.drop 2).all (isBaseDigit 2) then some (2, text.drop 2)
  else none

/-- `AssemblyParser.parse_offset`: `([+-])?([0-9a-zA-Z_]+)`, interpreted
as an integer when it looks like one, else as a label reference. -/
def parse_offset (cs : List Char) :
    Except AsmError (Operand × List Char) :=
  let signed := cs.head? = some '-' ∨ cs.head? = some '+'
  let cs1 := if cs.head? = some '-' ∨ cs.head? = some '+' then cs.tail
    else cs
  let text := cs1.takeWhile isWordChar
  if text = [] then .error (.pyError "expected integer or label")
  else
    match offsetBase text with
    | some (base, ds) =>
      .ok (.imm (if cs.head? = some '-' then -(digitsToNat base ds : Int)
          else (digitsToNat base ds : Int)),
        skip (cs1.drop text.length))
    | none =>
      if signed then .error (.pyError "expected integer after sign")
      else .ok (.offset ⟨String.mk text, none, none⟩,
        skip (cs1.drop text.length))

/-- `AssemblyParser.parse_condition`: a `[a-z]+` run looked up in
`CONDITION_BY_NAME`. -/
def parse_condition (cs : List Char) :
    Except AsmError (Operand × List Char) :=
  let w := cs.takeWhile (fun c => 'a' ≤ c ∧ c ≤ 'z')
  if w ≠ [] then
    match CONDITION_BY_NAME (String.mk w) with
    | some c => .ok (.cond c, skip (cs.drop w.length))
    | none => .error (.pyError "expected condition code")
  else .error (.pyError "expected condition code")

/-- `parse_regex(r',')` / `parse_regex(r'\.')`: one punctuation character
plus trailing skip. -/
def parse_char (c : Char) (cs : List Char) : Except AsmError (List Char) :=
  match cs.head? with
  | some c' =>
    if c' = c then .ok (skip cs.tail)
    else .error (.pyError "expected punctuation")
  | none => .error (.pyError "expected punctuation")

/-- The operand shapes that occur in `parse_instruction`'s branches. -/
inductive ArgShape where
  | noArgs | r | rr | ri | pair | off | condPair | condOff | condReg
  | condRR | condRI | orgImm
deriving DecidableEq

/-- The operand-parsing tail of one `parse_instruction` branch. -/
def parse_args (op : Opcode) (shape : ArgShape) (cs : List Char) :
    Except AsmError (Instruction × List Char) :=
  match shape with
  | .noArgs => .ok (⟨op, [], none, none⟩, cs)
  | .r => do
    let (rd, cs1) ← parse_register cs
    .ok (⟨op, [rd], none, none⟩, cs1)
  | .rr => do
    let (rd, cs1) ← parse_register cs
    let cs2 ← parse_char ',' cs1
    let (rs, cs3) ← parse_register cs2
    .ok (⟨op, [rd, rs], none, none⟩, cs3)
  | .ri => do
    let (rd, cs1) ← parse_register cs
    let cs2 ← parse_char ',' cs1
    let (imm, cs3) ← parse_immediate cs2
    .ok (⟨op, [rd, imm], none, none⟩, cs3)
  | .pair => do
    let (rs16, cs1) ← parse_register_pair cs
    .ok (⟨op, [rs16], none, none⟩, cs1)
  | .off => do
    let (o, cs1) ← parse_offset cs
    .ok (⟨op, [o], none, none⟩, cs1)
  | .condPair => do
    let cs1 ← parse_char '.' cs
    let (c, cs2) ← parse_condition cs1
    let (rs16, cs3) ← parse_register_pair cs2
    .ok (⟨op, [c, rs16], none, none⟩, cs3)
  | .condOff => do
    let cs1 ← parse_char '.' cs
    let (c, cs2) ← parse_condition cs1
    let (o, cs3) ← parse_offset cs2
    .ok (⟨op, [c, o], none, none⟩, cs3)
  | .condReg => do
    let cs1 ← parse_char '.' cs
    let (c, cs2) ← parse_condition cs1
    let (rs, cs3) ← parse_register cs2
    .ok (⟨op, [c, rs], none, none⟩, cs3)
  | .condRR => do
    let cs1 ← parse_char '.' cs
    let (c, cs2) ← parse_condition cs1
    let (rd, cs3) ← parse_register cs2
    let cs4 ← parse_char ',' cs3
    let (rs, cs5) ← parse_register cs4
    .ok (⟨op, [c, rd, rs], none, none⟩, cs5)
  | .condRI => do
    let cs1 ← parse_char '.' cs
    let (c, cs2) ← parse_condition cs1
    let (rd, cs3) ← parse_register cs2
    let cs4 ← parse_char ',' cs3
    let (imm, cs5) ← parse_immediate cs4
    .ok (⟨op, [c, rd, imm], none, none⟩, cs5)
  | .orgImm => do
    let (imm, cs1) ← parse_immediate cs
    .ok (⟨op, [imm], none, none⟩, cs1)

/-- The mnemonic table of `parse_instruction`, in source order (the `if`
chain commits to the first identifier that matches). -/
def MNEMONICS : List (String × Opcode × ArgShape) :=
  [("nop", .NOP, .noArgs), ("ldi", .LDI, .ri), ("mv", .MV, .rr),
   ("jr", .JR, .pair), ("j", .J, .off), ("jro", .JRO, .r),
   ("br", .BR, .condPair), ("b", .B, .condOff), ("bro", .BRO, .condReg),
   ("lcdcw", .LCDCW, .r), ("lcddw", .LCDDW, .r), ("lcdcr", .LCDCR, .r),
   ("lcddr", .LCDDR, .r), ("not", .NOT, .r), ("neg", .NEG, .r),
   ("add", .ADD, .rr), ("addi", .ADDI, .ri), ("sub", .SUB, .rr),
   ("addc", .ADDC, .rr), ("addci", .ADDCI, .ri), ("subc", .SUBC, .rr),
   ("shll", .SHLL, .r), ("shlc", .SHLC, .r), ("shrl", .SHRL, .r),
   ("shrc", .SHRC, .r), ("shra", .SHRA, .r), ("and", .AND, .rr),
   ("andi", .ANDI, .ri), ("or", .OR, .rr), ("ori", .ORI, .ri),
   ("xor", .XOR, .rr), ("xori", .XORI, .ri), ("cmp", .CMP, .rr),
   ("cmpi", .CMPI, .ri), ("test", .TEST, .rr), ("testi", .TESTI, .ri),
   ("fswap", .FSWAP, .r), ("fr", .FR, .r), ("fw", .FW, .r),
   ("cmv", .CMV, .condRR), ("cldi", .CLDI, .condRI),
   ("halt", .HALT, .noArgs), (".org", .D_ORG, .orgImm)]

/-- `AssemblyParser.parse_instruction`: the label rule, then the mnemonic
chain, then the unknown-instruction error. -/
def parse_instruction (cs : List Char) :
    Except AsmError (Instruction × List Char) :=
  match consume_label cs with
  | some (name, rest) => .ok (⟨.D_LABEL, [.label name], none, none⟩, rest)
  | none =>
    match MNEMONICS.findSome? (fun m =>
        (consume_identifier m.1.toList cs).map (parse_args m.2.1 m.2.2)) with
    | some r => r
    | none => .error (.pyError "unknown instruction")

/-- `AssemblyParser.parse_program` loop, with explicit fuel (one unit per
instruction; each instruction consumes at least one character, so
`length`-many units always finish). -/
def parse_program_go : Nat → List Char → List Instruction →
    Except AsmError (List Instruction)
  | 0, cs, acc => if cs = [] then .ok acc.reverse
    else .error (.pyError "fuel exhausted")
  | fuel + 1, cs, acc =>
    if cs = [] then .ok acc.reverse
    else do
      let (inst, rest) ← parse_instruction cs
      parse_program_go fuel rest (inst :: acc)

/-- `AssemblyParser.parse_program`: initial skip, then instructions until
the input is exhausted. -/
def parse_program (cs : List Char) : Except AsmError (List Instruction) :=
  parse_program_go cs.length (skip cs) []

end Assembler

namespace Assembler

/-- One decimal digit character. -/
def digitChar (n : Nat) : Char := Char.ofNat (48 + n)

/-- One uppercase hexadecimal digit character (`%X`). -/
def hexDigitChar (n : Nat) : Char :=
  if n < 10 then Char.ofNat (48 + n) else Char.ofNat (65 + n - 10)

/-- Decimal rendering of a natural number (Python `f"{v}"`), with
iteration fuel (one digit per unit; `n + 1` units always suffice). -/
def natDecGo : Nat → Nat → List Char → List Char
  | 0, _, acc => acc
  | fuel + 1, n, acc =>
    if n < 10 then digitChar n :: acc
    else natDecGo fuel (n / 10) (digitChar (n % 10) :: acc)

/-- Decimal rendering of a natural number. -/
def natDec (n : Nat) : List Char := natDecGo (n + 1) n []

/-- Decimal rendering of an integer (Python `f"{v}"`). -/
def intDec (v : Int) : List Char :=
  if v < 0 then '-' :: natDec v.natAbs else natDec v.toNat

/-- Uppercase hexadecimal rendering of a natural number. -/
def natHexGo : Nat → Nat → List Char → List Char
  | 0, _, acc => acc
  | fuel + 1, n, acc =>
    if n < 16 then hexDigitChar n :: acc
    else natHexGo fuel (n / 16) (hexDigitChar (n % 16) :: acc)

/-- Uppercase hexadecimal rendering of a natural number. -/
def natHex (n : Nat) : List Char := natHexGo (n + 1) n []

/-- `f"{n:04X}"` for a natural number: zero-padded to at least width 4. -/
def hex4pad (n : Nat) : List Char :=
  List.replicate (4 - (natHex n).length) '0' ++ natHex n

/-- `f"{v:04X}"` for an integer (the sign counts toward the width). -/
def intHex4 (v : Int) : List Char :=
  if v < 0 then
    '-' :: (List.replicate (3 - (natHex v.natAbs).length) '0' ++
      natHex v.natAbs)
  else hex4pad v.toNat

/-- `f"{text:<9s}"`: pad on the right with spaces to at least width 9. -/
def pad9 (s : List Char) : List Char :=
  s ++ List.replicate (9 - s.length) ' '

/-- `AssemblyPrinter.print_opcode`: four spaces of indentation, then the
mnemonic padded to width 9. -/
def print_opcode (text : List Char) : List Char :=
  [' ', ' ', ' ', ' '] ++ pad9 text

/-- `AssemblyPrinter.print_operand`.  (The source's fallback branch prints
the Python repr `<...>` of an unexpected operand; label operands never
reach `print_operand` in the source, and the repr text is modelled as a
bracketed placeholder.) -/
def print_operand (op : Operand) (hint_relative : Bool := false)
    (hint_addr : Bool := false) : List Char :=
  match op with
  | .imm v =>
    if hint_addr then '0' :: 'x' :: intHex4 v
    else if hint_relative ∧ 0 ≤ v then '+' :: natDec v.toNat
    else intDec v
  | .reg n => 'r' :: natDec n
  | .regPair lo => 'r' :: (natDec (lo + 1) ++ 'r' :: natDec lo)
  | .cond c => (Condition.lowerName c).toList
  | .offset o => o.name.toList
  | .label name => '<' :: (name.toList ++ ['>'])

/-- `AssemblyPrinter.print_target_comment`: emit `  # ADDR` when both the
instruction address and the operand's (numeric) offset are known. -/
def print_target_comment (inst : Instruction) (op : Operand) : List Char :=
  let off : Option Int :=
    match op with
    | .offset o => o.offset
    | .imm v => some v
    | .reg n => some n
    | .regPair n => some n
    | _ => none
  match inst.address, off with
  | some addr, some o => ' ' :: ' ' :: '#' :: ' ' :: intHex4 (addr + o)
  | _, _ => []

end Assembler

namespace Assembler

/-- The condition-mnemonic fragment `inst.operands[i].value.name.lower()`
(crashes in the source when the operand is not a condition). -/
def condName (op : Operand) : Except AsmError (List Char) :=
  match op with
  | .cond c => .ok (Condition.lowerName c).toList
  | _ => .error (.pyError "expected condition operand")

/-- The opcode-dispatch body of `AssemblyPrinter.print_instruction`
(everything after the address and encoding prefixes). -/
def print_body (inst : Instruction) : Except AsmError (List Char) :=
  match inst.opcode with
  | .NOP => .ok (print_opcode "nop".toList)
  | .HALT => .ok (print_opcode "halt".toList)
  | .JR => do
    let a0 ← arg inst 0
    .ok (print_opcode "jr ".toList ++ print_operand a0)
  | .JRO => do
    let a0 ← arg inst 0
    .ok (print_opcode "jro ".toList ++ print_operand a0)
  | .LCDCW => do
    let a0 ← arg inst 0
    .ok (print_opcode "lcdcw ".toList ++ print_operand a0)
  | .LCDDW => do
    let a0 ← arg inst 0
    .ok (print_opcode "lcddw ".toList ++ print_operand a0)
  | .LCDCR => do
    let a0 ← arg inst 0
    .ok (print_opcode "lcdcr ".toList ++ print_operand a0)
  | .LCDDR => do
    let a0 ← arg inst 0
    .ok (print_opcode "lcddr ".toList ++ print_operand a0)
  | .NOT => do
    let a0 ← arg inst 0
    .ok (print_opcode "not ".toList ++ print_operand a0)
  | .NEG => do
    let a0 ← arg inst 0
    .ok (print_opcode "neg ".toList ++ print_operand a0)
  | .SHLL => do
    let a0 ← arg inst 0
    .ok (print_opcode "shll ".toList ++ print_operand a0)
  | .SHLC => do
    let a0 ← arg inst 0
    .ok (print_opcode "shlc ".toList ++ print_operand a0)
  | .SHRL => do
    let a0 ← arg inst 0
    .ok (print_opcode "shrl ".toList ++ print_operand a0)
  | .SHRC => do
    let a0 ← arg inst 0
    .ok (print_opcode "shrc ".toList ++ print_operand a0)
  | .SHRA => do
    let a0 ← arg inst 0
    .ok (print_opcode "shra ".toList ++ print_operand a0)
  | .FSWAP => do
    let a0 ← arg inst 0
    .ok (print_opcode "fswap ".toList ++ print_operand a0)
  | .FR => do
    let a0 ← arg inst 0
    .ok (print_opcode "fr ".toList ++ print_operand a0)
  | .FW => do
    let a0 ← arg inst 0
    .ok (print_opcode "fw ".toList ++ print_operand a0)
  | .LDI => do
    let a0 ← arg inst 0
    let a1 ← arg inst 1
    .ok (print_opcode "ldi ".toList ++ print_operand a0 ++ [',', ' '] ++
      print_operand a1)
  | .MV => do
    let a0 ← arg inst 0
    let a1 ← arg inst 1
    .ok (print_opcode "mv ".toList ++ print_operand a0 ++ [',', ' '] ++
      print_operand a1)
  | .ADD => do
    let a0 ← arg inst 0
    let a1 ← arg inst 1
    .ok (print_opcode "add ".toList ++ print_operand a0 ++ [',', ' '] ++
      print_operand a1)
  | .ADDI => do
    let a0 ← arg inst 0
    let a1 ← arg inst 1
    .ok (print_opcode "addi ".toList ++ print_operand a0 ++ [',', ' '] ++
      print_operand a1)
  | .SUB => do
    let a0 ← arg inst 0
    let a1 ← arg inst 1
    .ok (print_opcode "sub ".toList ++ print_operand a0 ++ [',', ' '] ++
      print_operand a1)
  | .ADDC => do
    let a0 ← arg inst 0
    let a1 ← arg inst 1
    .ok (print_opcode "addc ".toList ++ print_operand a0 ++ [',', ' '] ++
      print_operand a1)
  | .ADDCI => do
    let a0 ← arg inst 0
    let a1 ← arg inst 1
    .ok (print_opcode "addci ".toList ++ print_operand a0 ++ [',', ' '] ++
      print_operand a1)
  | .SUBC => do
    let a0 ← arg inst 0
    let a1 ← arg inst 1
    .ok (print_opcode "subc ".toList ++ print_operand a0 ++ [',', ' '] ++
      print_operand a1)
  | .AND => do
    let a0 ← arg inst 0
    let a1 ← arg inst 1
    .ok (print_opcode "and ".toList ++ print_operand a0 ++ [',', ' '] ++
      print_operand a1)
  | .ANDI => do
    let a0 ← arg inst 0
    let a1 ← arg inst 1
    .ok (print_opcode "andi ".toList ++ print_operand a0 ++ [',', ' '] ++
      print_operand a1)
  | .OR => do
    let a0 ← arg inst 0
    let a1 ← arg inst 1
    .ok (print_opcode "or ".toList ++ print_operand a0 ++ [',', ' '] ++
      print_operand a1)
  | .ORI => do
    let a0 ← arg inst 0
    let a1 ← arg inst 1
    .ok (print_opcode "ori ".toList ++ print_operand a0 ++ [',', ' '] ++
      print_operand a1)
  | .XOR => do
    let a0 ← arg inst 0
    let a1 ← arg inst 1
    .ok (print_opcode "xor ".toList ++ print_operand a0 ++ [',', ' '] ++
      print_operand a1)
  | .XORI => do
    let a0 ← arg inst 0
    let a1 ← arg inst 1
    .ok (print_opcode "xori ".toList ++ print_operand a0 ++ [',', ' '] ++
      print_operand a1)
  | .CMP => do
    let a0 ← arg inst 0
    let a1 ← arg inst 1
    .ok (print_opcode "cmp ".toList ++ print_operand a0 ++ [',', ' '] ++
      print_operand a1)
  | .CMPI => do
    let a0 ← arg inst 0
    let a1 ← arg inst 1
    .ok (print_opcode "cmpi ".toList ++ print_operand a0 ++ [',', ' '] ++
      print_operand a1)
  | .TEST => do
    let a0 ← arg inst 0
    let a1 ← arg inst 1
    .ok (print_opcode "test ".toList ++ print_operand a0 ++ [',', ' '] ++
      print_operand a1)
  | .TESTI => do
    let a0 ← arg inst 0
    let a1 ← arg inst 1
    .ok (print_opcode "testi ".toList ++ print_operand a0 ++ [',', ' '] ++
      print_operand a1)
  | .J => do
    let a0 ← arg inst 0
    .ok (print_opcode "j ".toList ++ print_operand a0 true ++
      print_target_comment inst a0)
  | .BR => do
    let a0 ← arg inst 0
    let a1 ← arg inst 1
    let c ← condName a0
    .ok (print_opcode ("br.".toList ++ c ++ [' ']) ++ print_operand a1)
  | .B => do
    let a0 ← arg inst 0
    let a1 ← arg inst 1
    let c ← condName a0
    .ok (print_opcode ("b.".toList ++ c ++ [' ']) ++ print_operand a1 true ++
      print_target_comment inst a1)
  | .BRO => do
    let a0 ← arg inst 0
    let a1 ← arg inst 1
    let c ← condName a0
    .ok (print_opcode ("bro.".toList ++ c ++ [' ']) ++ print_operand a1)
  | .CMV => do
    let a0 ← arg inst 0
    let a1 ← arg inst 1
    let a2 ← arg inst 2
    let c ← condName a0
    .ok (print_opcode ("cmv.".toList ++ c ++ [' ']) ++ print_operand a1 ++
      [',', ' '] ++ print_operand a2)
  | .CLDI => do
    let a0 ← arg inst 0
    let a1 ← arg inst 1
    let a2 ← arg inst 2
    let c ← condName a0
    .ok (print_opcode ("cldi.".toList ++ c ++ [' ']) ++ print_operand a1 ++
      [',', ' '] ++ print_operand a2)
  | .D_ORG => do
    let a0 ← arg inst 0
    .ok (".org ".toList ++ print_operand a0 false true)
  | .D_LABEL => do
    let a0 ← arg inst 0
    match a0 with
    | .label name => .ok (name.toList ++ [':'])
    | _ => .error (.pyError "label directive without label operand")

/-- `AssemblyPrinter.print_instruction`: optional address and encoding
prefixes, then the opcode-specific body. -/
def print_instruction (emit_address emit_encoding : Bool)
    (inst : Instruction) : Except AsmError (List Char) := do
  let addrPfx : List Char :=
    if emit_address then
      (match inst.address with
       | some a => hex4pad a
       | none => ['?', '?', '?', '?']) ++ [':', ' ', ' ']
    else []
  let encPfx : List Char :=
    if emit_encoding then
      (match inst.encoding with
       | some e => hex4pad e
       | none => [' ', ' ', ' ', ' ']) ++ [' ', ' ']
    else []
  let body ← print_body inst
  pure (addrPfx ++ encPfx ++ body)

/-- `AssemblyPrinter.print`: one line per instruction, with address and
encoding columns enabled when any instruction has them. -/
def print_program (program : List Instruction) :
    Except AsmError (List Char) := do
  let emit_address := program.any (fun i => i.address.isSome)
  let emit_encoding := program.any (fun i => i.encoding.isSome)
  let lines ← program.mapM (fun i => do
    let s ← print_instruction emit_address emit_encoding i
    pure (s ++ ['\n']))
  pure lines.flatten

end Assembler

namespace Assembler

theorem digitChar_isDigit (n : Nat) (h : n < 10) :
    (digitChar n).isDigit = true := by
  interval_cases n <;> rfl

theorem digitChar_word (n : Nat) (h : n < 10) :
    isWordChar (digitChar n) = true := by
  interval_cases n <;> rfl

theorem charVal_digitChar (n : Nat) (h : n < 10) :
    charVal (digitChar n) = n := by
  interval_cases n <;> rfl

theorem digit_ne_underscore (c : Char) (h : c.isDigit = true) : c ≠ '_' := by
  intro he
  rw [he] at h
  cases h

theorem digit_ne_minus (c : Char) (h : c.isDigit = true) : c ≠ '-' := by
  intro he
  rw [he] at h
  cases h

theorem digit_ne_plus (c : Char) (h : c.isDigit = true) : c ≠ '+' := by
  intro he
  rw [he] at h
  cases h

theorem digit_isBase10 (c : Char) (h : c.isDigit = true) :
    isBaseDigit 10 c = true := by
  rw [show isBaseDigit 10 c = (c.isDigit || c = '_') from rfl]
  rw [h]
  rfl

theorem digit_isWord (c : Char) (h : c.isDigit = true) :
    isWordChar c = true := by
  rw [isWordChar, Char.isAlphanum, h]
  simp

theorem natDecGo_acc :
    ∀ (fuel n : Nat) (acc : List Char),
      natDecGo fuel n acc = natDecGo fuel n [] ++ acc := by
  intro fuel
  induction fuel with
  | zero => intro n acc; rfl
  | succ fuel ih =>
    intro n acc
    rw [natDecGo, natDecGo]
    by_cases h : n < 10
    · rw [if_pos h, if_pos h]
      rfl
    · rw [if_neg h, if_neg h, ih (n / 10) (digitChar (n % 10) :: acc),
        ih (n / 10) [digitChar (n % 10)]]
      simp

theorem natDecGo_digits :
    ∀ (fuel n : Nat), ∀ c ∈ natDecGo fuel n [], c.isDigit = true := by
  intro fuel
  induction fuel with
  | zero => intro n c hc; cases hc
  | succ fuel ih =>
    intro n c hc
    rw [natDecGo] at hc
    by_cases h : n < 10
    · rw [if_pos h] at hc
      rcases List.mem_cons.mp hc with rfl | hc
      · exact digitChar_isDigit n h
      · cases hc
    · rw [if_neg h, natDecGo_acc fuel (n / 10) [digitChar (n % 10)]] at hc
      rcases List.mem_append.mp hc with hc | hc
      · exact ih (n / 10) c hc
      · rcases List.mem_cons.mp hc with rfl | hc
        · exact digitChar_isDigit _ (Nat.mod_lt _ (by norm_num))
        · cases hc

theorem natDec_digits (n : Nat) : ∀ c ∈ natDec n, c.isDigit = true :=
  natDecGo_digits (n + 1) n

theorem natDecGo_ne_nil (fuel n : Nat) (h : 0 < fuel) :
    natDecGo fuel n [] ≠ [] := by
  cases fuel with
  | zero => omega
  | succ fuel =>
    rw [natDecGo]
    by_cases h10 : n < 10
    · rw [if_pos h10]
      simp
    · rw [if_neg h10, natDecGo_acc fuel (n / 10) [digitChar (n % 10)]]
      simp

theorem natDec_ne_nil (n : Nat) : natDec n ≠ [] :=
  natDecGo_ne_nil (n + 1) n (by omega)

theorem digitsToNat_append_digit (base : Nat) (xs : List Char) (c : Char)
    (hxs : ∀ a ∈ xs, a ≠ '_') (hc : c ≠ '_') :
    digitsToNat base (xs ++ [c]) = digitsToNat base xs * base + charVal c := by
  rw [digitsToNat, digitsToNat, List.filter_append]
  have h1 : xs.filter (fun c => c ≠ '_') = xs := by
    rw [List.filter_eq_self]
    intro a ha
    simpa using hxs a ha
  have h2 : [c].filter (fun c => c ≠ '_') = [c] := by
    simp [hc]
  rw [h1, h2, List.foldl_append]
  rfl

theorem natDec_val :
    ∀ (fuel n : Nat), n < 10 ^ fuel →
      digitsToNat 10 (natDecGo fuel n []) = n := by
  intro fuel
  induction fuel with
  | zero =>
    intro n h
    have hn : n = 0 := by simpa using h
    subst hn
    rfl
  | succ fuel ih =>
    intro n h
    rw [natDecGo]
    by_cases h10 : n < 10
    · rw [if_pos h10]
      interval_cases n <;> rfl
    · rw [if_neg h10, natDecGo_acc fuel (n / 10) [digitChar (n % 10)]]
      rw [digitsToNat_append_digit 10 _ _
        (fun a ha => digit_ne_underscore a (natDecGo_digits fuel (n / 10) a ha))
        (digit_ne_underscore _ (digitChar_isDigit _ (Nat.mod_lt _ (by norm_num))))]
      have hdiv : n / 10 < 10 ^ fuel := by
        rw [Nat.div_lt_iff_lt_mul (by norm_num)]
        calc n < 10 ^ (fuel + 1) := h
        _ = 10 ^ fuel * 10 := by rw [Nat.pow_succ]
      rw [ih (n / 10) hdiv,
        charVal_digitChar (n % 10) (Nat.mod_lt _ (by norm_num))]
      omega

theorem natDec_value (n : Nat) : digitsToNat 10 (natDec n) = n :=
  natDec_val (n + 1) n (by
    calc n < 10 ^ n := Nat.lt_pow_self (by norm_num) n
    _ ≤ 10 ^ (n + 1) := Nat.pow_le_pow_right (by norm_num) (by omega))

end Assembler

namespace Assembler

theorem hexDigitChar_base16 (n : Nat) (h : n < 16) :
    isBaseDigit 16 (hexDigitChar n) = true := by
  interval_cases n <;> rfl

theorem hexDigitChar_word (n : Nat) (h : n < 16) :
    isWordChar (hexDigitChar n) = true := by
  interval_cases n <;> rfl

theorem hexDigitChar_ne_underscore (n : Nat) (h : n < 16) :
    hexDigitChar n ≠ '_' := by
  interval_cases n <;> decide

theorem charVal_hexDigitChar (n : Nat) (h : n < 16) :
    charVal (hexDigitChar n) = n := by
  interval_cases n <;> rfl

theorem natHexGo_acc :
    ∀ (fuel n : Nat) (acc : List Char),
      natHexGo fuel n acc = natHexGo fuel n [] ++ acc := by
  intro fuel
  induction fuel with
  | zero => intro n acc; rfl
  | succ fuel ih =>
    intro n acc
    rw [natHexGo, natHexGo]
    by_cases h : n < 16
    · rw [if_pos h, if_pos h]
      rfl
    · rw [if_neg h, if_neg h, ih (n / 16) (hexDigitChar (n % 16) :: acc),
        ih (n / 16) [hexDigitChar (n % 16)]]
      simp

theorem natHexGo_digits :
    ∀ (fuel n : Nat), ∀ c ∈ natHexGo fuel n [],
      isBaseDigit 16 c = true ∧ isWordChar c = true ∧ c ≠ '_' := by
  intro fuel
  induction fuel with
  | zero => intro n c hc; cases hc
  | succ fuel ih =>
    intro n c hc
    rw [natHexGo] at hc
    by_cases h : n < 16
    · rw [if_pos h] at hc
      rcases List.mem_cons.mp hc with rfl | hc
      · exact ⟨hexDigitChar_base16 n h, hexDigitChar_word n h,
          hexDigitChar_ne_underscore n h⟩
      · cases hc
    · rw [if_neg h, natHexGo_acc fuel (n / 16) [hexDigitChar (n % 16)]] at hc
      rcases List.mem_append.mp hc with hc | hc
      · exact ih (n / 16) c hc
      · rcases List.mem_cons.mp hc with rfl | hc
        · have hm : n % 16 < 16 := Nat.mod_lt _ (by norm_num)
          exact ⟨hexDigitChar_base16 _ hm, hexDigitChar_word _ hm,
            hexDigitChar_ne_underscore _ hm⟩
        · cases hc

theorem natHexGo_ne_nil (fuel n : Nat) (h : 0 < fuel) :
    natHexGo fuel n [] ≠ [] := by
  cases fuel with
  | zero => omega
  | succ fuel =>
    rw [natHexGo]
    by_cases h16 : n < 16
    · rw [if_pos h16]
      simp
    · rw [if_neg h16, natHexGo_acc fuel (n / 16) [hexDigitChar (n % 16)]]
      simp

theorem natHex_val :
    ∀ (fuel n : Nat), n < 16 ^ fuel →
      digitsToNat 16 (natHexGo fuel n []) = n := by
  intro fuel
  induction fuel with
  | zero =>
    intro n h
    have hn : n = 0 := by simpa using h
    subst hn
    rfl
  | succ fuel ih =>
    intro n h
    rw [natHexGo]
    by_cases h16 : n < 16
    · rw [if_pos h16]
      interval_cases n <;> rfl
    · rw [if_neg h16, natHexGo_acc fuel (n / 16) [hexDigitChar (n % 16)]]
      rw [digitsToNat_append_digit 16 _ _
        (fun a ha => (natHexGo_digits fuel (n / 16) a ha).2.2)
        (hexDigitChar_ne_underscore _ (Nat.mod_lt _ (by norm_num)))]
      have hdiv : n / 16 < 16 ^ fuel := by
        rw [Nat.div_lt_iff_lt_mul (by norm_num)]
        calc n < 16 ^ (fuel + 1) := h
        _ = 16 ^ fuel * 16 := by rw [Nat.pow_succ]
      rw [ih (n / 16) hdiv,
        charVal_hexDigitChar (n % 16) (Nat.mod_lt _ (by norm_num))]
      omega

theorem natHex_value (n : Nat) : digitsToNat 16 (natHex n) = n :=
  natHex_val (n + 1) n (by
    calc n < 16 ^ n := Nat.lt_pow_self (by norm_num) n
    _ ≤ 16 ^ (n + 1) := Nat.pow_le_pow_right (by norm_num) (by omega))

theorem digitsToNat_zero_pad :
    ∀ (k : Nat) (base : Nat) (xs : List Char),
      digitsToNat base (List.replicate k '0' ++ xs) = digitsToNat base xs := by
  intro k
  induction k with
  | zero => intro base xs; rfl
  | succ k ih =>
    intro base xs
    rw [List.replicate_succ, List.cons_append]
    rw [show digitsToNat base ('0' :: (List.replicate k '0' ++ xs)) =
      digitsToNat base (List.replicate k '0' ++ xs) from by
        have hf : ('0' :: (List.replicate k '0' ++ xs)).filter
            (fun c => c ≠ '_') =
            '0' :: (List.replicate k '0' ++ xs).filter (fun c => c ≠ '_') := by
          simp
        have h0 : 0 * base + charVal '0' = 0 := by simp [charVal]
        rw [digitsToNat, digitsToNat, hf, List.foldl_cons, h0]]
    exact ih base xs

theorem hex4pad_digits (n : Nat) :
    ∀ c ∈ hex4pad n, isBaseDigit 16 c = true ∧ isWordChar c = true := by
  intro c hc
  rw [hex4pad] at hc
  rcases List.mem_append.mp hc with hc | hc
  · have := List.eq_of_mem_replicate hc
    subst this
    exact ⟨rfl, rfl⟩
  · exact ⟨(natHexGo_digits (n + 1) n c hc).1, (natHexGo_digits (n + 1) n c hc).2.1⟩

theorem hex4pad_value (n : Nat) : digitsToNat 16 (hex4pad n) = n := by
  rw [hex4pad, digitsToNat_zero_pad]
  exact natHex_value n

theorem hex4pad_ne_nil (n : Nat) : hex4pad n ≠ [] := by
  rw [hex4pad]
  intro h
  rcases List.append_eq_nil.mp h with ⟨_, h2⟩
  exact natHexGo_ne_nil (n + 1) n (by omega) h2

end Assembler

namespace Assembler

theorem commentSplit_none_of (c : Char) (rest : List Char)
    (h1 : c ≠ '#') (h2 : c ≠ '/') : commentSplit (c :: rest) = none := by
  rw [commentSplit]
  rw [if_neg h1, if_neg (fun hh => h2 hh.1), if_neg (fun hh => h2 hh.1)]

theorem skip_not_of (c : Char) (rest : List Char)
    (h1 : isSpaceChar c = false) (h2 : c ≠ '#') (h3 : c ≠ '/') :
    skip (c :: rest) = c :: rest :=
  skip_cons_not c rest h1 (commentSplit_none_of c rest h2 h3)

theorem skip_ws_append :
    ∀ (u t : List Char), (∀ c ∈ u, isSpaceChar c = true) →
      skip (u ++ t) = skip t := by
  intro u
  induction u with
  | nil => intro t _; rfl
  | cons c u ih =>
    intro t hu
    rw [List.cons_append,
      skip_cons_space c (u ++ t) (hu c (List.mem_cons_self _ _))]
    exact ih t (fun a ha => hu a (List.mem_cons_of_mem _ ha))

theorem space_spaces : ∀ c ∈ [' ', ' ', ' ', ' '], isSpaceChar c = true := by
  decide

theorem replicate_spaces (k : Nat) :
    ∀ c ∈ List.replicate k ' ', isSpaceChar c = true := by
  intro c hc
  have := List.eq_of_mem_replicate hc
  subst this
  rfl

theorem takeWhile_append_not (p : Char → Bool) :
    ∀ (u : List Char) (x : Char) (t : List Char),
      (∀ c ∈ u, p c = true) → p x = false →
      (u ++ x :: t).takeWhile p = u ∧ (u ++ x :: t).drop u.length = x :: t := by
  intro u
  induction u with
  | nil =>
    intro x t _ hx
    constructor
    · rw [List.nil_append, List.takeWhile_cons, hx]
      rfl
    · rfl
  | cons c u ih =>
    intro x t hu hx
    have h1 := ih x t (fun a ha => hu a (List.mem_cons_of_mem _ ha)) hx
    constructor
    · rw [List.cons_append, List.takeWhile_cons,
        hu c (List.mem_cons_self _ _)]
      rw [h1.1]
      rfl
    · rw [List.cons_append, List.length_cons, List.drop_succ_cons]
      exact h1.2

theorem consume_identifier_append (id rest : List Char)
    (hne : rest.head?.all (fun c => !isWordChar c) = true) :
    consume_identifier id (id ++ rest) = some (skip rest) := by
  rw [consume_identifier, if_pos ⟨by rw [List.take_left], by
    rw [List.drop_left]; exact hne⟩, List.drop_left]

theorem consume_label_append (w : List Char) (t : List Char)
    (hw : w ≠ []) (hall : ∀ c ∈ w, isWordChar c = true) :
    consume_label (w ++ ':' :: t) = some (String.mk w, skip t) := by
  have h1 := takeWhile_append_not isWordChar w ':' t hall rfl
  rw [consume_label]
  simp only [h1.1, h1.2]
  rw [if_pos ⟨hw, rfl⟩]
  rfl

theorem parse_char_cons (c : Char) (t : List Char) :
    parse_char c (c :: t) = .ok (skip t) := by
  rw [parse_char]
  simp

end Assembler

namespace Assembler

theorem digitChar_toNat (n : Nat) (h : n < 10) :
    (digitChar n).toNat = 48 + n := by
  interval_cases n <;> rfl

theorem digitChar_ge_zero (n : Nat) (h : n < 10) : '0' ≤ digitChar n := by
  interval_cases n <;> decide

theorem digitChar_le_six (n : Nat) (h : n ≤ 6) : digitChar n ≤ '6' := by
  interval_cases n <;> decide

theorem natDec_single (n : Nat) (h : n < 10) : natDec n = [digitChar n] := by
  rw [natDec, natDecGo, if_pos h]

theorem parse_register_append (n : Nat) (hn : n ≤ 6) (c : Char)
    (t : List Char) (hc : isWordChar c = false) :
    parse_register ('r' :: (natDec n ++ c :: t)) =
      .ok (.reg n, skip (c :: t)) := by
  rw [natDec_single n (by omega), List.singleton_append]
  rw [parse_register]
  rw [if_pos ⟨⟨digitChar_ge_zero n (by omega), digitChar_le_six n hn⟩,
    by simp [hc]⟩]
  have hv : (digitChar n).toNat - '0'.toNat = n := by
    rw [digitChar_toNat n (by omega)]
    rw [show ('0').toNat = 48 from rfl]
    omega
  rw [hv]

theorem parse_register_pair_eq (x y : Nat) (hx : x ≤ 6) (hy : y ≤ 6)
    (c : Char) (t : List Char) (hc : isWordChar c = false) :
    parse_register_pair ('r' :: (natDec x ++ 'r' :: (natDec y ++ c :: t))) =
      if x = y + 1 then .ok (.regPair y, skip (c :: t))
      else .error (.regPairNotConsecutive x y) := by
  rw [natDec_single x (by omega), natDec_single y (by omega),
    List.singleton_append, List.singleton_append]
  rw [parse_register_pair]
  rw [if_pos ⟨⟨digitChar_ge_zero x (by omega), digitChar_le_six x hx⟩,
    ⟨digitChar_ge_zero y (by omega), digitChar_le_six y hy⟩,
    by simp [hc]⟩]
  have hvx : (digitChar x).toNat - '0'.toNat = x := by
    rw [digitChar_toNat x (by omega)]
    rw [show ('0').toNat = 48 from rfl]
    omega
  have hvy : (digitChar y).toNat - '0'.toNat = y := by
    rw [digitChar_toNat y (by omega)]
    rw [show ('0').toNat = 48 from rfl]
    omega
  rw [hvx, hvy]
  by_cases hxy : x = y + 1
  · rw [if_neg (by omega), if_pos hxy]
  · rw [if_pos hxy, if_neg hxy]

end Assembler

namespace Assembler

theorem take2_ne_pfx (d : Char) (ds : List Char) (z : Char) (t : List Char)
    (x : Char) (hds : ∀ a ∈ ds, a.isDigit = true) (hz : z.isDigit = false)
    (hzx : z ≠ x) (hx : x.isDigit = false) :
    ¬ ((d :: (ds ++ z :: t)).take 2 = ['0', x]) := by
  cases ds with
  | nil =>
    intro h
    rw [List.nil_append, List.take_succ_cons, List.take_succ_cons,
      List.take_zero] at h
    injection h with h1 h2
    injection h2 with h2 _
    exact hzx h2
  | cons e es =>
    intro h
    rw [List.cons_append, List.take_succ_cons, List.take_succ_cons,
      List.take_zero] at h
    injection h with h1 h2
    injection h2 with h2 _
    rw [h2] at hds
    have := hds x (List.mem_cons_self _ _)
    rw [this] at hx
    cases hx

theorem parse_immediate_dec (d : Char) (ds : List Char) (t : List Char)
    (hd : d.isDigit = true) (hds : ∀ a ∈ ds, a.isDigit = true) :
    parse_immediate ((d :: ds) ++ '\n' :: t) =
      .ok (.imm (digitsToNat 10 (d :: ds) : Int), skip t) := by
  have hall : ∀ a ∈ d :: ds, a.isDigit = true := by
    intro a ha
    rcases List.mem_cons.mp ha with rfl | ha
    · exact hd
    · exact hds a ha
  have hrun := takeWhile_append_not (isBaseDigit 10) (d :: ds) '\n' t
    (fun a ha => digit_isBase10 a (hall a ha)) rfl
  simp only [List.cons_append] at hrun
  have h2x := take2_ne_pfx d ds '\n' t 'x' hds rfl (by decide) rfl
  have h2o := take2_ne_pfx d ds '\n' t 'o' hds rfl (by decide) rfl
  have h2b := take2_ne_pfx d ds '\n' t 'b' hds rfl (by decide) rfl
  rw [parse_immediate]
  simp only [List.cons_append, List.head?_cons, Option.some.injEq,
    eq_false (digit_ne_minus d hd), eq_false (digit_ne_plus d hd),
    or_self, if_false, eq_false h2x, eq_false h2o, eq_false h2b,
    eq_self_iff_true, if_true, hrun.1, hrun.2]
  rw [if_pos ⟨by simp, by simp [isWordChar]⟩]
  rw [skip_cons_space '\n' t rfl]

theorem parse_immediate_neg (d : Char) (ds : List Char) (t : List Char)
    (hd : d.isDigit = true) (hds : ∀ a ∈ ds, a.isDigit = true) :
    parse_immediate ('-' :: ((d :: ds) ++ '\n' :: t)) =
      .ok (.imm (-(digitsToNat 10 (d :: ds) : Int)), skip t) := by
  have hall : ∀ a ∈ d :: ds, a.isDigit = true := by
    intro a ha
    rcases List.mem_cons.mp ha with rfl | ha
    · exact hd
    · exact hds a ha
  have hrun := takeWhile_append_not (isBaseDigit 10) (d :: ds) '\n' t
    (fun a ha => digit_isBase10 a (hall a ha)) rfl
  simp only [List.cons_append] at hrun
  have h2x := take2_ne_pfx d ds '\n' t 'x' hds rfl (by decide) rfl
  have h2o := take2_ne_pfx d ds '\n' t 'o' hds rfl (by decide) rfl
  have h2b := take2_ne_pfx d ds '\n' t 'b' hds rfl (by decide) rfl
  rw [parse_immediate]
  simp only [List.cons_append, List.head?_cons, Option.some.injEq,
    eq_self_iff_true, true_or, if_true, List.tail_cons,
    eq_false h2x, eq_false h2o, eq_false h2b, if_false,
    hrun.1, hrun.2]
  rw [if_pos ⟨by simp, by simp [isWordChar]⟩]
  rw [skip_cons_space '\n' t rfl]

/-- Parsing the printed decimal form of any integer immediate recovers the
integer. -/
theorem parse_immediate_intDec (v : Int) (t : List Char) :
    parse_immediate (intDec v ++ '\n' :: t) = .ok (.imm v, skip t) := by
  by_cases hv : v < 0
  · rw [intDec, if_pos hv]
    cases heq : natDec v.natAbs with
    | nil => exact absurd heq (natDec_ne_nil _)
    | cons d ds =>
      have hall : ∀ a ∈ d :: ds, a.isDigit = true := by
        rw [← heq]
        exact natDec_digits v.natAbs
      rw [List.cons_append]
      rw [parse_immediate_neg d ds t (hall d (List.mem_cons_self _ _))
        (fun a ha => hall a (List.mem_cons_of_mem _ ha))]
      rw [← heq, natDec_value]
      have : -(v.natAbs : Int) = v := by omega
      rw [this]
  · rw [intDec, if_neg hv]
    cases heq : natDec v.toNat with
    | nil => exact absurd heq (natDec_ne_nil _)
    | cons d ds =>
      have hall : ∀ a ∈ d :: ds, a.isDigit = true := by
        rw [← heq]
        exact natDec_digits v.toNat
      rw [parse_immediate_dec d ds t (hall d (List.mem_cons_self _ _))
        (fun a ha => hall a (List.mem_cons_of_mem _ ha))]
      rw [← heq, natDec_value]
      have : (v.toNat : Int) = v := by omega
      rw [this]

end Assembler

namespace Assembler

theorem word_ne_minus (c : Char) (h : isWordChar c = true) : c ≠ '-' := by
  intro he
  rw [he] at h
  cases h

theorem word_ne_plus (c : Char) (h : isWordChar c = true) : c ≠ '+' := by
  intro he
  rw [he] at h
  cases h

theorem space_not_word (c : Char) (h : isSpaceChar c = true) :
    isWordChar c = false := by
  rw [isSpaceChar] at h
  simp only [Bool.or_eq_true, decide_eq_true_eq] at h
  rcases h with ((((h | h) | h) | h) | h) | h <;> subst h <;> rfl

theorem word_not_space (c : Char) (h : isWordChar c = true) :
    isSpaceChar c = false := by
  cases hs : isSpaceChar c with
  | false => rfl
  | true =>
    rw [space_not_word c hs] at h
    cases h

theorem word_ne_hash (c : Char) (h : isWordChar c = true) : c ≠ '#' := by
  intro he
  rw [he] at h
  cases h

theorem word_ne_slash (c : Char) (h : isWordChar c = true) : c ≠ '/' := by
  intro he
  rw [he] at h
  cases h

/-- `skip` leaves input alone when it starts with a word character. -/
theorem word_skip (c : Char) (h : isWordChar c = true) (r : List Char) :
    skip (c :: r) = c :: r :=
  skip_not_of c r (word_not_space c h) (word_ne_hash c h) (word_ne_slash c h)

theorem lowerName_facts (cond : Condition) :
    (Condition.lowerName cond).toList ≠ [] ∧
    (∀ a ∈ (Condition.lowerName cond).toList,
      decide ('a' ≤ a ∧ a ≤ 'z') = true) ∧
    CONDITION_BY_NAME (String.mk (Condition.lowerName cond).toList) =
      some cond := by
  cases cond <;> exact ⟨by decide, by decide, rfl⟩

theorem skip_lowerName (cond : Condition) (r : List Char) :
    skip ((Condition.lowerName cond).toList ++ r) =
      (Condition.lowerName cond).toList ++ r := by
  cases cond <;>
    exact skip_not_of _ _ (by decide) (by decide) (by decide)

theorem parse_condition_name (w : List Char) (cond : Condition)
    (t : List Char) (hw : w ≠ [])
    (hall : ∀ a ∈ w, decide ('a' ≤ a ∧ a ≤ 'z') = true)
    (hlk : CONDITION_BY_NAME (String.mk w) = some cond) :
    parse_condition (w ++ ' ' :: t) = .ok (.cond cond, skip (' ' :: t)) := by
  have hrun := takeWhile_append_not (fun c => decide ('a' ≤ c ∧ c ≤ 'z'))
    w ' ' t hall (by decide)
  rw [parse_condition]
  simp only [hrun.1, hrun.2]
  rw [if_pos hw, hlk]

theorem parse_condition_cond (cond : Condition) (t : List Char) :
    parse_condition ((Condition.lowerName cond).toList ++ ' ' :: t) =
      .ok (.cond cond, skip (' ' :: t)) :=
  parse_condition_name _ cond t (lowerName_facts cond).1
    (lowerName_facts cond).2.1 (lowerName_facts cond).2.2

end Assembler

namespace Assembler

/-- Parsing the printed `.org` operand `0x{v:04X}` recovers the value. -/
theorem parse_immediate_org (v : Int) (hv : 0 ≤ v) (t : List Char) :
    parse_immediate ('0' :: 'x' :: (intHex4 v ++ '\n' :: t)) =
      .ok (.imm v, skip t) := by
  rw [show intHex4 v = hex4pad v.toNat from by
    rw [intHex4, if_neg (by omega)]]
  have hrun := takeWhile_append_not (isBaseDigit 16) (hex4pad v.toNat) '\n' t
    (fun a ha => (hex4pad_digits v.toNat a ha).1) rfl
  have hne := hex4pad_ne_nil v.toNat
  have h2 : (('0' :: 'x' :: (hex4pad v.toNat ++ '\n' :: t)).take 2 =
      (['0', 'x'] : List Char)) = True := by
    rw [List.take_succ_cons, List.take_succ_cons, List.take_zero]
    exact eq_true rfl
  have hdrop : ('0' :: 'x' :: (hex4pad v.toNat ++ '\n' :: t)).drop 2 =
      hex4pad v.toNat ++ '\n' :: t := rfl
  rw [parse_immediate]
  simp only [List.head?_cons, Option.some.injEq,
    eq_false (by decide : ¬ (('0' : Char) = '-')),
    eq_false (by decide : ¬ (('0' : Char) = '+')),
    or_self, if_false, h2, if_true, hdrop,
    (by simp : (((16 : Nat) = 10)) = False),
    hrun.1, hrun.2]
  rw [if_pos ⟨hne, by simp [isWordChar]⟩]
  rw [hex4pad_value]
  rw [show ((v.toNat : Int)) = v from by omega]
  rw [skip_cons_space '\n' t rfl]

theorem parse_offset_label (w : List Char) (t : List Char)
    (hw : w ≠ []) (hall : ∀ a ∈ w, isWordChar a = true)
    (hbase : offsetBase w = none) :
    parse_offset (w ++ '\n' :: t) =
      .ok (.offset ⟨String.mk w, none, none⟩, skip t) := by
  obtain ⟨d, ds, rfl⟩ : ∃ d ds, w = d :: ds := by
    cases w with
    | nil => exact absurd rfl hw
    | cons d ds => exact ⟨d, ds, rfl⟩
  have hd : isWordChar d = true := hall d (List.mem_cons_self _ _)
  have hrun := takeWhile_append_not isWordChar (d :: ds) '\n' t hall rfl
  simp only [List.cons_append] at hrun
  rw [parse_offset]
  simp only [List.cons_append, List.head?_cons, Option.some.injEq,
    eq_false (word_ne_minus d hd), eq_false (word_ne_plus d hd),
    or_self, if_false, hrun.1, hrun.2,
    eq_false (List.cons_ne_nil d ds), hbase]
  rw [skip_cons_space '\n' t rfl]

theorem offsetBase_natDec (d : Char) (ds : List Char)
    (hall : ∀ a ∈ d :: ds, a.isDigit = true) :
    offsetBase (d :: ds) = some (10, d :: ds) := by
  rw [offsetBase, if_pos ⟨List.cons_ne_nil d ds, by
    rw [List.all_eq_true]
    intro a ha
    exact digit_isBase10 a (hall a ha)⟩]

theorem parse_offset_plus (n : Nat) (t : List Char) :
    parse_offset ('+' :: (natDec n ++ '\n' :: t)) =
      .ok (.imm (n : Int), skip t) := by
  cases heq : natDec n with
  | nil => exact absurd heq (natDec_ne_nil _)
  | cons d ds =>
    have hall : ∀ a ∈ d :: ds, a.isDigit = true := by
      rw [← heq]
      exact natDec_digits n
    have hrun := takeWhile_append_not isWordChar (d :: ds) '\n' t
      (fun a ha => digit_isWord a (hall a ha)) rfl
    simp only [List.cons_append] at hrun
    rw [parse_offset]
    simp only [List.cons_append, List.head?_cons, Option.some.injEq,
      eq_false (by decide : ¬ (('+' : Char) = '-')), eq_self_iff_true,
      or_true, if_true, if_false, List.tail_cons, hrun.1, hrun.2,
      eq_false (List.cons_ne_nil d ds), offsetBase_natDec d ds hall]
    rw [← heq, natDec_value]
    rw [skip_cons_space '\n' t rfl]

theorem parse_offset_minus (n : Nat) (t : List Char) :
    parse_offset ('-' :: (natDec n ++ '\n' :: t)) =
      .ok (.imm (-(n : Int)), skip t) := by
  cases heq : natDec n with
  | nil => exact absurd heq (natDec_ne_nil _)
  | cons d ds =>
    have hall : ∀ a ∈ d :: ds, a.isDigit = true := by
      rw [← heq]
      exact natDec_digits n
    have hrun := takeWhile_append_not isWordChar (d :: ds) '\n' t
      (fun a ha => digit_isWord a (hall a ha)) rfl
    simp only [List.cons_append] at hrun
    rw [parse_offset]
    simp only [List.cons_append, List.head?_cons, Option.some.injEq,
      eq_self_iff_true, true_or, if_true, if_false, List.tail_cons,
      hrun.1, hrun.2, eq_false (List.cons_ne_nil d ds),
      offsetBase_natDec d ds hall]
    rw [← heq, natDec_value]
    rw [skip_cons_space '\n' t rfl]

end Assembler

namespace Assembler

theorem skip_comma (r : List Char) : skip (',' :: r) = ',' :: r :=
  skip_not_of ',' r (by decide) (by decide) (by decide)

theorem skip_rchar (r : List Char) : skip ('r' :: r) = 'r' :: r :=
  skip_not_of 'r' r (by decide) (by decide) (by decide)

theorem skip_space (r : List Char) : skip (' ' :: r) = skip r :=
  skip_cons_space ' ' r rfl

theorem skip_nl (r : List Char) : skip ('\n' :: r) = skip r :=
  skip_cons_space '\n' r rfl

theorem skip_replicate (K : Nat) (r : List Char) :
    skip (List.replicate K ' ' ++ r) = skip r :=
  skip_ws_append _ r (replicate_spaces K)

theorem skip_intDec (v : Int) (r : List Char) :
    skip (intDec v ++ r) = intDec v ++ r := by
  rw [intDec]
  by_cases hv : v < 0
  · rw [if_pos hv]
    rw [List.cons_append]
    exact skip_not_of '-' _ (by decide) (by decide) (by decide)
  · rw [if_neg hv]
    cases heq : natDec v.toNat with
    | nil => exact absurd heq (natDec_ne_nil _)
    | cons d ds =>
      rw [List.cons_append]
      exact word_skip d (digit_isWord d
        (natDec_digits v.toNat d (by rw [heq]; exact List.mem_cons_self _ _))) _

theorem args_noArgs (op : Opcode) (cs : List Char) :
    parse_args op .noArgs cs = .ok (⟨op, [], none, none⟩, cs) := rfl

theorem args_r (op : Opcode) (n : Nat) (hn : n ≤ 6) (t : List Char) :
    parse_args op .r ('r' :: (natDec n ++ '\n' :: t)) =
      .ok (⟨op, [.reg n], none, none⟩, skip t) := by
  have hr := parse_register_append n hn '\n' t (by decide)
  rw [parse_args]
  simp only [hr, skip_nl, exbind_ok]

theorem args_rr (op : Opcode) (n m : Nat) (hn : n ≤ 6) (hm : m ≤ 6)
    (t : List Char) :
    parse_args op .rr
      ('r' :: (natDec n ++ ',' :: ' ' :: ('r' :: (natDec m ++ '\n' :: t)))) =
      .ok (⟨op, [.reg n, .reg m], none, none⟩, skip t) := by
  have hr1 := parse_register_append n hn ','
    (' ' :: ('r' :: (natDec m ++ '\n' :: t))) (by decide)
  have hr2 := parse_register_append m hm '\n' t (by decide)
  rw [parse_args]
  simp only [hr1, hr2, skip_comma, skip_space, skip_rchar, skip_nl,
    parse_char_cons, exbind_ok]

theorem args_ri (op : Opcode) (n : Nat) (hn : n ≤ 6) (v : Int)
    (t : List Char) :
    parse_args op .ri
      ('r' :: (natDec n ++ ',' :: ' ' :: (intDec v ++ '\n' :: t))) =
      .ok (⟨op, [.reg n, .imm v], none, none⟩, skip t) := by
  have hr1 := parse_register_append n hn ','
    (' ' :: (intDec v ++ '\n' :: t)) (by decide)
  have hi := parse_immediate_intDec v t
  rw [parse_args]
  simp only [hr1, hi, skip_comma, skip_space, skip_intDec,
    parse_char_cons, exbind_ok]

theorem args_pair (op : Opcode) (n : Nat) (hn : n ≤ 5) (t : List Char) :
    parse_args op .pair
      ('r' :: (natDec (n + 1) ++ 'r' :: (natDec n ++ '\n' :: t))) =
      .ok (⟨op, [.regPair n], none, none⟩, skip t) := by
  have hp := parse_register_pair_eq (n + 1) n (by omega) (by omega) '\n' t
    (by decide)
  rw [parse_args]
  simp only [hp, eq_self_iff_true, if_true, skip_nl, exbind_ok]

theorem args_off_label (op : Opcode) (s : String)
    (hs1 : s.toList ≠ []) (hs2 : ∀ a ∈ s.toList, isWordChar a = true)
    (hs3 : offsetBase s.toList = none) (t : List Char) :
    parse_args op .off (s.toList ++ '\n' :: t) =
      .ok (⟨op, [.offset ⟨s, none, none⟩], none, none⟩, skip t) := by
  have ho := parse_offset_label s.toList t hs1 hs2 hs3
  rw [parse_args]
  simp only [ho, exbind_ok]
  rfl

theorem args_off_imm (op : Opcode) (v : Int) (t : List Char) :
    parse_args op .off
      ((if 0 ≤ v then '+' :: natDec v.toNat else intDec v) ++ '\n' :: t) =
      .ok (⟨op, [.imm v], none, none⟩, skip t) := by
  by_cases hv : 0 ≤ v
  · rw [if_pos hv, List.cons_append]
    have ho := parse_offset_plus v.toNat t
    rw [parse_args]
    simp only [ho, exbind_ok]
    rw [show ((v.toNat : Int)) = v from by omega]
  · rw [if_neg hv, intDec, if_pos (by omega), List.cons_append]
    have ho := parse_offset_minus v.natAbs t
    rw [parse_args]
    simp only [ho, exbind_ok]
    rw [show (-(v.natAbs : Int)) = v from by omega]

theorem args_condPair (op : Opcode) (cond : Condition) (n : Nat)
    (hn : n ≤ 5) (K : Nat) (t : List Char) :
    parse_args op .condPair
      ('.' :: ((Condition.lowerName cond).toList ++ ' ' ::
        (List.replicate K ' ' ++
          ('r' :: (natDec (n + 1) ++ 'r' :: (natDec n ++ '\n' :: t)))))) =
      .ok (⟨op, [.cond cond, .regPair n], none, none⟩, skip t) := by
  have hc := parse_condition_cond cond
    (List.replicate K ' ' ++
      ('r' :: (natDec (n + 1) ++ 'r' :: (natDec n ++ '\n' :: t))))
  have hp := parse_register_pair_eq (n + 1) n (by omega) (by omega) '\n' t
    (by decide)
  rw [parse_args]
  simp only [parse_char_cons, skip_lowerName, hc, skip_space,
    skip_replicate, skip_rchar, hp, eq_self_iff_true, if_true, skip_nl,
    exbind_ok]

theorem args_condReg (op : Opcode) (cond : Condition) (n : Nat)
    (hn : n ≤ 6) (K : Nat) (t : List Char) :
    parse_args op .condReg
      ('.' :: ((Condition.lowerName cond).toList ++ ' ' ::
        (List.replicate K ' ' ++ ('r' :: (natDec n ++ '\n' :: t))))) =
      .ok (⟨op, [.cond cond, .reg n], none, none⟩, skip t) := by
  have hc := parse_condition_cond cond
    (List.replicate K ' ' ++ ('r' :: (natDec n ++ '\n' :: t)))
  have hr := parse_register_append n hn '\n' t (by decide)
  rw [parse_args]
  simp only [parse_char_cons, skip_lowerName, hc, skip_space,
    skip_replicate, skip_rchar, hr, skip_nl, exbind_ok]

theorem args_condOff_label (op : Opcode) (cond : Condition) (s : String)
    (hs1 : s.toList ≠ []) (hs2 : ∀ a ∈ s.toList, isWordChar a = true)
    (hs3 : offsetBase s.toList = none) (K : Nat) (t : List Char) :
    parse_args op .condOff
      ('.' :: ((Condition.lowerName cond).toList ++ ' ' ::
        (List.replicate K ' ' ++ (s.toList ++ '\n' :: t)))) =
      .ok (⟨op, [.cond cond, .offset ⟨s, none, none⟩], none, none⟩,
        skip t) := by
  have hc := parse_condition_cond cond
    (List.replicate K ' ' ++ (s.toList ++ '\n' :: t))
  have hskw : skip (s.toList ++ '\n' :: t) = s.toList ++ '\n' :: t := by
    obtain ⟨d, ds, heq⟩ : ∃ d ds, s.toList = d :: ds := by
      cases hs : s.toList with
      | nil => exact absurd hs hs1
      | cons d ds => exact ⟨d, ds, rfl⟩
    rw [heq, List.cons_append]
    exact word_skip d (hs2 d (by rw [heq]; exact List.mem_cons_self _ _)) _
  have ho := parse_offset_label s.toList t hs1 hs2 hs3
  rw [parse_args]
  simp only [parse_char_cons, skip_lowerName, hc, skip_space,
    skip_replicate, hskw, ho, exbind_ok]
  rfl

theorem args_condOff_imm (op : Opcode) (cond : Condition) (v : Int)
    (K : Nat) (t : List Char) :
    parse_args op .condOff
      ('.' :: ((Condition.lowerName cond).toList ++ ' ' ::
        (List.replicate K ' ' ++
          ((if 0 ≤ v then '+' :: natDec v.toNat else intDec v) ++
            '\n' :: t)))) =
      .ok (⟨op, [.cond cond, .imm v], none, none⟩, skip t) := by
  have hc := parse_condition_cond cond
    (List.replicate K ' ' ++
      ((if 0 ≤ v then '+' :: natDec v.toNat else intDec v) ++ '\n' :: t))
  rw [parse_args]
  by_cases hv : 0 ≤ v
  · rw [if_pos hv] at hc ⊢
    rw [List.cons_append] at hc ⊢
    have ho := parse_offset_plus v.toNat t
    simp only [parse_char_cons, skip_lowerName, hc, skip_space,
      skip_replicate,
      skip_not_of '+' _ (by decide) (by decide) (by decide), ho, exbind_ok]
    rw [show ((v.toNat : Int)) = v from by omega]
  · rw [if_neg hv, intDec, if_pos (by omega)] at hc ⊢
    rw [List.cons_append] at hc ⊢
    have ho := parse_offset_minus v.natAbs t
    simp only [parse_char_cons, skip_lowerName, hc, skip_space,
      skip_replicate,
      skip_not_of '-' _ (by decide) (by decide) (by decide), ho, exbind_ok]
    rw [show (-(v.natAbs : Int)) = v from by omega]

theorem args_condRR (op : Opcode) (cond : Condition) (n m : Nat)
    (hn : n ≤ 6) (hm : m ≤ 6) (K : Nat) (t : List Char) :
    parse_args op .condRR
      ('.' :: ((Condition.lowerName cond).toList ++ ' ' ::
        (List.replicate K ' ' ++
          ('r' :: (natDec n ++ ',' :: ' ' ::
            ('r' :: (natDec m ++ '\n' :: t))))))) =
      .ok (⟨op, [.cond cond, .reg n, .reg m], none, none⟩, skip t) := by
  have hc := parse_condition_cond cond
    (List.replicate K ' ' ++
      ('r' :: (natDec n ++ ',' :: ' ' :: ('r' :: (natDec m ++ '\n' :: t)))))
  have hr1 := parse_register_append n hn ','
    (' ' :: ('r' :: (natDec m ++ '\n' :: t))) (by decide)
  have hr2 := parse_register_append m hm '\n' t (by decide)
  rw [parse_args]
  simp only [parse_char_cons, skip_lowerName, hc, skip_space,
    skip_replicate, skip_rchar, hr1, hr2, skip_comma, skip_nl, exbind_ok]

theorem args_condRI (op : Opcode) (cond : Condition) (n : Nat)
    (hn : n ≤ 6) (v : Int) (K : Nat) (t : List Char) :
    parse_args op .condRI
      ('.' :: ((Condition.lowerName cond).toList ++ ' ' ::
        (List.replicate K ' ' ++
          ('r' :: (natDec n ++ ',' :: ' ' :: (intDec v ++ '\n' :: t)))))) =
      .ok (⟨op, [.cond cond, .reg n, .imm v], none, none⟩, skip t) := by
  have hc := parse_condition_cond cond
    (List.replicate K ' ' ++
      ('r' :: (natDec n ++ ',' :: ' ' :: (intDec v ++ '\n' :: t))))
  have hr1 := parse_register_append n hn ','
    (' ' :: (intDec v ++ '\n' :: t)) (by decide)
  have hi := parse_immediate_intDec v t
  rw [parse_args]
  simp only [parse_char_cons, skip_lowerName, hc, skip_space,
    skip_replicate, skip_rchar, hr1, skip_comma, skip_intDec, hi, exbind_ok]

end Assembler

namespace Assembler

/-- C10: register-pair token order is pinned high-then-low.  Parsing
`rXrY` succeeds exactly when `X = Y + 1`, the resulting operand stores
the low index `Y`, and a failure reports the consecutive-registers
error (rendered as shown at a sample pair); printing a register-pair
operand with low index `n` emits exactly `r{n+1}r{n}`, and parsing
that text recovers `n`. -/
theorem C10_register_pair_order (x y n : Nat) (hx : x ≤ 6) (hy : y ≤ 6)
    (hn : n ≤ 5) (t : List Char) :
    (parse_register_pair ('r' :: (natDec x ++ 'r' :: (natDec y ++ '\n' :: t))) =
      if x = y + 1 then .ok (.regPair y, skip ('\n' :: t))
      else .error (.regPairNotConsecutive x y)) ∧
    (x = y + 1 → y ≤ 5) ∧
    AsmError.render (.regPairNotConsecutive 3 1) =
      "registers in 16 bit register pair must be consecutive; got r3r1" ∧
    print_operand (.regPair n) = 'r' :: (natDec (n + 1) ++ 'r' :: natDec n) ∧
    parse_register_pair (print_operand (.regPair n) ++ '\n' :: t) =
      .ok (.regPair n, skip ('\n' :: t)) := by
  refine ⟨parse_register_pair_eq x y hx hy '\n' t (by decide),
    fun hxy => by omega, by decide, rfl, ?_⟩
  have h1 : print_operand (.regPair n) ++ '\n' :: t =
      'r' :: (natDec (n + 1) ++ 'r' :: (natDec n ++ '\n' :: t)) := by
    rw [show print_operand (.regPair n) =
      'r' :: (natDec (n + 1) ++ 'r' :: natDec n) from rfl]
    simp only [List.cons_append, List.append_assoc]
  rw [h1, parse_register_pair_eq (n + 1) n (by omega) (by omega) '\n' t
    (by decide)]
  rw [if_pos rfl]

end Assembler

namespace Assembler

/-- Closed instance of `C10_register_pair_order` at `x = 3`, `y = 1`,
`n = 4`. -/
theorem C10_register_pair_order_witness :
    (parse_register_pair
        ('r' :: (natDec 3 ++ 'r' :: (natDec 1 ++ '\n' :: []))) =
      if 3 = 1 + 1 then .ok (.regPair 1, skip ('\n' :: []))
      else .error (.regPairNotConsecutive 3 1)) ∧
    (3 = 1 + 1 → 1 ≤ 5) ∧
    AsmError.render (.regPairNotConsecutive 3 1) =
      "registers in 16 bit register pair must be consecutive; got r3r1" ∧
    print_operand (.regPair 4) = 'r' :: (natDec (4 + 1) ++ 'r' :: natDec 4) ∧
    parse_register_pair (print_operand (.regPair 4) ++ '\n' :: []) =
      .ok (.regPair 4, skip ('\n' :: [])) :=
  C10_register_pair_order 3 1 4 (by decide) (by decide) (by decide) []

end Assembler

namespace Assembler

/-- A single instruction whose printed body parses back to itself (with
the parser's trailing skip), for any continuation of the input. -/
def LineOk (inst : Instruction) : Prop :=
  ∃ body, print_body inst = .ok body ∧
    ∀ t, parse_instruction (skip (body ++ '\n' :: t)) = .ok (inst, skip t)

theorem skip_offexp (v : Int) (r : List Char) :
    skip ((if 0 ≤ v then '+' :: natDec v.toNat else intDec v) ++ r) =
      (if 0 ≤ v then '+' :: natDec v.toNat else intDec v) ++ r := by
  by_cases hv : 0 ≤ v
  · rw [if_pos hv, List.cons_append]
    exact skip_not_of '+' _ (by decide) (by decide) (by decide)
  · rw [if_neg hv]
    exact skip_intDec v r

theorem lineok_NOP : LineOk ⟨.NOP, [], none, none⟩ := by
  refine ⟨print_opcode "nop".toList, rfl, fun t => ?_⟩
  have h1 : print_opcode "nop".toList ++ '\n' :: t =
      ' ' :: ' ' :: ' ' :: ' ' :: 'n' :: 'o' :: 'p' ::
        (List.replicate 6 ' ' ++ '\n' :: t) := by
    rw [show print_opcode "nop".toList =
      ' ' :: ' ' :: ' ' :: ' ' :: 'n' :: 'o' :: 'p' :: List.replicate 6 ' '
      from rfl]
    simp only [List.cons_append, List.nil_append, List.append_assoc]
  rw [h1, skip_space, skip_space, skip_space, skip_space,
    skip_not_of 'n' _ (by decide) (by decide) (by decide)]
  rw [show parse_instruction
      ('n' :: 'o' :: 'p' :: (List.replicate 6 ' ' ++ '\n' :: t)) =
      parse_args .NOP .noArgs (skip (List.replicate 6 ' ' ++ '\n' :: t))
    from rfl]
  rw [skip_replicate, skip_nl, args_noArgs]

theorem lineok_JRO (n : Nat) (hn : n ≤ 6) :
    LineOk ⟨.JRO, [.reg n], none, none⟩ := by
  refine ⟨print_opcode "jro ".toList ++ ('r' :: natDec n), rfl, fun t => ?_⟩
  have h1 : (print_opcode "jro ".toList ++ ('r' :: natDec n)) ++ '\n' :: t =
      ' ' :: ' ' :: ' ' :: ' ' :: 'j' :: 'r' :: 'o' ::
        (List.replicate 6 ' ' ++ ('r' :: (natDec n ++ '\n' :: t))) := by
    rw [show print_opcode "jro ".toList =
      ' ' :: ' ' :: ' ' :: ' ' :: 'j' :: 'r' :: 'o' :: List.replicate 6 ' '
      from rfl]
    simp only [List.cons_append, List.nil_append, List.append_assoc]
  rw [h1, skip_space, skip_space, skip_space, skip_space,
    skip_not_of 'j' _ (by decide) (by decide) (by decide)]
  rw [show parse_instruction ('j' :: 'r' :: 'o' ::
      (List.replicate 6 ' ' ++ ('r' :: (natDec n ++ '\n' :: t)))) =
      parse_args .JRO .r (skip (List.replicate 6 ' ' ++
        ('r' :: (natDec n ++ '\n' :: t)))) from rfl]
  rw [skip_replicate, skip_rchar]
  exact args_r .JRO n hn t

theorem lineok_MV (n m : Nat) (hn : n ≤ 6) (hm : m ≤ 6) :
    LineOk ⟨.MV, [.reg n, .reg m], none, none⟩ := by
  refine ⟨print_opcode "mv ".toList ++ ('r' :: natDec n) ++ [',', ' '] ++
    ('r' :: natDec m), rfl, fun t => ?_⟩
  have h1 : (print_opcode "mv ".toList ++ ('r' :: natDec n) ++ [',', ' '] ++
      ('r' :: natDec m)) ++ '\n' :: t =
      ' ' :: ' ' :: ' ' :: ' ' :: 'm' :: 'v' ::
        (List.replicate 7 ' ' ++ ('r' :: (natDec n ++ ',' :: ' ' ::
          ('r' :: (natDec m ++ '\n' :: t))))) := by
    rw [show print_opcode "mv ".toList =
      ' ' :: ' ' :: ' ' :: ' ' :: 'm' :: 'v' :: List.replicate 7 ' '
      from rfl]
    simp only [List.cons_append, List.nil_append, List.append_assoc]
  rw [h1, skip_space, skip_space, skip_space, skip_space,
    skip_not_of 'm' _ (by decide) (by decide) (by decide)]
  rw [show parse_instruction ('m' :: 'v' ::
      (List.replicate 7 ' ' ++ ('r' :: (natDec n ++ ',' :: ' ' ::
        ('r' :: (natDec m ++ '\n' :: t)))))) =
      parse_args .MV .rr (skip (List.replicate 7 ' ' ++
        ('r' :: (natDec n ++ ',' :: ' ' ::
          ('r' :: (natDec m ++ '\n' :: t)))))) from rfl]
  rw [skip_replicate, skip_rchar]
  exact args_rr .MV n m hn hm t

end Assembler

namespace Assembler

theorem lineok_LDI (n : Nat) (hn : n ≤ 6) (v : Int) :
    LineOk ⟨.LDI, [.reg n, .imm v], none, none⟩ := by
  refine ⟨print_opcode "ldi ".toList ++ ('r' :: natDec n) ++ [',', ' '] ++
    intDec v, rfl, fun t => ?_⟩
  have h1 : (print_opcode "ldi ".toList ++ ('r' :: natDec n) ++ [',', ' '] ++
      intDec v) ++ '\n' :: t =
      ' ' :: ' ' :: ' ' :: ' ' :: 'l' :: 'd' :: 'i' ::
        (List.replicate 6 ' ' ++ ('r' :: (natDec n ++ ',' :: ' ' ::
          (intDec v ++ '\n' :: t)))) := by
    rw [show print_opcode "ldi ".toList =
      ' ' :: ' ' :: ' ' :: ' ' :: 'l' :: 'd' :: 'i' :: List.replicate 6 ' '
      from rfl]
    simp only [List.cons_append, List.nil_append, List.append_assoc]
  rw [h1, skip_space, skip_space, skip_space, skip_space,
    skip_not_of 'l' _ (by decide) (by decide) (by decide)]
  rw [show parse_instruction ('l' :: 'd' :: 'i' ::
      (List.replicate 6 ' ' ++ ('r' :: (natDec n ++ ',' :: ' ' ::
        (intDec v ++ '\n' :: t))))) =
      parse_args .LDI .ri (skip (List.replicate 6 ' ' ++
        ('r' :: (natDec n ++ ',' :: ' ' ::
          (intDec v ++ '\n' :: t))))) from rfl]
  rw [skip_replicate, skip_rchar]
  exact args_ri .LDI n hn v t

theorem lineok_JR (n : Nat) (hn : n ≤ 5) :
    LineOk ⟨.JR, [.regPair n], none, none⟩ := by
  refine ⟨print_opcode "jr ".toList ++
    ('r' :: (natDec (n + 1) ++ 'r' :: natDec n)), rfl, fun t => ?_⟩
  have h1 : (print_opcode "jr ".toList ++
      ('r' :: (natDec (n + 1) ++ 'r' :: natDec n))) ++ '\n' :: t =
      ' ' :: ' ' :: ' ' :: ' ' :: 'j' :: 'r' ::
        (List.replicate 7 ' ' ++ ('r' :: (natDec (n + 1) ++ 'r' ::
          (natDec n ++ '\n' :: t)))) := by
    rw [show print_opcode "jr ".toList =
      ' ' :: ' ' :: ' ' :: ' ' :: 'j' :: 'r' :: List.replicate 7 ' '
      from rfl]
    simp only [List.cons_append, List.nil_append, List.append_assoc]
  rw [h1, skip_space, skip_space, skip_space, skip_space,
    skip_not_of 'j' _ (by decide) (by decide) (by decide)]
  rw [show parse_instruction ('j' :: 'r' ::
      (List.replicate 7 ' ' ++ ('r' :: (natDec (n + 1) ++ 'r' ::
        (natDec n ++ '\n' :: t))))) =
      parse_args .JR .pair (skip (List.replicate 7 ' ' ++
        ('r' :: (natDec (n + 1) ++ 'r' ::
          (natDec n ++ '\n' :: t))))) from rfl]
  rw [skip_replicate, skip_rchar]
  exact args_pair .JR n hn t

theorem lineok_J_imm (v : Int) : LineOk ⟨.J, [.imm v], none, none⟩ := by
  refine ⟨(print_opcode "j ".toList ++
    (if 0 ≤ v then '+' :: natDec v.toNat else intDec v)) ++ [], ?_,
    fun t => ?_⟩
  · rw [show print_body (⟨.J, [.imm v], none, none⟩ : Instruction) =
      .ok ((print_opcode "j ".toList ++
        (if (true = true) ∧ 0 ≤ v then '+' :: natDec v.toNat
         else intDec v)) ++ []) from rfl]
    have hif : (if (true = true) ∧ 0 ≤ v then '+' :: natDec v.toNat
        else intDec v) =
        (if 0 ≤ v then '+' :: natDec v.toNat else intDec v) := by
      by_cases hv : 0 ≤ v
      · rw [if_pos ⟨rfl, hv⟩, if_pos hv]
      · rw [if_neg (fun h => hv h.2), if_neg hv]
    rw [hif]
  · have h1 : ((print_opcode "j ".toList ++
        (if 0 ≤ v then '+' :: natDec v.toNat else intDec v)) ++ []) ++
        '\n' :: t =
        ' ' :: ' ' :: ' ' :: ' ' :: 'j' ::
          (List.replicate 8 ' ' ++
            ((if 0 ≤ v then '+' :: natDec v.toNat else intDec v) ++
              '\n' :: t)) := by
      rw [show print_opcode "j ".toList =
        ' ' :: ' ' :: ' ' :: ' ' :: 'j' :: List.replicate 8 ' ' from rfl]
      simp only [List.cons_append, List.nil_append, List.append_nil,
        List.append_assoc]
    rw [h1, skip_space, skip_space, skip_space, skip_space,
      skip_not_of 'j' _ (by decide) (by decide) (by decide)]
    rw [show parse_instruction ('j' :: (List.replicate 8 ' ' ++
        ((if 0 ≤ v then '+' :: natDec v.toNat else intDec v) ++
          '\n' :: t))) =
        parse_args .J .off (skip (List.replicate 8 ' ' ++
          ((if 0 ≤ v then '+' :: natDec v.toNat else intDec v) ++
            '\n' :: t))) from rfl]
    rw [skip_replicate, skip_offexp]
    exact args_off_imm .J v t

theorem lineok_J_label (s : String) (hs1 : s.toList ≠ [])
    (hs2 : ∀ a ∈ s.toList, isWordChar a = true)
    (hs3 : offsetBase s.toList = none) :
    LineOk ⟨.J, [.offset ⟨s, none, none⟩], none, none⟩ := by
  refine ⟨(print_opcode "j ".toList ++ s.toList) ++ [], rfl, fun t => ?_⟩
  have h1 : ((print_opcode "j ".toList ++ s.toList) ++ []) ++ '\n' :: t =
      ' ' :: ' ' :: ' ' :: ' ' :: 'j' ::
        (List.replicate 8 ' ' ++ (s.toList ++ '\n' :: t)) := by
    rw [show print_opcode "j ".toList =
      ' ' :: ' ' :: ' ' :: ' ' :: 'j' :: List.replicate 8 ' ' from rfl]
    simp only [List.cons_append, List.nil_append, List.append_nil,
      List.append_assoc]
  have hskw : skip (s.toList ++ '\n' :: t) = s.toList ++ '\n' :: t := by
    obtain ⟨d, ds, heq⟩ : ∃ d ds, s.toList = d :: ds := by
      cases hs : s.toList with
      | nil => exact absurd hs hs1
      | cons d ds => exact ⟨d, ds, rfl⟩
    rw [heq, List.cons_append]
    exact word_skip d (hs2 d (by rw [heq]; exact List.mem_cons_self _ _)) _
  rw [h1, skip_space, skip_space, skip_space, skip_space,
    skip_not_of 'j' _ (by decide) (by decide) (by decide)]
  rw [show parse_instruction ('j' :: (List.replicate 8 ' ' ++
      (s.toList ++ '\n' :: t))) =
      parse_args .J .off (skip (List.replicate 8 ' ' ++
        (s.toList ++ '\n' :: t))) from rfl]
  rw [skip_replicate, hskw]
  exact args_off_label .J s hs1 hs2 hs3 t

theorem lineok_ORG (v : Int) (hv : 0 ≤ v) :
    LineOk ⟨.D_ORG, [.imm v], none, none⟩ := by
  refine ⟨".org ".toList ++ ('0' :: 'x' :: intHex4 v), rfl, fun t => ?_⟩
  have h1 : (".org ".toList ++ ('0' :: 'x' :: intHex4 v)) ++ '\n' :: t =
      '.' :: 'o' :: 'r' :: 'g' :: ' ' ::
        ('0' :: 'x' :: (intHex4 v ++ '\n' :: t)) := by
    rw [show (".org ".toList : List Char) = ['.', 'o', 'r', 'g', ' ']
      from rfl]
    simp only [List.cons_append, List.nil_append, List.append_assoc]
  rw [h1, skip_not_of '.' _ (by decide) (by decide) (by decide)]
  rw [show parse_instruction ('.' :: 'o' :: 'r' :: 'g' :: ' ' ::
      ('0' :: 'x' :: (intHex4 v ++ '\n' :: t))) =
      parse_args .D_ORG .orgImm (skip (' ' ::
        ('0' :: 'x' :: (intHex4 v ++ '\n' :: t)))) from rfl]
  rw [skip_space, skip_not_of '0' _ (by decide) (by decide) (by decide)]
  rw [parse_args]
  simp only [parse_immediate_org v hv t, exbind_ok]

theorem lineok_LABEL (s : String) (hs1 : s.toList ≠ [])
    (hs2 : ∀ a ∈ s.toList, isWordChar a = true) :
    LineOk ⟨.D_LABEL, [.label s], none, none⟩ := by
  refine ⟨s.toList ++ [':'], rfl, fun t => ?_⟩
  have h1 : (s.toList ++ [':']) ++ '\n' :: t =
      s.toList ++ ':' :: '\n' :: t := by
    simp only [List.cons_append, List.nil_append, List.append_assoc]
  rw [h1]
  have hskw : skip (s.toList ++ ':' :: '\n' :: t) =
      s.toList ++ ':' :: '\n' :: t := by
    obtain ⟨d, ds, heq⟩ : ∃ d ds, s.toList = d :: ds := by
      cases hs : s.toList with
      | nil => exact absurd hs hs1
      | cons d ds => exact ⟨d, ds, rfl⟩
    rw [heq, List.cons_append]
    exact word_skip d (hs2 d (by rw [heq]; exact List.mem_cons_self _ _)) _
  rw [hskw, parse_instruction,
    consume_label_append s.toList ('\n' :: t) hs1 hs2, skip_nl]
  rfl

end Assembler

namespace Assembler

theorem lineok_BR (cond : Condition) (n : Nat) (hn : n ≤ 5) :
    LineOk ⟨.BR, [.cond cond, .regPair n], none, none⟩ := by
  refine ⟨print_opcode
      (('b' :: 'r' :: '.' :: (Condition.lowerName cond).toList) ++ [' ']) ++
      ('r' :: (natDec (n + 1) ++ 'r' :: natDec n)), rfl, fun t => ?_⟩
  have h1 : (print_opcode
      (('b' :: 'r' :: '.' :: (Condition.lowerName cond).toList) ++ [' ']) ++
      ('r' :: (natDec (n + 1) ++ 'r' :: natDec n))) ++ '\n' :: t =
      ' ' :: ' ' :: ' ' :: ' ' :: 'b' :: 'r' :: '.' ::
        ((Condition.lowerName cond).toList ++ ' ' ::
          (List.replicate (9 - ('b' :: 'r' :: '.' ::
              ((Condition.lowerName cond).toList ++ [' '])).length) ' ' ++
            ('r' :: (natDec (n + 1) ++ 'r' :: (natDec n ++ '\n' :: t))))) := by
    simp only [print_opcode, pad9, List.cons_append, List.nil_append,
      List.append_assoc]
  rw [h1, skip_space, skip_space, skip_space, skip_space,
    skip_not_of 'b' _ (by decide) (by decide) (by decide)]
  rw [show parse_instruction ('b' :: 'r' :: '.' ::
      ((Condition.lowerName cond).toList ++ ' ' ::
        (List.replicate (9 - ('b' :: 'r' :: '.' ::
            ((Condition.lowerName cond).toList ++ [' '])).length) ' ' ++
          ('r' :: (natDec (n + 1) ++ 'r' :: (natDec n ++ '\n' :: t)))))) =
      parse_args .BR .condPair (skip ('.' ::
        ((Condition.lowerName cond).toList ++ ' ' ::
          (List.replicate (9 - ('b' :: 'r' :: '.' ::
              ((Condition.lowerName cond).toList ++ [' '])).length) ' ' ++
            ('r' :: (natDec (n + 1) ++ 'r' :: (natDec n ++ '\n' :: t)))))))
    from rfl]
  rw [skip_not_of '.' _ (by decide) (by decide) (by decide)]
  exact args_condPair .BR cond n hn _ t

theorem lineok_BRO (cond : Condition) (n : Nat) (hn : n ≤ 6) :
    LineOk ⟨.BRO, [.cond cond, .reg n], none, none⟩ := by
  refine ⟨print_opcode
      (('b' :: 'r' :: 'o' :: '.' :: (Condition.lowerName cond).toList) ++
        [' ']) ++ ('r' :: natDec n), rfl, fun t => ?_⟩
  have h1 : (print_opcode
      (('b' :: 'r' :: 'o' :: '.' :: (Condition.lowerName cond).toList) ++
        [' ']) ++ ('r' :: natDec n)) ++ '\n' :: t =
      ' ' :: ' ' :: ' ' :: ' ' :: 'b' :: 'r' :: 'o' :: '.' ::
        ((Condition.lowerName cond).toList ++ ' ' ::
          (List.replicate (9 - ('b' :: 'r' :: 'o' :: '.' ::
              ((Condition.lowerName cond).toList ++ [' '])).length) ' ' ++
            ('r' :: (natDec n ++ '\n' :: t)))) := by
    simp only [print_opcode, pad9, List.cons_append, List.nil_append,
      List.append_assoc]
  rw [h1, skip_space, skip_space, skip_space, skip_space,
    skip_not_of 'b' _ (by decide) (by decide) (by decide)]
  rw [show parse_instruction ('b' :: 'r' :: 'o' :: '.' ::
      ((Condition.lowerName cond).toList ++ ' ' ::
        (List.replicate (9 - ('b' :: 'r' :: 'o' :: '.' ::
            ((Condition.lowerName cond).toList ++ [' '])).length) ' ' ++
          ('r' :: (natDec n ++ '\n' :: t))))) =
      parse_args .BRO .condReg (skip ('.' ::
        ((Condition.lowerName cond).toList ++ ' ' ::
          (List.replicate (9 - ('b' :: 'r' :: 'o' :: '.' ::
              ((Condition.lowerName cond).toList ++ [' '])).length) ' ' ++
            ('r' :: (natDec n ++ '\n' :: t)))))) from rfl]
  rw [skip_not_of '.' _ (by decide) (by decide) (by decide)]
  exact args_condReg .BRO cond n hn _ t

theorem lineok_CMV (cond : Condition) (n m : Nat) (hn : n ≤ 6)
    (hm : m ≤ 6) :
    LineOk ⟨.CMV, [.cond cond, .reg n, .reg m], none, none⟩ := by
  refine ⟨print_opcode
      (('c' :: 'm' :: 'v' :: '.' :: (Condition.lowerName cond).toList) ++
        [' ']) ++ ('r' :: natDec n) ++ [',', ' '] ++ ('r' :: natDec m),
    rfl, fun t => ?_⟩
  have h1 : (print_opcode
      (('c' :: 'm' :: 'v' :: '.' :: (Condition.lowerName cond).toList) ++
        [' ']) ++ ('r' :: natDec n) ++ [',', ' '] ++ ('r' :: natDec m)) ++
      '\n' :: t =
      ' ' :: ' ' :: ' ' :: ' ' :: 'c' :: 'm' :: 'v' :: '.' ::
        ((Condition.lowerName cond).toList ++ ' ' ::
          (List.replicate (9 - ('c' :: 'm' :: 'v' :: '.' ::
              ((Condition.lowerName cond).toList ++ [' '])).length) ' ' ++
            ('r' :: (natDec n ++ ',' :: ' ' ::
              ('r' :: (natDec m ++ '\n' :: t)))))) := by
    simp only [print_opcode, pad9, List.cons_append, List.nil_append,
      List.append_assoc]
  rw [h1, skip_space, skip_space, skip_space, skip_space,
    skip_not_of 'c' _ (by decide) (by decide) (by decide)]
  rw [show parse_instruction ('c' :: 'm' :: 'v' :: '.' ::
      ((Condition.lowerName cond).toList ++ ' ' ::
        (List.replicate (9 - ('c' :: 'm' :: 'v' :: '.' ::
            ((Condition.lowerName cond).toList ++ [' '])).length) ' ' ++
          ('r' :: (natDec n ++ ',' :: ' ' ::
            ('r' :: (natDec m ++ '\n' :: t))))))) =
      parse_args .CMV .condRR (skip ('.' ::
        ((Condition.lowerName cond).toList ++ ' ' ::
          (List.replicate (9 - ('c' :: 'm' :: 'v' :: '.' ::
              ((Condition.lowerName cond).toList ++ [' '])).length) ' ' ++
            ('r' :: (natDec n ++ ',' :: ' ' ::
              ('r' :: (natDec m ++ '\n' :: t)))))))) from rfl]
  rw [skip_not_of '.' _ (by decide) (by decide) (by decide)]
  exact args_condRR .CMV cond n m hn hm _ t

theorem lineok_CLDI (cond : Condition) (n : Nat) (hn : n ≤ 6) (v : Int) :
    LineOk ⟨.CLDI, [.cond cond, .reg n, .imm v], none, none⟩ := by
  refine ⟨print_opcode
      (('c' :: 'l' :: 'd' :: 'i' :: '.' ::
        (Condition.lowerName cond).toList) ++ [' ']) ++
      ('r' :: natDec n) ++ [',', ' '] ++ intDec v, rfl, fun t => ?_⟩
  have h1 : (print_opcode
      (('c' :: 'l' :: 'd' :: 'i' :: '.' ::
        (Condition.lowerName cond).toList) ++ [' ']) ++
      ('r' :: natDec n) ++ [',', ' '] ++ intDec v) ++ '\n' :: t =
      ' ' :: ' ' :: ' ' :: ' ' :: 'c' :: 'l' :: 'd' :: 'i' :: '.' ::
        ((Condition.lowerName cond).toList ++ ' ' ::
          (List.replicate (9 - ('c' :: 'l' :: 'd' :: 'i' :: '.' ::
              ((Condition.lowerName cond).toList ++ [' '])).length) ' ' ++
            ('r' :: (natDec n ++ ',' :: ' ' ::
              (intDec v ++ '\n' :: t))))) := by
    simp only [print_opcode, pad9, List.cons_append, List.nil_append,
      List.append_assoc]
  rw [h1, skip_space, skip_space, skip_space, skip_space,
    skip_not_of 'c' _ (by decide) (by decide) (by decide)]
  rw [show parse_instruction ('c' :: 'l' :: 'd' :: 'i' :: '.' ::
      ((Condition.lowerName cond).toList ++ ' ' ::
        (List.replicate (9 - ('c' :: 'l' :: 'd' :: 'i' :: '.' ::
            ((Condition.lowerName cond).toList ++ [' '])).length) ' ' ++
          ('r' :: (natDec n ++ ',' :: ' ' ::
            (intDec v ++ '\n' :: t)))))) =
      parse_args .CLDI .condRI (skip ('.' ::
        ((Condition.lowerName cond).toList ++ ' ' ::
          (List.replicate (9 - ('c' :: 'l' :: 'd' :: 'i' :: '.' ::
              ((Condition.lowerName cond).toList ++ [' '])).length) ' ' ++
            ('r' :: (natDec n ++ ',' :: ' ' ::
              (intDec v ++ '\n' :: t))))))) from rfl]
  rw [skip_not_of '.' _ (by decide) (by decide) (by decide)]
  exact args_condRI .CLDI cond n hn v _ t

end Assembler

namespace Assembler

theorem lineok_B_imm (cond : Condition) (v : Int) :
    LineOk ⟨.B, [.cond cond, .imm v], none, none⟩ := by
  refine ⟨(print_opcode
      (('b' :: '.' :: (Condition.lowerName cond).toList) ++ [' ']) ++
      (if 0 ≤ v then '+' :: natDec v.toNat else intDec v)) ++ [], ?_,
    fun t => ?_⟩
  · rw [show print_body
        (⟨.B, [.cond cond, .imm v], none, none⟩ : Instruction) =
      .ok ((print_opcode
        (('b' :: '.' :: (Condition.lowerName cond).toList) ++ [' ']) ++
        (if (true = true) ∧ 0 ≤ v then '+' :: natDec v.toNat
         else intDec v)) ++ []) from rfl]
    have hif : (if (true = true) ∧ 0 ≤ v then '+' :: natDec v.toNat
        else intDec v) =
        (if 0 ≤ v then '+' :: natDec v.toNat else intDec v) := by
      by_cases hv : 0 ≤ v
      · rw [if_pos ⟨rfl, hv⟩, if_pos hv]
      · rw [if_neg (fun h => hv h.2), if_neg hv]
    rw [hif]
  · have h1 : ((print_opcode
        (('b' :: '.' :: (Condition.lowerName cond).toList) ++ [' ']) ++
        (if 0 ≤ v then '+' :: natDec v.toNat else intDec v)) ++ []) ++
        '\n' :: t =
        ' ' :: ' ' :: ' ' :: ' ' :: 'b' :: '.' ::
          ((Condition.lowerName cond).toList ++ ' ' ::
            (List.replicate (9 - ('b' :: '.' ::
                ((Condition.lowerName cond).toList ++ [' '])).length) ' ' ++
              ((if 0 ≤ v then '+' :: natDec v.toNat else intDec v) ++
                '\n' :: t))) := by
      simp only [print_opcode, pad9, List.cons_append, List.nil_append,
        List.append_nil, List.append_assoc]
    rw [h1, skip_space, skip_space, skip_space, skip_space,
      skip_not_of 'b' _ (by decide) (by decide) (by decide)]
    rw [show parse_instruction ('b' :: '.' ::
        ((Condition.lowerName cond).toList ++ ' ' ::
          (List.replicate (9 - ('b' :: '.' ::
              ((Condition.lowerName cond).toList ++ [' '])).length) ' ' ++
            ((if 0 ≤ v then '+' :: natDec v.toNat else intDec v) ++
              '\n' :: t)))) =
        parse_args .B .condOff (skip ('.' ::
          ((Condition.lowerName cond).toList ++ ' ' ::
            (List.replicate (9 - ('b' :: '.' ::
                ((Condition.lowerName cond).toList ++ [' '])).length) ' ' ++
              ((if 0 ≤ v then '+' :: natDec v.toNat else intDec v) ++
                '\n' :: t))))) from rfl]
    rw [skip_not_of '.' _ (by decide) (by decide) (by decide)]
    exact args_condOff_imm .B cond v _ t

theorem lineok_B_label (cond : Condition) (s : String)
    (hs1 : s.toList ≠ [])
    (hs2 : ∀ a ∈ s.toList, isWordChar a = true)
    (hs3 : offsetBase s.toList = none) :
    LineOk ⟨.B, [.cond cond, .offset ⟨s, none, none⟩], none, none⟩ := by
  refine ⟨(print_opcode
      (('b' :: '.' :: (Condition.lowerName cond).toList) ++ [' ']) ++
      s.toList) ++ [], rfl, fun t => ?_⟩
  have h1 : ((print_opcode
      (('b' :: '.' :: (Condition.lowerName cond).toList) ++ [' ']) ++
      s.toList) ++ []) ++ '\n' :: t =
      ' ' :: ' ' :: ' ' :: ' ' :: 'b' :: '.' ::
        ((Condition.lowerName cond).toList ++ ' ' ::
          (List.replicate (9 - ('b' :: '.' ::
              ((Condition.lowerName cond).toList ++ [' '])).length) ' ' ++
            (s.toList ++ '\n' :: t))) := by
    simp only [print_opcode, pad9, List.cons_append, List.nil_append,
      List.append_nil, List.append_assoc]
  rw [h1, skip_space, skip_space, skip_space, skip_space,
    skip_not_of 'b' _ (by decide) (by decide) (by decide)]
  rw [show parse_instruction ('b' :: '.' ::
      ((Condition.lowerName cond).toList ++ ' ' ::
        (List.replicate (9 - ('b' :: '.' ::
            ((Condition.lowerName cond).toList ++ [' '])).length) ' ' ++
          (s.toList ++ '\n' :: t)))) =
      parse_args .B .condOff (skip ('.' ::
        ((Condition.lowerName cond).toList ++ ' ' ::
          (List.replicate (9 - ('b' :: '.' ::
              ((Condition.lowerName cond).toList ++ [' '])).length) ' ' ++
            (s.toList ++ '\n' :: t))))) from rfl]
  rw [skip_not_of '.' _ (by decide) (by decide) (by decide)]
  exact args_condOff_label .B cond s hs1 hs2 hs3 _ t

end Assembler

namespace Assembler

theorem lineok_HALT : LineOk ⟨.HALT, [], none, none⟩ := by
  refine ⟨print_opcode "halt".toList, rfl, fun t => ?_⟩
  have h1 : print_opcode "halt".toList ++ '\n' :: t =
      ' ' :: ' ' :: ' ' :: ' ' :: 'h' :: 'a' :: 'l' :: 't' ::
        (List.replicate 5 ' ' ++ '\n' :: t) := by
    rw [show print_opcode "halt".toList =
      ' ' :: ' ' :: ' ' :: ' ' :: 'h' :: 'a' :: 'l' :: 't' ::
        List.replicate 5 ' ' from rfl]
    simp only [List.cons_append, List.nil_append, List.append_assoc]
  rw [h1, skip_space, skip_space, skip_space, skip_space,
    skip_not_of 'h' _ (by decide) (by decide) (by decide)]
  rw [show parse_instruction
      ('h' :: 'a' :: 'l' :: 't' :: (List.replicate 5 ' ' ++ '\n' :: t)) =
      parse_args .HALT .noArgs (skip (List.replicate 5 ' ' ++ '\n' :: t))
    from rfl]
  rw [skip_replicate, skip_nl, args_noArgs]

theorem lineok_LCDCW (n : Nat) (hn : n ≤ 6) :
    LineOk ⟨.LCDCW, [.reg n], none, none⟩ := by
  refine ⟨print_opcode "lcdcw ".toList ++ ('r' :: natDec n), rfl, fun t => ?_⟩
  have h1 : (print_opcode "lcdcw ".toList ++ ('r' :: natDec n)) ++ '\n' :: t =
      ' ' :: ' ' :: ' ' :: ' ' :: 'l' :: 'c' :: 'd' :: 'c' :: 'w' ::
        (List.replicate 4 ' ' ++ ('r' :: (natDec n ++ '\n' :: t))) := by
    rw [show print_opcode "lcdcw ".toList =
      ' ' :: ' ' :: ' ' :: ' ' :: 'l' :: 'c' :: 'd' :: 'c' :: 'w' :: List.replicate 4 ' '
      from rfl]
    simp only [List.cons_append, List.nil_append, List.append_assoc]
  rw [h1, skip_space, skip_space, skip_space, skip_space,
    skip_not_of 'l' _ (by decide) (by decide) (by decide)]
  rw [show parse_instruction ('l' :: 'c' :: 'd' :: 'c' :: 'w' ::
      (List.replicate 4 ' ' ++ ('r' :: (natDec n ++ '\n' :: t)))) =
      parse_args .LCDCW .r (skip (List.replicate 4 ' ' ++
        ('r' :: (natDec n ++ '\n' :: t)))) from rfl]
  rw [skip_replicate, skip_rchar]
  exact args_r .LCDCW n hn t

theorem lineok_LCDDW (n : Nat) (hn : n ≤ 6) :
    LineOk ⟨.LCDDW, [.reg n], none, none⟩ := by
  refine ⟨print_opcode "lcddw ".toList ++ ('r' :: natDec n), rfl, fun t => ?_⟩
  have h1 : (print_opcode "lcddw ".toList ++ ('r' :: natDec n)) ++ '\n' :: t =
      ' ' :: ' ' :: ' ' :: ' ' :: 'l' :: 'c' :: 'd' :: 'd' :: 'w' ::
        (List.replicate 4 ' ' ++ ('r' :: (natDec n ++ '\n' :: t))) := by
    rw [show print_opcode "lcddw ".toList =
      ' ' :: ' ' :: ' ' :: ' ' :: 'l' :: 'c' :: 'd' :: 'd' :: 'w' :: List.replicate 4 ' '
      from rfl]
    simp only [List.cons_append, List.nil_append, List.append_assoc]
  rw [h1, skip_space, skip_space, skip_space, skip_space,
    skip_not_of 'l' _ (by decide) (by decide) (by decide)]
  rw [show parse_instruction ('l' :: 'c' :: 'd' :: 'd' :: 'w' ::
      (List.replicate 4 ' ' ++ ('r' :: (natDec n ++ '\n' :: t)))) =
      parse_args .LCDDW .r (skip (List.replicate 4 ' ' ++
        ('r' :: (natDec n ++ '\n' :: t)))) from rfl]
  rw [skip_replicate, skip_rchar]
  exact args_r .LCDDW n hn t

theorem lineok_LCDCR (n : Nat) (hn : n ≤ 6) :
    LineOk ⟨.LCDCR, [.reg n], none, none⟩ := by
  refine ⟨print_opcode "lcdcr ".toList ++ ('r' :: natDec n), rfl, fun t => ?_⟩
  have h1 : (print_opcode "lcdcr ".toList ++ ('r' :: natDec n)) ++ '\n' :: t =
      ' ' :: ' ' :: ' ' :: ' ' :: 'l' :: 'c' :: 'd' :: 'c' :: 'r' ::
        (List.replicate 4 ' ' ++ ('r' :: (natDec n ++ '\n' :: t))) := by
    rw [show print_opcode "lcdcr ".toList =
      ' ' :: ' ' :: ' ' :: ' ' :: 'l' :: 'c' :: 'd' :: 'c' :: 'r' :: List.replicate 4 ' '
      from rfl]
    simp only [List.cons_append, List.nil_append, List.append_assoc]
  rw [h1, skip_space, skip_space, skip_space, skip_space,
    skip_not_of 'l' _ (by decide) (by decide) (by decide)]
  rw [show parse_instruction ('l' :: 'c' :: 'd' :: 'c' :: 'r' ::
      (List.replicate 4 ' ' ++ ('r' :: (natDec n ++ '\n' :: t)))) =
      parse_args .LCDCR .r (skip (List.replicate 4 ' ' ++
        ('r' :: (natDec n ++ '\n' :: t)))) from rfl]
  rw [skip_replicate, skip_rchar]
  exact args_r .LCDCR n hn t

theorem lineok_LCDDR (n : Nat) (hn : n ≤ 6) :
    LineOk ⟨.LCDDR, [.reg n], none, none⟩ := by
  refine ⟨print_opcode "lcddr ".toList ++ ('r' :: natDec n), rfl, fun t => ?_⟩
  have h1 : (print_opcode "lcddr ".toList ++ ('r' :: natDec n)) ++ '\n' :: t =
      ' ' :: ' ' :: ' ' :: ' ' :: 'l' :: 'c' :: 'd' :: 'd' :: 'r' ::
        (List.replicate 4 ' ' ++ ('r' :: (natDec n ++ '\n' :: t))) := by
    rw [show print_opcode "lcddr ".toList =
      ' ' :: ' ' :: ' ' :: ' ' :: 'l' :: 'c' :: 'd' :: 'd' :: 'r' :: List.replicate 4 ' '
      from rfl]
    simp only [List.cons_append, List.nil_append, List.append_assoc]
  rw [h1, skip_space, skip_space, skip_space, skip_space,
    skip_not_of 'l' _ (by decide) (by decide) (by decide)]
  rw [show parse_instruction ('l' :: 'c' :: 'd' :: 'd' :: 'r' ::
      (List.replicate 4 ' ' ++ ('r' :: (natDec n ++ '\n' :: t)))) =
      parse_args .LCDDR .r (skip (List.replicate 4 ' ' ++
        ('r' :: (natDec n ++ '\n' :: t)))) from rfl]
  rw [skip_replicate, skip_rchar]
  exact args_r .LCDDR n hn t

theorem lineok_NOT (n : Nat) (hn : n ≤ 6) :
    LineOk ⟨.NOT, [.reg n], none, none⟩ := by
  refine ⟨print_opcode "not ".toList ++ ('r' :: natDec n), rfl, fun t => ?_⟩
  have h1 : (print_opcode "not ".toList ++ ('r' :: natDec n)) ++ '\n' :: t =
      ' ' :: ' ' :: ' ' :: ' ' :: 'n' :: 'o' :: 't' ::
        (List.replicate 6 ' ' ++ ('r' :: (natDec n ++ '\n' :: t))) := by
    rw [show print_opcode "not ".toList =
      ' ' :: ' ' :: ' ' :: ' ' :: 'n' :: 'o' :: 't' :: List.replicate 6 ' '
      from rfl]
    simp only [List.cons_append, List.nil_append, List.append_assoc]
  rw [h1, skip_space, skip_space, skip_space, skip_space,
    skip_not_of 'n' _ (by decide) (by decide) (by decide)]
  rw [show parse_instruction ('n' :: 'o' :: 't' ::
      (List.replicate 6 ' ' ++ ('r' :: (natDec n ++ '\n' :: t)))) =
      parse_args .NOT .r (skip (List.replicate 6 ' ' ++
        ('r' :: (natDec n ++ '\n' :: t)))) from rfl]
  rw [skip_replicate, skip_rchar]
  exact args_r .NOT n hn t

theorem lineok_NEG (n : Nat) (hn : n ≤ 6) :
    LineOk ⟨.NEG, [.reg n], none, none⟩ := by
  refine ⟨print_opcode "neg ".toList ++ ('r' :: natDec n), rfl, fun t => ?_⟩
  have h1 : (print_opcode "neg ".toList ++ ('r' :: natDec n)) ++ '\n' :: t =
      ' ' :: ' ' :: ' ' :: ' ' :: 'n' :: 'e' :: 'g' ::
        (List.replicate 6 ' ' ++ ('r' :: (natDec n ++ '\n' :: t))) := by
    rw [show print_opcode "neg ".toList =
      ' ' :: ' ' :: ' ' :: ' ' :: 'n' :: 'e' :: 'g' :: List.replicate 6 ' '
      from rfl]
    simp only [List.cons_append, List.nil_append, List.append_assoc]
  rw [h1, skip_space, skip_space, skip_space, skip_space,
    skip_not_of 'n' _ (by decide) (by decide) (by decide)]
  rw [show parse_instruction ('n' :: 'e' :: 'g' ::
      (List.replicate 6 ' ' ++ ('r' :: (natDec n ++ '\n' :: t)))) =
      parse_args .NEG .r (skip (List.replicate 6 ' ' ++
        ('r' :: (natDec n ++ '\n' :: t)))) from rfl]
  rw [skip_replicate, skip_rchar]
  exact args_r .NEG n hn t

theorem lineok_SHLL (n : Nat) (hn : n ≤ 6) :
    LineOk ⟨.SHLL, [.reg n], none, none⟩ := by
  refine ⟨print_opcode "shll ".toList ++ ('r' :: natDec n), rfl, fun t => ?_⟩
  have h1 : (print_opcode "shll ".toList ++ ('r' :: natDec n)) ++ '\n' :: t =
      ' ' :: ' ' :: ' ' :: ' ' :: 's' :: 'h' :: 'l' :: 'l' ::
        (List.replicate 5 ' ' ++ ('r' :: (natDec n ++ '\n' :: t))) := by
    rw [show print_opcode "shll ".toList =
      ' ' :: ' ' :: ' ' :: ' ' :: 's' :: 'h' :: 'l' :: 'l' :: List.replicate 5 ' '
      from rfl]
    simp only [List.cons_append, List.nil_append, List.append_assoc]
  rw [h1, skip_space, skip_space, skip_space, skip_space,
    skip_not_of 's' _ (by decide) (by decide) (by decide)]
  rw [show parse_instruction ('s' :: 'h' :: 'l' :: 'l' ::
      (List.replicate 5 ' ' ++ ('r' :: (natDec n ++ '\n' :: t)))) =
      parse_args .SHLL .r (skip (List.replicate 5 ' ' ++
        ('r' :: (natDec n ++ '\n' :: t)))) from rfl]
  rw [skip_replicate, skip_rchar]
  exact args_r .SHLL n hn t

theorem lineok_SHLC (n : Nat) (hn : n ≤ 6) :
    LineOk ⟨.SHLC, [.reg n], none, none⟩ := by
  refine ⟨print_opcode "shlc ".toList ++ ('r' :: natDec n), rfl, fun t => ?_⟩
  have h1 : (print_opcode "shlc ".toList ++ ('r' :: natDec n)) ++ '\n' :: t =
      ' ' :: ' ' :: ' ' :: ' ' :: 's' :: 'h' :: 'l' :: 'c' ::
        (List.replicate 5 ' ' ++ ('r' :: (natDec n ++ '\n' :: t))) := by
    rw [show print_opcode "shlc ".toList =
      ' ' :: ' ' :: ' ' :: ' ' :: 's' :: 'h' :: 'l' :: 'c' :: List.replicate 5 ' '
      from rfl]
    simp only [List.cons_append, List.nil_append, List.append_assoc]
  rw [h1, skip_space, skip_space, skip_space, skip_space,
    skip_not_of 's' _ (by decide) (by decide) (by decide)]
  rw [show parse_instruction ('s' :: 'h' :: 'l' :: 'c' ::
      (List.replicate 5 ' ' ++ ('r' :: (natDec n ++ '\n' :: t)))) =
      parse_args .SHLC .r (skip (List.replicate 5 ' ' ++
        ('r' :: (natDec n ++ '\n' :: t)))) from rfl]
  rw [skip_replicate, skip_rchar]
  exact args_r .SHLC n hn t

theorem lineok_SHRL (n : Nat) (hn : n ≤ 6) :
    LineOk ⟨.SHRL, [.reg n], none, none⟩ := by
  refine ⟨print_opcode "shrl ".toList ++ ('r' :: natDec n), rfl, fun t => ?_⟩
  have h1 : (print_opcode "shrl ".toList ++ ('r' :: natDec n)) ++ '\n' :: t =
      ' ' :: ' ' :: ' ' :: ' ' :: 's' :: 'h' :: 'r' :: 'l' ::
        (List.replicate 5 ' ' ++ ('r' :: (natDec n ++ '\n' :: t))) := by
    rw [show print_opcode "shrl ".toList =
      ' ' :: ' ' :: ' ' :: ' ' :: 's' :: 'h' :: 'r' :: 'l' :: List.replicate 5 ' '
      from rfl]
    simp only [List.cons_append, List.nil_append, List.append_assoc]
  rw [h1, skip_space, skip_space, skip_space, skip_space,
    skip_not_of 's' _ (by decide) (by decide) (by decide)]
  rw [show parse_instruction ('s' :: 'h' :: 'r' :: 'l' ::
      (List.replicate 5 ' ' ++ ('r' :: (natDec n ++ '\n' :: t)))) =
      parse_args .SHRL .r (skip (List.replicate 5 ' ' ++
        ('r' :: (natDec n ++ '\n' :: t)))) from rfl]
  rw [skip_replicate, skip_rchar]
  exact args_r .SHRL n hn t

theorem lineok_SHRC (n : Nat) (hn : n ≤ 6) :
    LineOk ⟨.SHRC, [.reg n], none, none⟩ := by
  refine ⟨print_opcode "shrc ".toList ++ ('r' :: natDec n), rfl, fun t => ?_⟩
  have h1 : (print_opcode "shrc ".toList ++ ('r' :: natDec n)) ++ '\n' :: t =
      ' ' :: ' ' :: ' ' :: ' ' :: 's' :: 'h' :: 'r' :: 'c' ::
        (List.replicate 5 ' ' ++ ('r' :: (natDec n ++ '\n' :: t))) := by
    rw [show print_opcode "shrc ".toList =
      ' ' :: ' ' :: ' ' :: ' ' :: 's' :: 'h' :: 'r' :: 'c' :: List.replicate 5 ' '
      from rfl]
    simp only [List.cons_append, List.nil_append, List.append_assoc]
  rw [h1, skip_space, skip_space, skip_space, skip_space,
    skip_not_of 's' _ (by decide) (by decide) (by decide)]
  rw [show parse_instruction ('s' :: 'h' :: 'r' :: 'c' ::
      (List.replicate 5 ' ' ++ ('r' :: (natDec n ++ '\n' :: t)))) =
      parse_args .SHRC .r (skip (List.replicate 5 ' ' ++
        ('r' :: (natDec n ++ '\n' :: t)))) from rfl]
  rw [skip_replicate, skip_rchar]
  exact args_r .SHRC n hn t

theorem lineok_SHRA (n : Nat) (hn : n ≤ 6) :
    LineOk ⟨.SHRA, [.reg n], none, none⟩ := by
  refine ⟨print_opcode "shra ".toList ++ ('r' :: natDec n), rfl, fun t => ?_⟩
  have h1 : (print_opcode "shra ".toList ++ ('r' :: natDec n)) ++ '\n' :: t =
      ' ' :: ' ' :: ' ' :: ' ' :: 's' :: 'h' :: 'r' :: 'a' ::
        (List.replicate 5 ' ' ++ ('r' :: (natDec n ++ '\n' :: t))) := by
    rw [show print_opcode "shra ".toList =
      ' ' :: ' ' :: ' ' :: ' ' :: 's' :: 'h' :: 'r' :: 'a' :: List.replicate 5 ' '
      from rfl]
    simp only [List.cons_append, List.nil_append, List.append_assoc]
  rw [h1, skip_space, skip_space, skip_space, skip_space,
    skip_not_of 's' _ (by decide) (by decide) (by decide)]
  rw [show parse_instruction ('s' :: 'h' :: 'r' :: 'a' ::
      (List.replicate 5 ' ' ++ ('r' :: (natDec n ++ '\n' :: t)))) =
      parse_args .SHRA .r (skip (List.replicate 5 ' ' ++
        ('r' :: (natDec n ++ '\n' :: t)))) from rfl]
  rw [skip_replicate, skip_rchar]
  exact args_r .SHRA n hn t

theorem lineok_FSWAP (n : Nat) (hn : n ≤ 6) :
    LineOk ⟨.FSWAP, [.reg n], none, none⟩ := by
  refine ⟨print_opcode "fswap ".toList ++ ('r' :: natDec n), rfl, fun t => ?_⟩
  have h1 : (print_opcode "fswap ".toList ++ ('r' :: natDec n)) ++ '\n' :: t =
      ' ' :: ' ' :: ' ' :: ' ' :: 'f' :: 's' :: 'w' :: 'a' :: 'p' ::
        (List.replicate 4 ' ' ++ ('r' :: (natDec n ++ '\n' :: t))) := by
    rw [show print_opcode "fswap ".toList =
      ' ' :: ' ' :: ' ' :: ' ' :: 'f' :: 's' :: 'w' :: 'a' :: 'p' :: List.replicate 4 ' '
      from rfl]
    simp only [List.cons_append, List.nil_append, List.append_assoc]
  rw [h1, skip_space, skip_space, skip_space, skip_space,
    skip_not_of 'f' _ (by decide) (by decide) (by decide)]
  rw [show parse_instruction ('f' :: 's' :: 'w' :: 'a' :: 'p' ::
      (List.replicate 4 ' ' ++ ('r' :: (natDec n ++ '\n' :: t)))) =
      parse_args .FSWAP .r (skip (List.replicate 4 ' ' ++
        ('r' :: (natDec n ++ '\n' :: t)))) from rfl]
  rw [skip_replicate, skip_rchar]
  exact args_r .FSWAP n hn t

theorem lineok_FR (n : Nat) (hn : n ≤ 6) :
    LineOk ⟨.FR, [.reg n], none, none⟩ := by
  refine ⟨print_opcode "fr ".toList ++ ('r' :: natDec n), rfl, fun t => ?_⟩
  have h1 : (print_opcode "fr ".toList ++ ('r' :: natDec n)) ++ '\n' :: t =
      ' ' :: ' ' :: ' ' :: ' ' :: 'f' :: 'r' ::
        (List.replicate 7 ' ' ++ ('r' :: (natDec n ++ '\n' :: t))) := by
    rw [show print_opcode "fr ".toList =
      ' ' :: ' ' :: ' ' :: ' ' :: 'f' :: 'r' :: List.replicate 7 ' '
      from rfl]
    simp only [List.cons_append, List.nil_append, List.append_assoc]
  rw [h1, skip_space, skip_space, skip_space, skip_space,
    skip_not_of 'f' _ (by decide) (by decide) (by decide)]
  rw [show parse_instruction ('f' :: 'r' ::
      (List.replicate 7 ' ' ++ ('r' :: (natDec n ++ '\n' :: t)))) =
      parse_args .FR .r (skip (List.replicate 7 ' ' ++
        ('r' :: (natDec n ++ '\n' :: t)))) from rfl]
  rw [skip_replicate, skip_rchar]
  exact args_r .FR n hn t

theorem lineok_FW (n : Nat) (hn : n ≤ 6) :
    LineOk ⟨.FW, [.reg n], none, none⟩ := by
  refine ⟨print_opcode "fw ".toList ++ ('r' :: natDec n), rfl, fun t => ?_⟩
  have h1 : (print_opcode "fw ".toList ++ ('r' :: natDec n)) ++ '\n' :: t =
      ' ' :: ' ' :: ' ' :: ' ' :: 'f' :: 'w' ::
        (List.replicate 7 ' ' ++ ('r' :: (natDec n ++ '\n' :: t))) := by
    rw [show print_opcode "fw ".toList =
      ' ' :: ' ' :: ' ' :: ' ' :: 'f' :: 'w' :: List.replicate 7 ' '
      from rfl]
    simp only [List.cons_append, List.nil_append, List.append_assoc]
  rw [h1, skip_space, skip_space, skip_space, skip_space,
    skip_not_of 'f' _ (by decide) (by decide) (by decide)]
  rw [show parse_instruction ('f' :: 'w' ::
      (List.replicate 7 ' ' ++ ('r' :: (natDec n ++ '\n' :: t)))) =
      parse_args .FW .r (skip (List.replicate 7 ' ' ++
        ('r' :: (natDec n ++ '\n' :: t)))) from rfl]
  rw [skip_replicate, skip_rchar]
  exact args_r .FW n hn t

theorem lineok_ADD (n m : Nat) (hn : n ≤ 6) (hm : m ≤ 6) :
    LineOk ⟨.ADD, [.reg n, .reg m], none, none⟩ := by
  refine ⟨print_opcode "add ".toList ++ ('r' :: natDec n) ++ [',', ' '] ++
    ('r' :: natDec m), rfl, fun t => ?_⟩
  have h1 : (print_opcode "add ".toList ++ ('r' :: natDec n) ++ [',', ' '] ++
      ('r' :: natDec m)) ++ '\n' :: t =
      ' ' :: ' ' :: ' ' :: ' ' :: 'a' :: 'd' :: 'd' ::
        (List.replicate 6 ' ' ++ ('r' :: (natDec n ++ ',' :: ' ' ::
          ('r' :: (natDec m ++ '\n' :: t))))) := by
    rw [show print_opcode "add ".toList =
      ' ' :: ' ' :: ' ' :: ' ' :: 'a' :: 'd' :: 'd' :: List.replicate 6 ' '
      from rfl]
    simp only [List.cons_append, List.nil_append, List.append_assoc]
  rw [h1, skip_space, skip_space, skip_space, skip_space,
    skip_not_of 'a' _ (by decide) (by decide) (by decide)]
  rw [show parse_instruction ('a' :: 'd' :: 'd' ::
      (List.replicate 6 ' ' ++ ('r' :: (natDec n ++ ',' :: ' ' ::
        ('r' :: (natDec m ++ '\n' :: t)))))) =
      parse_args .ADD .rr (skip (List.replicate 6 ' ' ++
        ('r' :: (natDec n ++ ',' :: ' ' ::
          ('r' :: (natDec m ++ '\n' :: t)))))) from rfl]
  rw [skip_replicate, skip_rchar]
  exact args_rr .ADD n m hn hm t

theorem lineok_SUB (n m : Nat) (hn : n ≤ 6) (hm : m ≤ 6) :
    LineOk ⟨.SUB, [.reg n, .reg m], none, none⟩ := by
  refine ⟨print_opcode "sub ".toList ++ ('r' :: natDec n) ++ [',', ' '] ++
    ('r' :: natDec m), rfl, fun t => ?_⟩
  have h1 : (print_opcode "sub ".toList ++ ('r' :: natDec n) ++ [',', ' '] ++
      ('r' :: natDec m)) ++ '\n' :: t =
      ' ' :: ' ' :: ' ' :: ' ' :: 's' :: 'u' :: 'b' ::
        (List.replicate 6 ' ' ++ ('r' :: (natDec n ++ ',' :: ' ' ::
          ('r' :: (natDec m ++ '\n' :: t))))) := by
    rw [show print_opcode "sub ".toList =
      ' ' :: ' ' :: ' ' :: ' ' :: 's' :: 'u' :: 'b' :: List.replicate 6 ' '
      from rfl]
    simp only [List.cons_append, List.nil_append, List.append_assoc]
  rw [h1, skip_space, skip_space, skip_space, skip_space,
    skip_not_of 's' _ (by decide) (by decide) (by decide)]
  rw [show parse_instruction ('s' :: 'u' :: 'b' ::
      (List.replicate 6 ' ' ++ ('r' :: (natDec n ++ ',' :: ' ' ::
        ('r' :: (natDec m ++ '\n' :: t)))))) =
      parse_args .SUB .rr (skip (List.replicate 6 ' ' ++
        ('r' :: (natDec n ++ ',' :: ' ' ::
          ('r' :: (natDec m ++ '\n' :: t)))))) from rfl]
  rw [skip_replicate, skip_rchar]
  exact args_rr .SUB n m hn hm t

theorem lineok_ADDC (n m : Nat) (hn : n ≤ 6) (hm : m ≤ 6) :
    LineOk ⟨.ADDC, [.reg n, .reg m], none, none⟩ := by
  refine ⟨print_opcode "addc ".toList ++ ('r' :: natDec n) ++ [',', ' '] ++
    ('r' :: natDec m), rfl, fun t => ?_⟩
  have h1 : (print_opcode "addc ".toList ++ ('r' :: natDec n) ++ [',', ' '] ++
      ('r' :: natDec m)) ++ '\n' :: t =
      ' ' :: ' ' :: ' ' :: ' ' :: 'a' :: 'd' :: 'd' :: 'c' ::
        (List.replicate 5 ' ' ++ ('r' :: (natDec n ++ ',' :: ' ' ::
          ('r' :: (natDec m ++ '\n' :: t))))) := by
    rw [show print_opcode "addc ".toList =
      ' ' :: ' ' :: ' ' :: ' ' :: 'a' :: 'd' :: 'd' :: 'c' :: List.replicate 5 ' '
      from rfl]
    simp only [List.cons_append, List.nil_append, List.append_assoc]
  rw [h1, skip_space, skip_space, skip_space, skip_space,
    skip_not_of 'a' _ (by decide) (by decide) (by decide)]
  rw [show parse_instruction ('a' :: 'd' :: 'd' :: 'c' ::
      (List.replicate 5 ' ' ++ ('r' :: (natDec n ++ ',' :: ' ' ::
        ('r' :: (natDec m ++ '\n' :: t)))))) =
      parse_args .ADDC .rr (skip (List.replicate 5 ' ' ++
        ('r' :: (natDec n ++ ',' :: ' ' ::
          ('r' :: (natDec m ++ '\n' :: t)))))) from rfl]
  rw [skip_replicate, skip_rchar]
  exact args_rr .ADDC n m hn hm t

theorem lineok_SUBC (n m : Nat) (hn : n ≤ 6) (hm : m ≤ 6) :
    LineOk ⟨.SUBC, [.reg n, .reg m], none, none⟩ := by
  refine ⟨print_opcode "subc ".toList ++ ('r' :: natDec n) ++ [',', ' '] ++
    ('r' :: natDec m), rfl, fun t => ?_⟩
  have h1 : (print_opcode "subc ".toList ++ ('r' :: natDec n) ++ [',', ' '] ++
      ('r' :: natDec m)) ++ '\n' :: t =
      ' ' :: ' ' :: ' ' :: ' ' :: 's' :: 'u' :: 'b' :: 'c' ::
        (List.replicate 5 ' ' ++ ('r' :: (natDec n ++ ',' :: ' ' ::
          ('r' :: (natDec m ++ '\n' :: t))))) := by
    rw [show print_opcode "subc ".toList =
      ' ' :: ' ' :: ' ' :: ' ' :: 's' :: 'u' :: 'b' :: 'c' :: List.replicate 5 ' '
      from rfl]
    simp only [List.cons_append, List.nil_append, List.append_assoc]
  rw [h1, skip_space, skip_space, skip_space, skip_space,
    skip_not_of 's' _ (by decide) (by decide) (by decide)]
  rw [show parse_instruction ('s' :: 'u' :: 'b' :: 'c' ::
      (List.replicate 5 ' ' ++ ('r' :: (natDec n ++ ',' :: ' ' ::
        ('r' :: (natDec m ++ '\n' :: t)))))) =
      parse_args .SUBC .rr (skip (List.replicate 5 ' ' ++
        ('r' :: (natDec n ++ ',' :: ' ' ::
          ('r' :: (natDec m ++ '\n' :: t)))))) from rfl]
  rw [skip_replicate, skip_rchar]
  exact args_rr .SUBC n m hn hm t

theorem lineok_AND (n m : Nat) (hn : n ≤ 6) (hm : m ≤ 6) :
    LineOk ⟨.AND, [.reg n, .reg m], none, none⟩ := by
  refine ⟨print_opcode "and ".toList ++ ('r' :: natDec n) ++ [',', ' '] ++
    ('r' :: natDec m), rfl, fun t => ?_⟩
  have h1 : (print_opcode "and ".toList ++ ('r' :: natDec n) ++ [',', ' '] ++
      ('r' :: natDec m)) ++ '\n' :: t =
      ' ' :: ' ' :: ' ' :: ' ' :: 'a' :: 'n' :: 'd' ::
        (List.replicate 6 ' ' ++ ('r' :: (natDec n ++ ',' :: ' ' ::
          ('r' :: (natDec m ++ '\n' :: t))))) := by
    rw [show print_opcode "and ".toList =
      ' ' :: ' ' :: ' ' :: ' ' :: 'a' :: 'n' :: 'd' :: List.replicate 6 ' '
      from rfl]
    simp only [List.cons_append, List.nil_append, List.append_assoc]
  rw [h1, skip_space, skip_space, skip_space, skip_space,
    skip_not_of 'a' _ (by decide) (by decide) (by decide)]
  rw [show parse_instruction ('a' :: 'n' :: 'd' ::
      (List.replicate 6 ' ' ++ ('r' :: (natDec n ++ ',' :: ' ' ::
        ('r' :: (natDec m ++ '\n' :: t)))))) =
      parse_args .AND .rr (skip (List.replicate 6 ' ' ++
        ('r' :: (natDec n ++ ',' :: ' ' ::
          ('r' :: (natDec m ++ '\n' :: t)))))) from rfl]
  rw [skip_replicate, skip_rchar]
  exact args_rr .AND n m hn hm t

theorem lineok_OR (n m : Nat) (hn : n ≤ 6) (hm : m ≤ 6) :
    LineOk ⟨.OR, [.reg n, .reg m], none, none⟩ := by
  refine ⟨print_opcode "or ".toList ++ ('r' :: natDec n) ++ [',', ' '] ++
    ('r' :: natDec m), rfl, fun t => ?_⟩
  have h1 : (print_opcode "or ".toList ++ ('r' :: natDec n) ++ [',', ' '] ++
      ('r' :: natDec m)) ++ '\n' :: t =
      ' ' :: ' ' :: ' ' :: ' ' :: 'o' :: 'r' ::
        (List.replicate 7 ' ' ++ ('r' :: (natDec n ++ ',' :: ' ' ::
          ('r' :: (natDec m ++ '\n' :: t))))) := by
    rw [show print_opcode "or ".toList =
      ' ' :: ' ' :: ' ' :: ' ' :: 'o' :: 'r' :: List.replicate 7 ' '
      from rfl]
    simp only [List.cons_append, List.nil_append, List.append_assoc]
  rw [h1, skip_space, skip_space, skip_space, skip_space,
    skip_not_of 'o' _ (by decide) (by decide) (by decide)]
  rw [show parse_instruction ('o' :: 'r' ::
      (List.replicate 7 ' ' ++ ('r' :: (natDec n ++ ',' :: ' ' ::
        ('r' :: (natDec m ++ '\n' :: t)))))) =
      parse_args .OR .rr (skip (List.replicate 7 ' ' ++
        ('r' :: (natDec n ++ ',' :: ' ' ::
          ('r' :: (natDec m ++ '\n' :: t)))))) from rfl]
  rw [skip_replicate, skip_rchar]
  exact args_rr .OR n m hn hm t

theorem lineok_XOR (n m : Nat) (hn : n ≤ 6) (hm : m ≤ 6) :
    LineOk ⟨.XOR, [.reg n, .reg m], none, none⟩ := by
  refine ⟨print_opcode "xor ".toList ++ ('r' :: natDec n) ++ [',', ' '] ++
    ('r' :: natDec m), rfl, fun t => ?_⟩
  have h1 : (print_opcode "xor ".toList ++ ('r' :: natDec n) ++ [',', ' '] ++
      ('r' :: natDec m)) ++ '\n' :: t =
      ' ' :: ' ' :: ' ' :: ' ' :: 'x' :: 'o' :: 'r' ::
        (List.replicate 6 ' ' ++ ('r' :: (natDec n ++ ',' :: ' ' ::
          ('r' :: (natDec m ++ '\n' :: t))))) := by
    rw [show print_opcode "xor ".toList =
      ' ' :: ' ' :: ' ' :: ' ' :: 'x' :: 'o' :: 'r' :: List.replicate 6 ' '
      from rfl]
    simp only [List.cons_append, List.nil_append, List.append_assoc]
  rw [h1, skip_space, skip_space, skip_space, skip_space,
    skip_not_of 'x' _ (by decide) (by decide) (by decide)]
  rw [show parse_instruction ('x' :: 'o' :: 'r' ::
      (List.replicate 6 ' ' ++ ('r' :: (natDec n ++ ',' :: ' ' ::
        ('r' :: (natDec m ++ '\n' :: t)))))) =
      parse_args .XOR .rr (skip (List.replicate 6 ' ' ++
        ('r' :: (natDec n ++ ',' :: ' ' ::
          ('r' :: (natDec m ++ '\n' :: t)))))) from rfl]
  rw [skip_replicate, skip_rchar]
  exact args_rr .XOR n m hn hm t

theorem lineok_CMP (n m : Nat) (hn : n ≤ 6) (hm : m ≤ 6) :
    LineOk ⟨.CMP, [.reg n, .reg m], none, none⟩ := by
  refine ⟨print_opcode "cmp ".toList ++ ('r' :: natDec n) ++ [',', ' '] ++
    ('r' :: natDec m), rfl, fun t => ?_⟩
  have h1 : (print_opcode "cmp ".toList ++ ('r' :: natDec n) ++ [',', ' '] ++
      ('r' :: natDec m)) ++ '\n' :: t =
      ' ' :: ' ' :: ' ' :: ' ' :: 'c' :: 'm' :: 'p' ::
        (List.replicate 6 ' ' ++ ('r' :: (natDec n ++ ',' :: ' ' ::
          ('r' :: (natDec m ++ '\n' :: t))))) := by
    rw [show print_opcode "cmp ".toList =
      ' ' :: ' ' :: ' ' :: ' ' :: 'c' :: 'm' :: 'p' :: List.replicate 6 ' '
      from rfl]
    simp only [List.cons_append, List.nil_append, List.append_assoc]
  rw [h1, skip_space, skip_space, skip_space, skip_space,
    skip_not_of 'c' _ (by decide) (by decide) (by decide)]
  rw [show parse_instruction ('c' :: 'm' :: 'p' ::
      (List.replicate 6 ' ' ++ ('r' :: (natDec n ++ ',' :: ' ' ::
        ('r' :: (natDec m ++ '\n' :: t)))))) =
      parse_args .CMP .rr (skip (List.replicate 6 ' ' ++
        ('r' :: (natDec n ++ ',' :: ' ' ::
          ('r' :: (natDec m ++ '\n' :: t)))))) from rfl]
  rw [skip_replicate, skip_rchar]
  exact args_rr .CMP n m hn hm t

theorem lineok_TEST (n m : Nat) (hn : n ≤ 6) (hm : m ≤ 6) :
    LineOk ⟨.TEST, [.reg n, .reg m], none, none⟩ := by
  refine ⟨print_opcode "test ".toList ++ ('r' :: natDec n) ++ [',', ' '] ++
    ('r' :: natDec m), rfl, fun t => ?_⟩
  have h1 : (print_opcode "test ".toList ++ ('r' :: natDec n) ++ [',', ' '] ++
      ('r' :: natDec m)) ++ '\n' :: t =
      ' ' :: ' ' :: ' ' :: ' ' :: 't' :: 'e' :: 's' :: 't' ::
        (List.replicate 5 ' ' ++ ('r' :: (natDec n ++ ',' :: ' ' ::
          ('r' :: (natDec m ++ '\n' :: t))))) := by
    rw [show print_opcode "test ".toList =
      ' ' :: ' ' :: ' ' :: ' ' :: 't' :: 'e' :: 's' :: 't' :: List.replicate 5 ' '
      from rfl]
    simp only [List.cons_append, List.nil_append, List.append_assoc]
  rw [h1, skip_space, skip_space, skip_space, skip_space,
    skip_not_of 't' _ (by decide) (by decide) (by decide)]
  rw [show parse_instruction ('t' :: 'e' :: 's' :: 't' ::
      (List.replicate 5 ' ' ++ ('r' :: (natDec n ++ ',' :: ' ' ::
        ('r' :: (natDec m ++ '\n' :: t)))))) =
      parse_args .TEST .rr (skip (List.replicate 5 ' ' ++
        ('r' :: (natDec n ++ ',' :: ' ' ::
          ('r' :: (natDec m ++ '\n' :: t)))))) from rfl]
  rw [skip_replicate, skip_rchar]
  exact args_rr .TEST n m hn hm t

theorem lineok_ADDI (n : Nat) (hn : n ≤ 6) (v : Int) :
    LineOk ⟨.ADDI, [.reg n, .imm v], none, none⟩ := by
  refine ⟨print_opcode "addi ".toList ++ ('r' :: natDec n) ++ [',', ' '] ++
    intDec v, rfl, fun t => ?_⟩
  have h1 : (print_opcode "addi ".toList ++ ('r' :: natDec n) ++ [',', ' '] ++
      intDec v) ++ '\n' :: t =
      ' ' :: ' ' :: ' ' :: ' ' :: 'a' :: 'd' :: 'd' :: 'i' ::
        (List.replicate 5 ' ' ++ ('r' :: (natDec n ++ ',' :: ' ' ::
          (intDec v ++ '\n' :: t)))) := by
    rw [show print_opcode "addi ".toList =
      ' ' :: ' ' :: ' ' :: ' ' :: 'a' :: 'd' :: 'd' :: 'i' :: List.replicate 5 ' '
      from rfl]
    simp only [List.cons_append, List.nil_append, List.append_assoc]
  rw [h1, skip_space, skip_space, skip_space, skip_space,
    skip_not_of 'a' _ (by decide) (by decide) (by decide)]
  rw [show parse_instruction ('a' :: 'd' :: 'd' :: 'i' ::
      (List.replicate 5 ' ' ++ ('r' :: (natDec n ++ ',' :: ' ' ::
        (intDec v ++ '\n' :: t))))) =
      parse_args .ADDI .ri (skip (List.replicate 5 ' ' ++
        ('r' :: (natDec n ++ ',' :: ' ' ::
          (intDec v ++ '\n' :: t))))) from rfl]
  rw [skip_replicate, skip_rchar]
  exact args_ri .ADDI n hn v t

theorem lineok_ADDCI (n : Nat) (hn : n ≤ 6) (v : Int) :
    LineOk ⟨.ADDCI, [.reg n, .imm v], none, none⟩ := by
  refine ⟨print_opcode "addci ".toList ++ ('r' :: natDec n) ++ [',', ' '] ++
    intDec v, rfl, fun t => ?_⟩
  have h1 : (print_opcode "addci ".toList ++ ('r' :: natDec n) ++ [',', ' '] ++
      intDec v) ++ '\n' :: t =
      ' ' :: ' ' :: ' ' :: ' ' :: 'a' :: 'd' :: 'd' :: 'c' :: 'i' ::
        (List.replicate 4 ' ' ++ ('r' :: (natDec n ++ ',' :: ' ' ::
          (intDec v ++ '\n' :: t)))) := by
    rw [show print_opcode "addci ".toList =
      ' ' :: ' ' :: ' ' :: ' ' :: 'a' :: 'd' :: 'd' :: 'c' :: 'i' :: List.replicate 4 ' '
      from rfl]
    simp only [List.cons_append, List.nil_append, List.append_assoc]
  rw [h1, skip_space, skip_space, skip_space, skip_space,
    skip_not_of 'a' _ (by decide) (by decide) (by decide)]
  rw [show parse_instruction ('a' :: 'd' :: 'd' :: 'c' :: 'i' ::
      (List.replicate 4 ' ' ++ ('r' :: (natDec n ++ ',' :: ' ' ::
        (intDec v ++ '\n' :: t))))) =
      parse_args .ADDCI .ri (skip (List.replicate 4 ' ' ++
        ('r' :: (natDec n ++ ',' :: ' ' ::
          (intDec v ++ '\n' :: t))))) from rfl]
  rw [skip_replicate, skip_rchar]
  exact args_ri .ADDCI n hn v t

theorem lineok_ANDI (n : Nat) (hn : n ≤ 6) (v : Int) :
    LineOk ⟨.ANDI, [.reg n, .imm v], none, none⟩ := by
  refine ⟨print_opcode "andi ".toList ++ ('r' :: natDec n) ++ [',', ' '] ++
    intDec v, rfl, fun t => ?_⟩
  have h1 : (print_opcode "andi ".toList ++ ('r' :: natDec n) ++ [',', ' '] ++
      intDec v) ++ '\n' :: t =
      ' ' :: ' ' :: ' ' :: ' ' :: 'a' :: 'n' :: 'd' :: 'i' ::
        (List.replicate 5 ' ' ++ ('r' :: (natDec n ++ ',' :: ' ' ::
          (intDec v ++ '\n' :: t)))) := by
    rw [show print_opcode "andi ".toList =
      ' ' :: ' ' :: ' ' :: ' ' :: 'a' :: 'n' :: 'd' :: 'i' :: List.replicate 5 ' '
      from rfl]
    simp only [List.cons_append, List.nil_append, List.append_assoc]
  rw [h1, skip_space, skip_space, skip_space, skip_space,
    skip_not_of 'a' _ (by decide) (by decide) (by decide)]
  rw [show parse_instruction ('a' :: 'n' :: 'd' :: 'i' ::
      (List.replicate 5 ' ' ++ ('r' :: (natDec n ++ ',' :: ' ' ::
        (intDec v ++ '\n' :: t))))) =
      parse_args .ANDI .ri (skip (List.replicate 5 ' ' ++
        ('r' :: (natDec n ++ ',' :: ' ' ::
          (intDec v ++ '\n' :: t))))) from rfl]
  rw [skip_replicate, skip_rchar]
  exact args_ri .ANDI n hn v t

theorem lineok_ORI (n : Nat) (hn : n ≤ 6) (v : Int) :
    LineOk ⟨.ORI, [.reg n, .imm v], none, none⟩ := by
  refine ⟨print_opcode "ori ".toList ++ ('r' :: natDec n) ++ [',', ' '] ++
    intDec v, rfl, fun t => ?_⟩
  have h1 : (print_opcode "ori ".toList ++ ('r' :: natDec n) ++ [',', ' '] ++
      intDec v) ++ '\n' :: t =
      ' ' :: ' ' :: ' ' :: ' ' :: 'o' :: 'r' :: 'i' ::
        (List.replicate 6 ' ' ++ ('r' :: (natDec n ++ ',' :: ' ' ::
          (intDec v ++ '\n' :: t)))) := by
    rw [show print_opcode "ori ".toList =
      ' ' :: ' ' :: ' ' :: ' ' :: 'o' :: 'r' :: 'i' :: List.replicate 6 ' '
      from rfl]
    simp only [List.cons_append, List.nil_append, List.append_assoc]
  rw [h1, skip_space, skip_space, skip_space, skip_space,
    skip_not_of 'o' _ (by decide) (by decide) (by decide)]
  rw [show parse_instruction ('o' :: 'r' :: 'i' ::
      (List.replicate 6 ' ' ++ ('r' :: (natDec n ++ ',' :: ' ' ::
        (intDec v ++ '\n' :: t))))) =
      parse_args .ORI .ri (skip (List.replicate 6 ' ' ++
        ('r' :: (natDec n ++ ',' :: ' ' ::
          (intDec v ++ '\n' :: t))))) from rfl]
  rw [skip_replicate, skip_rchar]
  exact args_ri .ORI n hn v t

theorem lineok_XORI (n : Nat) (hn : n ≤ 6) (v : Int) :
    LineOk ⟨.XORI, [.reg n, .imm v], none, none⟩ := by
  refine ⟨print_opcode "xori ".toList ++ ('r' :: natDec n) ++ [',', ' '] ++
    intDec v, rfl, fun t => ?_⟩
  have h1 : (print_opcode "xori ".toList ++ ('r' :: natDec n) ++ [',', ' '] ++
      intDec v) ++ '\n' :: t =
      ' ' :: ' ' :: ' ' :: ' ' :: 'x' :: 'o' :: 'r' :: 'i' ::
        (List.replicate 5 ' ' ++ ('r' :: (natDec n ++ ',' :: ' ' ::
          (intDec v ++ '\n' :: t)))) := by
    rw [show print_opcode "xori ".toList =
      ' ' :: ' ' :: ' ' :: ' ' :: 'x' :: 'o' :: 'r' :: 'i' :: List.replicate 5 ' '
      from rfl]
    simp only [List.cons_append, List.nil_append, List.append_assoc]
  rw [h1, skip_space, skip_space, skip_space, skip_space,
    skip_not_of 'x' _ (by decide) (by decide) (by decide)]
  rw [show parse_instruction ('x' :: 'o' :: 'r' :: 'i' ::
      (List.replicate 5 ' ' ++ ('r' :: (natDec n ++ ',' :: ' ' ::
        (intDec v ++ '\n' :: t))))) =
      parse_args .XORI .ri (skip (List.replicate 5 ' ' ++
        ('r' :: (natDec n ++ ',' :: ' ' ::
          (intDec v ++ '\n' :: t))))) from rfl]
  rw [skip_replicate, skip_rchar]
  exact args_ri .XORI n hn v t

theorem lineok_CMPI (n : Nat) (hn : n ≤ 6) (v : Int) :
    LineOk ⟨.CMPI, [.reg n, .imm v], none, none⟩ := by
  refine ⟨print_opcode "cmpi ".toList ++ ('r' :: natDec n) ++ [',', ' '] ++
    intDec v, rfl, fun t => ?_⟩
  have h1 : (print_opcode "cmpi ".toList ++ ('r' :: natDec n) ++ [',', ' '] ++
      intDec v) ++ '\n' :: t =
      ' ' :: ' ' :: ' ' :: ' ' :: 'c' :: 'm' :: 'p' :: 'i' ::
        (List.replicate 5 ' ' ++ ('r' :: (natDec n ++ ',' :: ' ' ::
          (intDec v ++ '\n' :: t)))) := by
    rw [show print_opcode "cmpi ".toList =
      ' ' :: ' ' :: ' ' :: ' ' :: 'c' :: 'm' :: 'p' :: 'i' :: List.replicate 5 ' '
      from rfl]
    simp only [List.cons_append, List.nil_append, List.append_assoc]
  rw [h1, skip_space, skip_space, skip_space, skip_space,
    skip_not_of 'c' _ (by decide) (by decide) (by decide)]
  rw [show parse_instruction ('c' :: 'm' :: 'p' :: 'i' ::
      (List.replicate 5 ' ' ++ ('r' :: (natDec n ++ ',' :: ' ' ::
        (intDec v ++ '\n' :: t))))) =
      parse_args .CMPI .ri (skip (List.replicate 5 ' ' ++
        ('r' :: (natDec n ++ ',' :: ' ' ::
          (intDec v ++ '\n' :: t))))) from rfl]
  rw [skip_replicate, skip_rchar]
  exact args_ri .CMPI n hn v t

theorem lineok_TESTI (n : Nat) (hn : n ≤ 6) (v : Int) :
    LineOk ⟨.TESTI, [.reg n, .imm v], none, none⟩ := by
  refine ⟨print_opcode "testi ".toList ++ ('r' :: natDec n) ++ [',', ' '] ++
    intDec v, rfl, fun t => ?_⟩
  have h1 : (print_opcode "testi ".toList ++ ('r' :: natDec n) ++ [',', ' '] ++
      intDec v) ++ '\n' :: t =
      ' ' :: ' ' :: ' ' :: ' ' :: 't' :: 'e' :: 's' :: 't' :: 'i' ::
        (List.replicate 4 ' ' ++ ('r' :: (natDec n ++ ',' :: ' ' ::
          (intDec v ++ '\n' :: t)))) := by
    rw [show print_opcode "testi ".toList =
      ' ' :: ' ' :: ' ' :: ' ' :: 't' :: 'e' :: 's' :: 't' :: 'i' :: List.replicate 4 ' '
      from rfl]
    simp only [List.cons_append, List.nil_append, List.append_assoc]
  rw [h1, skip_space, skip_space, skip_space, skip_space,
    skip_not_of 't' _ (by decide) (by decide) (by decide)]
  rw [show parse_instruction ('t' :: 'e' :: 's' :: 't' :: 'i' ::
      (List.replicate 4 ' ' ++ ('r' :: (natDec n ++ ',' :: ' ' ::
        (intDec v ++ '\n' :: t))))) =
      parse_args .TESTI .ri (skip (List.replicate 4 ' ' ++
        ('r' :: (natDec n ++ ',' :: ' ' ::
          (intDec v ++ '\n' :: t))))) from rfl]
  rw [skip_replicate, skip_rchar]
  exact args_ri .TESTI n hn v t

end Assembler

namespace Assembler

/-- The instructions the parser itself can produce: one constructor per
`parse_instruction` branch, with in-range register indices, no
address/encoding annotations, and label names made of word characters
that do not look like integers. -/
inductive WF : Instruction → Prop where
  | nop : WF ⟨.NOP, [], none, none⟩
  | halt : WF ⟨.HALT, [], none, none⟩
  | jro (n : Nat) (hn : n ≤ 6) : WF ⟨.JRO, [.reg n], none, none⟩
  | lcdcw (n : Nat) (hn : n ≤ 6) : WF ⟨.LCDCW, [.reg n], none, none⟩
  | lcddw (n : Nat) (hn : n ≤ 6) : WF ⟨.LCDDW, [.reg n], none, none⟩
  | lcdcr (n : Nat) (hn : n ≤ 6) : WF ⟨.LCDCR, [.reg n], none, none⟩
  | lcddr (n : Nat) (hn : n ≤ 6) : WF ⟨.LCDDR, [.reg n], none, none⟩
  | not (n : Nat) (hn : n ≤ 6) : WF ⟨.NOT, [.reg n], none, none⟩
  | neg (n : Nat) (hn : n ≤ 6) : WF ⟨.NEG, [.reg n], none, none⟩
  | shll (n : Nat) (hn : n ≤ 6) : WF ⟨.SHLL, [.reg n], none, none⟩
  | shlc (n : Nat) (hn : n ≤ 6) : WF ⟨.SHLC, [.reg n], none, none⟩
  | shrl (n : Nat) (hn : n ≤ 6) : WF ⟨.SHRL, [.reg n], none, none⟩
  | shrc (n : Nat) (hn : n ≤ 6) : WF ⟨.SHRC, [.reg n], none, none⟩
  | shra (n : Nat) (hn : n ≤ 6) : WF ⟨.SHRA, [.reg n], none, none⟩
  | fswap (n : Nat) (hn : n ≤ 6) : WF ⟨.FSWAP, [.reg n], none, none⟩
  | fr (n : Nat) (hn : n ≤ 6) : WF ⟨.FR, [.reg n], none, none⟩
  | fw (n : Nat) (hn : n ≤ 6) : WF ⟨.FW, [.reg n], none, none⟩
  | mv (n m : Nat) (hn : n ≤ 6) (hm : m ≤ 6) : WF ⟨.MV, [.reg n, .reg m], none, none⟩
  | add (n m : Nat) (hn : n ≤ 6) (hm : m ≤ 6) : WF ⟨.ADD, [.reg n, .reg m], none, none⟩
  | sub (n m : Nat) (hn : n ≤ 6) (hm : m ≤ 6) : WF ⟨.SUB, [.reg n, .reg m], none, none⟩
  | addc (n m : Nat) (hn : n ≤ 6) (hm : m ≤ 6) : WF ⟨.ADDC, [.reg n, .reg m], none, none⟩
  | subc (n m : Nat) (hn : n ≤ 6) (hm : m ≤ 6) : WF ⟨.SUBC, [.reg n, .reg m], none, none⟩
  | and (n m : Nat) (hn : n ≤ 6) (hm : m ≤ 6) : WF ⟨.AND, [.reg n, .reg m], none, none⟩
  | or (n m : Nat) (hn : n ≤ 6) (hm : m ≤ 6) : WF ⟨.OR, [.reg n, .reg m], none, none⟩
  | xor (n m : Nat) (hn : n ≤ 6) (hm : m ≤ 6) : WF ⟨.XOR, [.reg n, .reg m], none, none⟩
  | cmp (n m : Nat) (hn : n ≤ 6) (hm : m ≤ 6) : WF ⟨.CMP, [.reg n, .reg m], none, none⟩
  | test (n m : Nat) (hn : n ≤ 6) (hm : m ≤ 6) : WF ⟨.TEST, [.reg n, .reg m], none, none⟩
  | ldi (n : Nat) (hn : n ≤ 6) (v : Int) : WF ⟨.LDI, [.reg n, .imm v], none, none⟩
  | addi (n : Nat) (hn : n ≤ 6) (v : Int) : WF ⟨.ADDI, [.reg n, .imm v], none, none⟩
  | addci (n : Nat) (hn : n ≤ 6) (v : Int) : WF ⟨.ADDCI, [.reg n, .imm v], none, none⟩
  | andi (n : Nat) (hn : n ≤ 6) (v : Int) : WF ⟨.ANDI, [.reg n, .imm v], none, none⟩
  | ori (n : Nat) (hn : n ≤ 6) (v : Int) : WF ⟨.ORI, [.reg n, .imm v], none, none⟩
  | xori (n : Nat) (hn : n ≤ 6) (v : Int) : WF ⟨.XORI, [.reg n, .imm v], none, none⟩
  | cmpi (n : Nat) (hn : n ≤ 6) (v : Int) : WF ⟨.CMPI, [.reg n, .imm v], none, none⟩
  | testi (n : Nat) (hn : n ≤ 6) (v : Int) : WF ⟨.TESTI, [.reg n, .imm v], none, none⟩
  | jr (n : Nat) (hn : n ≤ 5) : WF ⟨.JR, [.regPair n], none, none⟩
  | j_imm (v : Int) : WF ⟨.J, [.imm v], none, none⟩
  | j_label (s : String) (hs1 : s.toList ≠ [])
      (hs2 : ∀ a ∈ s.toList, isWordChar a = true)
      (hs3 : offsetBase s.toList = none) :
      WF ⟨.J, [.offset ⟨s, none, none⟩], none, none⟩
  | br (cond : Condition) (n : Nat) (hn : n ≤ 5) :
      WF ⟨.BR, [.cond cond, .regPair n], none, none⟩
  | b_imm (cond : Condition) (v : Int) :
      WF ⟨.B, [.cond cond, .imm v], none, none⟩
  | b_label (cond : Condition) (s : String) (hs1 : s.toList ≠ [])
      (hs2 : ∀ a ∈ s.toList, isWordChar a = true)
      (hs3 : offsetBase s.toList = none) :
      WF ⟨.B, [.cond cond, .offset ⟨s, none, none⟩], none, none⟩
  | bro (cond : Condition) (n : Nat) (hn : n ≤ 6) :
      WF ⟨.BRO, [.cond cond, .reg n], none, none⟩
  | cmv (cond : Condition) (n m : Nat) (hn : n ≤ 6) (hm : m ≤ 6) :
      WF ⟨.CMV, [.cond cond, .reg n, .reg m], none, none⟩
  | cldi (cond : Condition) (n : Nat) (hn : n ≤ 6) (v : Int) :
      WF ⟨.CLDI, [.cond cond, .reg n, .imm v], none, none⟩
  | org (v : Int) (hv : 0 ≤ v) : WF ⟨.D_ORG, [.imm v], none, none⟩
  | label (s : String) (hs1 : s.toList ≠ [])
      (hs2 : ∀ a ∈ s.toList, isWordChar a = true) :
      WF ⟨.D_LABEL, [.label s], none, none⟩

theorem wf_anno (inst : Instruction) (h : WF inst) :
    inst.address = none ∧ inst.encoding = none := by
  cases h <;> exact ⟨rfl, rfl⟩

theorem wf_lineok (inst : Instruction) (h : WF inst) : LineOk inst := by
  cases h with
  | nop => exact lineok_NOP
  | halt => exact lineok_HALT
  | jro n hn => exact lineok_JRO n hn
  | lcdcw n hn => exact lineok_LCDCW n hn
  | lcddw n hn => exact lineok_LCDDW n hn
  | lcdcr n hn => exact lineok_LCDCR n hn
  | lcddr n hn => exact lineok_LCDDR n hn
  | not n hn => exact lineok_NOT n hn
  | neg n hn => exact lineok_NEG n hn
  | shll n hn => exact lineok_SHLL n hn
  | shlc n hn => exact lineok_SHLC n hn
  | shrl n hn => exact lineok_SHRL n hn
  | shrc n hn => exact lineok_SHRC n hn
  | shra n hn => exact lineok_SHRA n hn
  | fswap n hn => exact lineok_FSWAP n hn
  | fr n hn => exact lineok_FR n hn
  | fw n hn => exact lineok_FW n hn
  | mv n m hn hm => exact lineok_MV n m hn hm
  | add n m hn hm => exact lineok_ADD n m hn hm
  | sub n m hn hm => exact lineok_SUB n m hn hm
  | addc n m hn hm => exact lineok_ADDC n m hn hm
  | subc n m hn hm => exact lineok_SUBC n m hn hm
  | and n m hn hm => exact lineok_AND n m hn hm
  | or n m hn hm => exact lineok_OR n m hn hm
  | xor n m hn hm => exact lineok_XOR n m hn hm
  | cmp n m hn hm => exact lineok_CMP n m hn hm
  | test n m hn hm => exact lineok_TEST n m hn hm
  | ldi n hn v => exact lineok_LDI n hn v
  | addi n hn v => exact lineok_ADDI n hn v
  | addci n hn v => exact lineok_ADDCI n hn v
  | andi n hn v => exact lineok_ANDI n hn v
  | ori n hn v => exact lineok_ORI n hn v
  | xori n hn v => exact lineok_XORI n hn v
  | cmpi n hn v => exact lineok_CMPI n hn v
  | testi n hn v => exact lineok_TESTI n hn v
  | jr n hn => exact lineok_JR n hn
  | j_imm v => exact lineok_J_imm v
  | j_label s hs1 hs2 hs3 => exact lineok_J_label s hs1 hs2 hs3
  | br cond n hn => exact lineok_BR cond n hn
  | b_imm cond v => exact lineok_B_imm cond v
  | b_label cond s hs1 hs2 hs3 => exact lineok_B_label cond s hs1 hs2 hs3
  | bro cond n hn => exact lineok_BRO cond n hn
  | cmv cond n m hn hm => exact lineok_CMV cond n m hn hm
  | cldi cond n hn v => exact lineok_CLDI cond n hn v
  | org v hv => exact lineok_ORG v hv
  | label s hs1 hs2 => exact lineok_LABEL s hs1 hs2

end Assembler

namespace Assembler

theorem print_parse_lines :
    ∀ (prog : List Instruction), (∀ i ∈ prog, WF i) →
      ∃ lines : List (List Char),
        prog.mapM (fun i => do
          let s ← print_instruction false false i
          pure (s ++ ['\n'])) = .ok lines ∧
        prog.length ≤ lines.flatten.length ∧
        ∀ (t : List Char) (acc : List Instruction) (fuel : Nat),
          parse_program_go (prog.length + fuel)
            (skip (lines.flatten ++ t)) acc =
          parse_program_go fuel (skip t) (prog.reverse ++ acc) := by
  intro prog
  induction prog with
  | nil =>
    intro _
    refine ⟨[], by rw [List.mapM_nil]; rfl, by simp, fun t acc fuel => ?_⟩
    simp only [List.flatten_nil, List.nil_append, List.reverse_nil,
      List.length_nil, Nat.zero_add]
  | cons i rest ih =>
    intro hwf
    obtain ⟨lines', hmap', hlen', hgo'⟩ :=
      ih (fun a ha => hwf a (List.mem_cons_of_mem _ ha))
    obtain ⟨body, hbody, hparse⟩ := wf_lineok i (hwf i (List.mem_cons_self _ _))
    have hpio : print_instruction false false i = .ok body := by
      have h0 : print_instruction false false i =
          (print_body i) >>= (fun b => pure b) := rfl
      rw [h0, hbody]
      rfl
    refine ⟨(body ++ ['\n']) :: lines', ?_, ?_, ?_⟩
    · rw [List.mapM_cons, hpio, hmap']
      rfl
    · simp only [List.flatten_cons, List.length_append, List.length_cons,
        List.length_nil]
      omega
    · intro t acc fuel
      have h2 : (((body ++ ['\n']) :: lines').flatten) ++ t =
          body ++ '\n' :: (lines'.flatten ++ t) := by
        simp only [List.flatten_cons, List.cons_append, List.nil_append,
          List.append_assoc]
      rw [h2]
      have hne : skip (body ++ '\n' :: (lines'.flatten ++ t)) ≠ [] := by
        intro h0
        have hx := hparse (lines'.flatten ++ t)
        rw [h0] at hx
        rw [show parse_instruction [] =
          (.error (.pyError "unknown instruction") :
            Except AsmError (Instruction × List Char)) from rfl] at hx
        cases hx
      rw [show (i :: rest).length + fuel = (rest.length + fuel) + 1 from by
        simp only [List.length_cons]; omega]
      have h3 : parse_program_go ((rest.length + fuel) + 1)
          (skip (body ++ '\n' :: (lines'.flatten ++ t))) acc =
          parse_program_go (rest.length + fuel)
            (skip (lines'.flatten ++ t)) (i :: acc) := by
        rw [parse_program_go, if_neg hne, hparse (lines'.flatten ++ t)]
        rfl
      rw [h3, hgo' t (i :: acc) fuel]
      simp only [List.reverse_cons, List.append_assoc, List.cons_append,
        List.nil_append]

end Assembler

namespace Assembler

/-- C9: the amended print round-trip.  For an annotation-free program
built from the parser's own instruction shapes (`WF`), printing succeeds
and parsing the printed text returns exactly the original program. -/
theorem C9_print_parse_roundtrip (prog : List Instruction)
    (hwf : ∀ i ∈ prog, WF i) :
    ∃ text, print_program prog = .ok text ∧ parse_program text = .ok prog := by
  obtain ⟨lines, hmap, hlen, hgo⟩ := print_parse_lines prog hwf
  refine ⟨lines.flatten, ?_, ?_⟩
  · have ha : prog.any (fun i => i.address.isSome) = false := by
      rw [List.any_eq_false]
      intro x hx
      rw [(wf_anno x (hwf x hx)).1]
      simp
    have he : prog.any (fun i => i.encoding.isSome) = false := by
      rw [List.any_eq_false]
      intro x hx
      rw [(wf_anno x (hwf x hx)).2]
      simp
    simp only [print_program]
    rw [ha, he, hmap]
    rfl
  · rw [parse_program]
    have hch := hgo [] [] (lines.flatten.length - prog.length)
    rw [List.append_nil] at hch
    rw [show prog.length + (lines.flatten.length - prog.length) =
      lines.flatten.length from by omega] at hch
    rw [hch, skip_nil]
    cases lines.flatten.length - prog.length with
    | zero =>
      rw [parse_program_go, if_pos rfl]
      simp
    | succ f =>
      rw [parse_program_go, if_pos rfl]
      simp

/-- Closed instance of `C9_print_parse_roundtrip` on a five-instruction
program exercising a directive, a label, and three instruction shapes. -/
theorem C9_print_parse_roundtrip_witness :
    ∃ text,
      print_program
        [⟨.D_ORG, [.imm 16], none, none⟩,
         ⟨.D_LABEL, [.label "start"], none, none⟩,
         ⟨.LDI, [.reg 3, .imm (-5)], none, none⟩,
         ⟨.B, [.cond .ULT, .offset ⟨"start", none, none⟩], none, none⟩,
         ⟨.HALT, [], none, none⟩] = .ok text ∧
      parse_program text = .ok
        [⟨.D_ORG, [.imm 16], none, none⟩,
         ⟨.D_LABEL, [.label "start"], none, none⟩,
         ⟨.LDI, [.reg 3, .imm (-5)], none, none⟩,
         ⟨.B, [.cond .ULT, .offset ⟨"start", none, none⟩], none, none⟩,
         ⟨.HALT, [], none, none⟩] :=
  C9_print_parse_roundtrip
    [⟨.D_ORG, [.imm 16], none, none⟩,
     ⟨.D_LABEL, [.label "start"], none, none⟩,
     ⟨.LDI, [.reg 3, .imm (-5)], none, none⟩,
     ⟨.B, [.cond .ULT, .offset ⟨"start", none, none⟩], none, none⟩,
     ⟨.HALT, [], none, none⟩]
    (by
      intro i hi
      simp only [List.mem_cons, List.not_mem_nil, or_false] at hi
      rcases hi with rfl | rfl | rfl | rfl | rfl
      · exact WF.org 16 (by decide)
      · exact WF.label "start" (by decide) (by decide)
      · exact WF.ldi 3 (by decide) (-5)
      · exact WF.b_label .ULT "start" (by decide) (by decide) (by decide)
      · exact WF.halt)

/-- C9 counterexample to the literal claim: the resolved, encoded form
of the one-instruction program `nop` prints with address and encoding
columns, and the parser rejects that text (the `0000` encoding column is
not a mnemonic), so parsing does not yield a program at all. -/
theorem C9_counterexample :
    (do
      let r ← resolve_program [⟨.NOP, [], none, none⟩]
      let l ← layout_program r
      let e ← evaluate_program l
      encode_program e) =
      .ok [({ opcode := .NOP, operands := [], address := some 0,
              encoding := some 0 } : Instruction)] ∧
    print_program
      [({ opcode := .NOP, operands := [], address := some 0,
          encoding := some 0 } : Instruction)] =
      .ok "0000:  0000      nop      \n".toList ∧
    parse_program "0000:  0000      nop      \n".toList =
      .error (.pyError "unknown instruction") :=
  ⟨rfl, rfl, rfl⟩

end Assembler
